import Mathlib

/-!
# EWS (jkent/acews): route matcher, path normalisation and request-line dispatch

A shallow embedding of `src/utils.c` (`fnmatch`, `find`), of `parse_path`,
`call_handler`, `http_error`, `finalize` and `request_begin` from `src/http.c`,
and of the route list of `src/route.c`.

Conventions.
* A byte is a `Nat` below 256.  A C string is the list of its bytes before the
  terminating NUL.  A `char *` into a string is the suffix of the list that
  starts at the pointed byte; a `char *` into the session buffer is an offset.
* Memory (the session receive buffer) is a `List Nat`; a read outside of it
  yields 0.
-/

namespace Ews

/-! ## Bytes and C strings -/

/-- The bytes of a string literal. -/
def bytes (s : String) : List Nat := s.toList.map Char.toNat

/-- The function `isdigit` of `<ctype.h>` in the C locale. -/
def isdigit (c : Nat) : Bool := decide (48 ≤ c) && decide (c ≤ 57)

/-- The function `isxdigit` of `<ctype.h>` in the C locale. -/
def isxdigit (c : Nat) : Bool :=
  isdigit c || (decide (65 ≤ c) && decide (c ≤ 70)) || (decide (97 ≤ c) && decide (c ≤ 102))

/-- The function `toupper` of `<ctype.h>` in the C locale. -/
def toupper (c : Nat) : Nat := if 97 ≤ c ∧ c ≤ 122 then c - 32 else c

/-- The function `isspace` of `<ctype.h>` in the C locale: space, `\t`, `\n`, `\v`, `\f`, `\r`. -/
def isspace (c : Nat) : Bool := decide (c = 32) || (decide (9 ≤ c) && decide (c ≤ 13))

/-! ## `fnmatch` (src/utils.c) -/

/-- The head of the loop body of `fnmatch`: `if (*p == '*') { p++; if (p == pe) return true; pl = p; }`.
`none` stands for the `return true`. -/
def fnmatch_star (p : List Nat) (pl : Option (List Nat)) :
    Option (List Nat × Option (List Nat)) :=
  match p with
  | 42 :: p1 => if p1 = [] then none else some (p1, some p1)
  | _ => some (p, pl)

/-- The `while (true)` loop of `fnmatch`.  `p` and `s` are the unread suffixes of
pattern and string (`p == pe` is `p = []`), `pl` is the rewind pointer
(`none` is `NULL`).  Every iteration that does not return advances `s`. -/
def fnmatch_loop : List Nat → List Nat → Option (List Nat) → Bool
  | [], p, pl =>
    match fnmatch_star p pl with
    | none => true
    | some ([], _) => true
    | some (_ :: _, _) => false
  | sc :: s1, p, pl =>
    match fnmatch_star p pl with
    | none => true
    | some ([], _) => false
    | some (pc :: p1, pl1) =>
      if pc = sc ∨ pc = 63 then fnmatch_loop s1 p1 pl1
      else
        match pl1 with
        | some q => fnmatch_loop s1 q pl1
        | none => false

/-- The function `bool fnmatch(const char *pattern, const char *string)`. -/
def fnmatch (pattern string : List Nat) : Bool := fnmatch_loop string pattern none

/-- The glob dialect of the route matcher: `?` is one byte, `*` is any run of
bytes, every other byte is itself. -/
inductive Glob : List Nat → List Nat → Prop
  | nil : Glob [] []
  | star (run rest p : List Nat) : Glob p rest → Glob (42 :: p) (run ++ rest)
  | one (c : Nat) (p s : List Nat) : Glob p s → Glob (63 :: p) (c :: s)
  | lit (c : Nat) (p s : List Nat) : c ≠ 42 → c ≠ 63 → Glob p s → Glob (c :: p) (c :: s)

/-- One pattern byte of a star-free pattern against one string byte. -/
def charMatch (pc sc : Nat) : Prop := pc = 63 ∨ pc = sc

/-! ## Memory -/

/-- Read one byte of memory. -/
def rd (mem : List Nat) (i : Nat) : Nat := mem.getD i 0

/-- Write one byte of memory. -/
def wr (mem : List Nat) (i v : Nat) : List Nat := mem.set i v

/-- The C string that starts at offset `i`: the bytes before the first NUL. -/
def cstring (mem : List Nat) (i : Nat) : List Nat := (mem.drop i).takeWhile (fun b => b ≠ 0)

/-- The value `strlen` of the C string at offset `i`. -/
def strlen (mem : List Nat) (i : Nat) : Nat := (cstring mem i).length

/-! ## `parse_path` (src/http.c) -/

/-- Session data shown to handlers (`struct ews_sess_data`).  Pointers are offsets into
the session buffer, `none` is `NULL`.  The C unions share storage: `path`/`name`/`chunk`,
`path_len`/`name_len`/`chunk_len`, `query`/`value`, `query_len`/`value_len`. -/
structure ews_sess_data where
  path : Option Nat
  path_len : Nat
  query : Option Nat
  query_len : Nat
  method : Nat
  deriving DecidableEq, Repr

/-- The value of one hex digit as `parse_path` computes it:
`toupper(c) - (isdigit(c) ? '0' : 'A' - 10)`. -/
def hexval (c : Nat) : Nat := toupper c - (if isdigit c then 48 else 65 - 10)

/-- The inner loop of the `/..` branch:
`while (data->path_len > 0) { po--; data->path_len--; if (*po == '/') break; }`.
Returns the new `path_len` and `po`. -/
def parse_path_pop (mem : List Nat) : Nat → Nat → Nat × Nat
  | 0, po => (0, po)
  | n + 1, po => if rd mem (po - 1) = 47 then (n, po - 1) else parse_path_pop mem n (po - 1)

/-- The `while (*pi)` loop of `parse_path`, in place on `mem`, with `pi` and `po` as
offsets.  Every iteration advances `pi`, so `fuel` bounds the number of iterations;
`none` is returned only when the fuel is used up. -/
def parse_path_loop : Nat → List Nat → Nat → Nat → ews_sess_data →
    Option (List Nat × ews_sess_data)
  | 0, _, _, _, _ => none
  | fuel + 1, mem, pi, po, data =>
    let c := rd mem pi
    let copy := parse_path_loop fuel (wr mem po c) (pi + 1) (po + 1)
      { data with path_len := data.path_len + 1 }
    if c = 0 then
      -- loop exit: `if (data->query) data->query_len = strlen(data->query);`
      match data.query with
      | some q => some (mem, { data with query_len := strlen mem q })
      | none => some (mem, data)
    else if c = 37 ∧ isxdigit (rd mem (pi + 1)) = true ∧ isxdigit (rd mem (pi + 2)) = true then
      let mem1 := wr mem po ((hexval (rd mem (pi + 1)) <<< 4) % 256)
      let mem2 := wr mem1 po ((rd mem1 po ||| hexval (rd mem1 (pi + 2))) % 256)
      parse_path_loop fuel mem2 (pi + 3) (po + 1) { data with path_len := data.path_len + 1 }
    else if c = 43 then
      parse_path_loop fuel (wr mem po 32) (pi + 1) (po + 1)
        { data with path_len := data.path_len + 1 }
    else if c = 47 then
      if rd mem (pi + 1) = 46 then
        if rd mem (pi + 2) = 0 ∨ rd mem (pi + 2) = 47 then
          parse_path_loop fuel mem (pi + 2) po data
        else if rd mem (pi + 2) = 46 ∧ (c + 3 = 0 ∨ c + 3 = 47) then
          -- `(*pi + 3) == '\0' || (*pi + 3) == '/'`: the byte at `pi` plus three
          let r := parse_path_pop mem data.path_len po
          parse_path_loop fuel mem (pi + 3) r.2 { data with path_len := r.1 }
        else copy
      else if 0 < data.path_len ∧ rd mem (po - 1) = 47 then
        parse_path_loop fuel mem (pi + 1) po data
      else copy
    else if c = 63 then
      -- `pi++; *po++ = 0; data->query = pi; return;`
      some (wr mem po 0, { data with query := some (pi + 1) })
    else copy

/-- The function `static void parse_path(ews_sess_data_t *data)`: `pi` and `po` start at
`data->path`.  `none` when `data->path` is `NULL`. -/
def parse_path (mem : List Nat) (data : ews_sess_data) : Option (List Nat × ews_sess_data) :=
  match data.path with
  | none => none
  | some p => parse_path_loop (mem.length + 1) mem p p data

/-- A session data block as `calloc` leaves it, with `path` set to offset `p`. -/
def fresh_data (p : Nat) : ews_sess_data :=
  { path := some p, path_len := 0, query := none, query_len := 0, method := 0 }

/-- The `path_len` bytes at `path` after `parse_path` on the token `tok` placed at the
start of memory (NUL-terminated), starting from a fresh session data block. -/
def parsed_path (tok : List Nat) : Option (List Nat) :=
  (parse_path (tok ++ [0]) (fresh_data 0)).map (fun r => r.1.take r.2.path_len)

/-- The C string at `path` after `parse_path` on the token `tok`. -/
def parsed_cstring (tok : List Nat) : Option (List Nat) :=
  (parse_path (tok ++ [0]) (fresh_data 0)).map (fun r => cstring r.1 0)

/-! ### List-level reading of the loop

`norm` reads the loop of `parse_path` on lists: `rest` is the unread input (the bytes
from `pi` to the terminating NUL), `last` is the byte before `po` when `path_len > 0`
(and 0 when nothing counts as written).  It returns the bytes written through `po` and,
when the loop left through the `?` branch, the bytes after the `?`.  The `/..` branch is
absent from it: its guard `(*pi + 3) == 0 || (*pi + 3) == '/'` is evaluated with
`*pi == '/'` and never holds.  `parse_path_loop_eq_norm` proves that the in-place loop
computes exactly this. -/

/-- The byte `parse_path` stores for `%` followed by the hex digits `h1`, `h2`. -/
def pctbyte (h1 h2 : Nat) : Nat := (((hexval h1 <<< 4) % 256) ||| hexval h2) % 256

/-- Prepend a written byte to a partial result. -/
def emit (b : Nat) (r : List Nat × Option (List Nat)) : List Nat × Option (List Nat) :=
  (b :: r.1, r.2)

/-- The loop of `parse_path` read on lists (see above). -/
def norm (last : Nat) (rest : List Nat) : List Nat × Option (List Nat) :=
  match rest with
  | [] => ([], none)
  | c :: r =>
    if c = 37 ∧ isxdigit (rd r 0) = true ∧ isxdigit (rd r 1) = true then
      emit (pctbyte (rd r 0) (rd r 1)) (norm (pctbyte (rd r 0) (rd r 1)) (r.drop 2))
    else if c = 43 then emit 32 (norm 32 r)
    else if c = 47 then
      if rd r 0 = 46 then
        if rd r 1 = 0 ∨ rd r 1 = 47 then norm last (r.drop 1)
        else emit 47 (norm 47 r)
      else if last = 47 then norm last r
      else emit 47 (norm 47 r)
    else if c = 63 then ([], some r)
    else emit c (norm c r)
termination_by rest.length
decreasing_by all_goals (simp only [List.length_cons, List.length_drop]; omega)

/-- Successive byte writes starting at offset `po`. -/
def writes (mem : List Nat) (po : Nat) : List Nat → List Nat
  | [] => mem
  | b :: bs => writes (wr mem po b) (po + 1) bs

/-- The memory and session data that the loop of `parse_path` leaves, expressed with the
list-level result `r` of `norm`: the written bytes (and the NUL of the `?` branch) are
stored from `po` on; `endp` is the offset of the NUL that terminates the token. -/
def norm_result (mem : List Nat) (po endp : Nat) (data : ews_sess_data)
    (r : List Nat × Option (List Nat)) : List Nat × ews_sess_data :=
  match r.2 with
  | some q =>
    (writes mem po (r.1 ++ [0]),
      { data with path_len := data.path_len + r.1.length, query := some (endp - q.length) })
  | none =>
    (writes mem po r.1,
      { data with
        path_len := data.path_len + r.1.length
        query_len := match data.query with
          | some qo => strlen (writes mem po r.1) qo
          | none => data.query_len })

/-- Every `.` that follows a `/` in the token is a whole segment: the byte after it is a
`/` or the end of the token. -/
def lone_dots (tok : List Nat) : Prop :=
  ∀ i, i < tok.length →
    rd tok i = 47 → rd tok (i + 1) = 46 → rd tok (i + 2) = 0 ∨ rd tok (i + 2) = 47

instance (tok : List Nat) : Decidable (lone_dots tok) := by
  unfold lone_dots
  exact inferInstance

/-- The value of a hexadecimal digit: `0`..`9` are 0..9, `A`..`F` and `a`..`f` are
10..15. -/
def hex (c : Nat) : Nat :=
  if 48 ≤ c ∧ c ≤ 57 then c - 48 else if 65 ≤ c ∧ c ≤ 70 then c - 55 else c - 87

/-- A byte string on which the loop of `parse_path` has nothing left to do at a `/`:
every `/.` is followed by a byte other than `/` (and is not at the end), and every `//`
is followed by a `.`. -/
def settled : List Nat → Prop
  | a :: b :: t =>
    (a = 47 → b = 46 → rd t 0 ≠ 0 ∧ rd t 0 ≠ 47) ∧ (a = 47 → b = 47 → rd t 0 = 46) ∧
      settled (b :: t)
  | _ => True

/-- Bytes that the loop of `parse_path` copies as they are, `/` left aside: no NUL, `%`,
`+` or `?`. -/
def plain (q : List Nat) : Prop := ∀ x ∈ q, x ≠ 0 ∧ x ≠ 37 ∧ x ≠ 43 ∧ x ≠ 63

/-! ## `find` (src/utils.c) -/

/-- The `while` loop of `find`; `buf` is the memory from offset `base` on, `s` the needle
(`s[j]` at `j = strlen(s)` is its NUL).  `nlen - 1` is computed in `size_t`.  `none` when
the fuel is used up. -/
def find_loop (mem : List Nat) (base hlen : Nat) (s : List Nat) : Nat → Nat → Nat → Option Int
  | 0, _, _ => none
  | fuel + 1, i, j =>
    if i ≤ hlen - s.length then
      if rd mem (base + (i + j)) = rd s j then
        if j = (s.length + 2 ^ 64 - 1) % 2 ^ 64 then some (i : Int)
        else find_loop mem base hlen s fuel i (j + 1)
      else find_loop mem base hlen s fuel (i + 1) 0
    else some (-1)

/-- The function `ssize_t find(const uint8_t *buf, size_t hlen, const char *s)` with `buf = mem + base`. -/
def find (mem : List Nat) (base hlen : Nat) (s : List Nat) : Option Int :=
  if hlen < s.length then some (-1)
  else find_loop mem base hlen s ((hlen + 1) * (s.length + 1) + 1) 0 0

/-! ## The HTTP session engine (src/http.c, src/route.c, src/socket.c) -/

/-- Session states: `enum ews_sess_state`. -/
abbrev EWS_SESS_REQUEST_BEGIN : Nat := 0
abbrev EWS_SESS_REQUEST_HEADER : Nat := 1
abbrev EWS_SESS_REQUEST_BODY : Nat := 2
abbrev EWS_SESS_RESPONSE_BEGIN : Nat := 16
abbrev EWS_SESS_RESPONSE_HEADER : Nat := 17
abbrev EWS_SESS_RESPONSE_BODY : Nat := 18
abbrev EWS_HTTP_FINALIZE : Nat := 63

/-- Handler statuses: `enum ews_route_status`. -/
abbrev EWS_ROUTE_STATUS_ERROR : Int := -1
abbrev EWS_ROUTE_STATUS_CLOSE : Int := 0
abbrev EWS_ROUTE_STATUS_NOT_FOUND : Int := 1
abbrev EWS_ROUTE_STATUS_FOUND : Int := 2
abbrev EWS_ROUTE_STATUS_NEXT : Int := 3
abbrev EWS_ROUTE_STATUS_DONE : Int := 4
abbrev EWS_ROUTE_STATUS_MORE : Int := 5

/-- HTTP versions: `enum ews_http_version`. -/
abbrev EWS_HTTP_VERSION_09 : Nat := 0
abbrev EWS_HTTP_VERSION_10 : Nat := 1
abbrev EWS_HTTP_VERSION_11 : Nat := 2

/-- Request flags: `enum ews_http_flags` (the per-request `flags` byte). -/
abbrev EWS_HTTP_FLAGS_FINALIZED : Nat := 1
abbrev EWS_HTTP_FLAGS_KEEPALIVE : Nat := 2
abbrev EWS_HTTP_FLAGS_REQUEST_CHUNKED : Nat := 4
abbrev EWS_HTTP_FLAGS_REQUEST_MULTIPART : Nat := 8
abbrev EWS_HTTP_FLAGS_RESPONSE_CHUNKED : Nat := 16

/-- Socket flags: `enum ews_sock_flags` (the bits used by the engine). -/
abbrev EWS_SOCK_FLAG_INUSE : Nat := 256
abbrev EWS_SOCK_FLAG_TLS : Nat := 512
abbrev EWS_SOCK_FLAG_CONNECTED : Nat := 1024
abbrev EWS_SOCK_FLAG_SHUTDOWN : Nat := 2048
abbrev EWS_SOCK_FLAG_PEND_CLOSE : Nat := 4096

/-- Request methods: `enum ews_sess_methods`. -/
abbrev EWS_SESS_METHOD_OTHER : Nat := 0
abbrev EWS_SESS_METHOD_CONNECT : Nat := 1
abbrev EWS_SESS_METHOD_DELETE : Nat := 2
abbrev EWS_SESS_METHOD_GET : Nat := 3
abbrev EWS_SESS_METHOD_HEAD : Nat := 4
abbrev EWS_SESS_METHOD_OPTIONS : Nat := 5
abbrev EWS_SESS_METHOD_PATCH : Nat := 6
abbrev EWS_SESS_METHOD_POST : Nat := 7
abbrev EWS_SESS_METHOD_PUT : Nat := 8
abbrev EWS_SESS_METHOD_TRACE : Nat := 9

/-- What the operating system (or the TLS library) answers to one write. -/
inductive os_send where
  | sent (n : Nat)
  | would_block
  | reset
  | failed
  deriving DecidableEq, Repr

/-- The transport behind `sock->ops`: `ews_sock_ops` or `ews_tls_sock_ops`. -/
inductive transport where
  | plain
  | tls
  deriving DecidableEq, Repr

/-- A client socket slot as the engine sees it (`struct ews_sock`).  `net` is the
behaviour of the peer and the operating system: the answer to the `k`-th write.  `wire`
collects the bytes that were accepted, `sends` counts the writes, `shutdowns` the calls of
the transport's `shutdown`. -/
structure ews_sock where
  flags : Nat
  ops : transport
  net : Nat → os_send
  sends : Nat
  wire : List Nat
  shutdowns : Nat

/-- A pointer to a route: `NULL`, the `i`-th registered route, or `&ews_route_404`. -/
inductive route_ptr where
  | null
  | user (i : Nat)
  | r404
  deriving DecidableEq, Repr

/-- The per-request block of `struct ews_http_data`. -/
structure http_block where
  version : Nat
  route : route_ptr
  state : Nat
  prev_state : Nat
  flags : Nat
  state_count : Nat
  request_buf : Nat
  request_buflen : Int
  response_length : Nat
  deriving DecidableEq, Repr

/-- The block after `memset(&data->block, 0, sizeof(data->block))` (and after `calloc`). -/
def zero_block : http_block :=
  { version := 0, route := route_ptr.null, state := 0, prev_state := 0, flags := 0,
    state_count := 0, request_buf := 0, request_buflen := 0, response_length := 0 }

/-- What a handler does when it is invoked: it calls session operations (`sess->ops`),
may look at what they return, and returns a status together with its own private state.
`sendf` carries the formatted bytes. -/
inductive hprog where
  | ret (status : Int) (user : List Nat)
  | recv (len : Nat) (k : Int → hprog)
  | send (buf : List Nat) (k : Int → hprog)
  | sendf (buf : List Nat) (k : hprog)
  | status (code : Int) (msg : List Nat) (k : hprog)
  | error (code : Int) (msg : List Nat) (k : hprog)
  | header (name value : List Nat) (k : hprog)

/-- A route handler (`ews_route_handler_t`): from its private state, the session buffer,
the session data and the state it is invoked at, to what it does. -/
abbrev handler := List Nat → List Nat → ews_sess_data → Nat → hprog

/-- A registered route (`struct ews_route`); the pattern is a C string. -/
structure ews_route where
  pattern : List Nat
  handler : handler

/-- An event of a run, recorded for the statements: a handler is invoked for a route at
a state with a `state_count`, or returns a status. -/
inductive event where
  | call (r : route_ptr) (state count : Nat)
  | ret (status : Int)
  deriving DecidableEq, Repr

/-- One HTTP session with its socket and the server's route list
(`struct ews_http_data`, `struct ews_sock`, `ews->route_first`).  `buf` is the receive
buffer, its length is `CONFIG_EWS_SESSION_BUFSIZE`.  `rare_methods` is
`CONFIG_EWS_RARE_METHODS`.  `user` is the private state of the handlers, `events` the
record of handler invocations. -/
structure engine where
  routes : List ews_route
  rare_methods : Bool
  sock : ews_sock
  buf : List Nat
  bufpos : Nat
  buflen : Nat
  sess : ews_sess_data
  block : http_block
  user : List Nat
  events : List event

/-! ### Transport (src/socket.c) -/

/-- The transport's `send`: `ews_sock_send` for the plain transport, where the test
`if (errno = ECONNRESET)` is an assignment, so every failure sets pend-close, and
`ews_sock_send_tls`, where a would-block failure does not.  Returns the socket and the
`ssize_t` result. -/
def sock_send (s : ews_sock) (buf : List Nat) : ews_sock × Int :=
  if s.flags &&& EWS_SOCK_FLAG_SHUTDOWN ≠ 0 then (s, -1)
  else
    match s.net s.sends with
    | os_send.sent n =>
      ({ s with sends := s.sends + 1, wire := s.wire ++ buf.take n },
        ((min n buf.length : Nat) : Int))
    | os_send.would_block =>
      match s.ops with
      | transport.plain =>
        ({ s with sends := s.sends + 1, flags := s.flags ||| EWS_SOCK_FLAG_PEND_CLOSE }, -1)
      | transport.tls => ({ s with sends := s.sends + 1 }, -1)
    | _ => ({ s with sends := s.sends + 1, flags := s.flags ||| EWS_SOCK_FLAG_PEND_CLOSE }, -1)

/-- The transport's `shutdown`: half-close and set the shutdown flag. -/
def sock_shutdown (s : ews_sock) : ews_sock :=
  { s with flags := s.flags ||| EWS_SOCK_FLAG_SHUTDOWN, shutdowns := s.shutdowns + 1 }

/-! ### Formatting and string helpers of libc -/

/-- Decimal digits of a natural number (`%lu`). -/
def dec (n : Nat) : List Nat := (Nat.toDigits 10 n).map Char.toNat

/-- Decimal text of an `int` (`%d`). -/
def dec_int (n : Int) : List Nat := if n < 0 then 45 :: dec n.natAbs else dec n.natAbs

/-- Upper-case hexadecimal digits of a natural number (`%lX`). -/
def hex_upper (n : Nat) : List Nat := (Nat.toDigits 16 n).map (fun c => toupper c.toNat)

/-- The function `tolower` of `<ctype.h>` in the C locale. -/
def tolower (c : Nat) : Nat := if 65 ≤ c ∧ c ≤ 90 then c + 32 else c

/-- The test `strcasecmp(a, b) == 0`. -/
def strcaseeq (a b : List Nat) : Bool := a.map tolower == b.map tolower

/-- The test `strstr(hay, needle) != NULL`. -/
def contains_sub (hay needle : List Nat) : Bool := hay.tails.any (fun t => needle.isPrefixOf t)

/-- The value `strtol(s, NULL, 10)`: leading white space, an optional sign, then digits; the value
saturates at the bounds of `long`. -/
def strtol10 (s : List Nat) : Int :=
  let s1 := s.dropWhile isspace
  let neg := s1.head? = some 45
  let s2 := if s1.head? = some 45 ∨ s1.head? = some 43 then s1.tail else s1
  let v : Nat := (s2.takeWhile isdigit).foldl (fun a d => a * 10 + (d - 48)) 0
  if neg then (if v ≥ 2 ^ 63 then -(2 ^ 63 : Int) else -(v : Int))
  else (if v ≥ 2 ^ 63 then (2 ^ 63 - 1 : Int) else (v : Int))

/-- Conversion of a `long` to `size_t`. -/
def to_size_t (n : Int) : Nat := (n % (2 ^ 64 : Int)).toNat

/-! ### Session operations -/

/-- The function `http_raw_send`.  `fin` is `finalize`. -/
def http_raw_send (fin : engine → Option engine) (e : engine) (buf : List Nat) :
    Option (engine × Int) :=
  let r := sock_send e.sock buf
  if r.2 < 0 then (fin { e with sock := r.1 }).map (fun e1 => (e1, -1))
  else some ({ e with sock := r.1 }, r.2)

/-- The status line `"%s %d %s\r\n"` of `http_status`. -/
def status_line (version : Nat) (code : Int) (msg : List Nat) : List Nat :=
  (if version = EWS_HTTP_VERSION_11 then bytes "HTTP/1.1" else bytes "HTTP/1.0") ++ [32] ++
    dec_int code ++ [32] ++ msg ++ [13, 10]

/-- The function `http_status`.  In a state after `RESPONSE_BEGIN` it finalizes and then ors the socket
flag `EWS_SOCK_FLAG_PEND_CLOSE` (bit 12) into the per-request `flags` byte. -/
def http_status (fin : engine → Option engine) (e : engine) (code : Int) (msg : List Nat) :
    Option engine :=
  if e.block.version = EWS_HTTP_VERSION_09 then some e
  else if e.block.state > EWS_SESS_RESPONSE_BEGIN then
    (fin e).map (fun e1 =>
      { e1 with block :=
        { e1.block with flags := (e1.block.flags ||| EWS_SOCK_FLAG_PEND_CLOSE) % 256 } })
  else (http_raw_send fin e (status_line e.block.version code msg)).map Prod.fst

/-- The function `http_error`. -/
def http_error (fin : engine → Option engine) (e : engine) (code : Int) (msg : List Nat) :
    Option engine :=
  if e.block.state ≤ EWS_SESS_RESPONSE_BEGIN ∧ e.block.version > EWS_HTTP_VERSION_09 then
    (http_status fin e code msg).bind fun e1 =>
    (http_raw_send fin e1
      (bytes "Content-Type: text/html\r\nContent-Length: " ++ dec (9 + msg.length) ++
        [13, 10, 13, 10])).bind fun r2 =>
    (http_raw_send fin r2.1 (bytes "<h1>" ++ msg ++ bytes "</h1>")).bind fun r3 =>
    fin r3.1
  else fin e

/-- The function `http_header`. -/
def http_header (fin : engine → Option engine) (e : engine) (name value : List Nat) :
    Option engine :=
  if e.block.state ≠ EWS_SESS_RESPONSE_HEADER then
    http_error fin e 500 (bytes "Internal Server Error")
  else
    let b := e.block
    let b1 : http_block :=
      if strcaseeq name (bytes "Connection") then
        if contains_sub value (bytes "close") then
          { b with flags := b.flags &&& (255 - EWS_HTTP_FLAGS_KEEPALIVE) }
        else if contains_sub value (bytes "keep-alive") then
          { b with flags := b.flags ||| EWS_HTTP_FLAGS_KEEPALIVE }
        else b
      else if strcaseeq name (bytes "Content-Length") then
        { b with response_length := to_size_t (strtol10 value) }
      else if strcaseeq name (bytes "Transfer-Encoding") then
        if contains_sub value (bytes "chunked") then
          { b with flags := b.flags ||| EWS_HTTP_FLAGS_RESPONSE_CHUNKED }
        else b
      else b
    (http_raw_send fin { e with block := b1 } (name ++ bytes ": " ++ value ++ [13, 10])).map
      Prod.fst

/-- The part of `http_send` after the chunk-size line or the clamp of `len`: the payload,
then the `CRLF` of a chunk or the decrement of the outstanding length.  `total` is what
was written before. -/
def http_send_body (fin : engine → Option engine) (e : engine) (buf : List Nat) (total : Int) :
    Option (engine × Int) :=
  let r := sock_send e.sock buf
  if r.2 < 0 then (fin { e with sock := r.1 }).map (fun e1 => (e1, -1))
  else
    let e1 := { e with sock := r.1 }
    if e1.block.flags &&& EWS_HTTP_FLAGS_RESPONSE_CHUNKED ≠ 0 then
      let r2 := sock_send e1.sock [13, 10]
      if r2.2 < 0 then (fin { e1 with sock := r2.1 }).map (fun e2 => (e2, -1))
      else some ({ e1 with sock := r2.1 }, total + r.2 + r2.2)
    else if e1.block.response_length > 0 then
      some ({ e1 with block :=
        { e1.block with response_length := e1.block.response_length - r.2.toNat } },
        total + r.2)
    else some (e1, total + r.2)

/-- The function `http_send`.  The chunk-size line is formatted into an 11-byte buffer: a length of
2^32 or more does not fit and has no defined result (`none`). -/
def http_send (fin : engine → Option engine) (e : engine) (buf : List Nat) :
    Option (engine × Int) :=
  if e.block.state ≠ EWS_SESS_RESPONSE_BODY then
    (http_error fin e 500 (bytes "Internal Server Error")).map (fun e1 => (e1, -1))
  else if e.block.flags &&& EWS_HTTP_FLAGS_RESPONSE_CHUNKED ≠ 0 then
    if buf.length < 2 ^ 32 then
      let r := sock_send e.sock (hex_upper buf.length ++ [13, 10])
      if r.2 < 0 then (fin { e with sock := r.1 }).map (fun e1 => (e1, -1))
      else http_send_body fin { e with sock := r.1 } buf r.2
    else none
  else if e.block.response_length > 0 then
    http_send_body fin e (buf.take (min buf.length e.block.response_length)) 0
  else http_send_body fin e buf 0

/-- Run what a handler does: each session operation acts on the engine, the handler goes
on with what the operation returned.  `recv` is `http_recv`, which returns -1; `sendf`
is `http_sendf`, which sends the formatted bytes with `http_send` and drops the result. -/
def run_prog (fin : engine → Option engine) : hprog → engine → Option (engine × Int × List Nat)
  | hprog.ret st u, e => some (e, st, u)
  | hprog.recv _ k, e => run_prog fin (k (-1)) e
  | hprog.send buf k, e => (http_send fin e buf).bind fun r => run_prog fin (k r.2) r.1
  | hprog.sendf buf k, e => (http_send fin e buf).bind fun r => run_prog fin k r.1
  | hprog.status code msg k, e => (http_status fin e code msg).bind fun e1 => run_prog fin k e1
  | hprog.error code msg k, e => (http_error fin e code msg).bind fun e1 => run_prog fin k e1
  | hprog.header name value k, e =>
    (http_header fin e name value).bind fun e1 => run_prog fin k e1

/-! ### Routes (src/route.c) -/

/-- The handler `ews_route_404_handler` of the built-in 404 route. -/
def ews_route_404_handler : handler := fun user _ _ state =>
  if state = EWS_SESS_REQUEST_BEGIN then hprog.ret EWS_ROUTE_STATUS_FOUND user
  else if state = EWS_SESS_REQUEST_HEADER ∨ state = EWS_SESS_REQUEST_BODY then
    hprog.ret EWS_ROUTE_STATUS_NEXT user
  else if state = EWS_SESS_RESPONSE_BEGIN then
    hprog.error 404 (bytes "Not Found") (hprog.ret EWS_ROUTE_STATUS_DONE user)
  else hprog.ret EWS_ROUTE_STATUS_DONE user

/-- The handler behind a route pointer; `none` for `NULL` and for a dangling pointer. -/
def route_handler (e : engine) : route_ptr → Option handler
  | route_ptr.null => none
  | route_ptr.user i => (e.routes.get? i).map (fun r => r.handler)
  | route_ptr.r404 => some ews_route_404_handler

/-- The call `data->block.route->handler(sess, data->block.state)`: the invocation and
the returned status are recorded in `events`. -/
def invoke (fin : engine → Option engine) (e : engine) : Option (engine × Int) :=
  (route_handler e e.block.route).bind fun h =>
  (run_prog fin (h e.user e.buf e.sess e.block.state)
    { e with events := e.events ++ [event.call e.block.route e.block.state e.block.state_count] }).map
    fun r => ({ r.1 with user := r.2.2, events := r.1.events ++ [event.ret r.2.1] }, r.2.1)

/-- The end of `finalize`: the transport's `shutdown` unless keepalive is set, then
`memset(&data->block, 0, sizeof(data->block))`. -/
def finalize_end (e : engine) : engine :=
  if e.block.flags &&& EWS_HTTP_FLAGS_KEEPALIVE = 0 then
    { e with sock := sock_shutdown e.sock, block := zero_block }
  else { e with block := zero_block }

/-- The function `finalize`.  The handler invoked at `FINALIZE` may itself call operations that
finalize; `fuel` bounds that nesting (`none` when it is used up). -/
def finalize : Nat → engine → Option engine
  | 0, e =>
    if e.block.state = EWS_SESS_REQUEST_BEGIN then some e
    else if e.block.route = route_ptr.null then some (finalize_end e)
    else none
  | fuel + 1, e =>
    if e.block.state = EWS_SESS_REQUEST_BEGIN then some e
    else if e.block.route = route_ptr.null then some (finalize_end e)
    else
      (invoke (finalize fuel)
        { e with block := { e.block with state := EWS_HTTP_FINALIZE, state_count := 0 } }).map
        fun r => finalize_end r.1

/-- Set pend-close on the socket: `sock->flags |= EWS_SOCK_FLAG_PEND_CLOSE`. -/
def pend_close (e : engine) : engine :=
  { e with sock := { e.sock with flags := e.sock.flags ||| EWS_SOCK_FLAG_PEND_CLOSE } }

/-- The function `call_handler`. -/
def call_handler (fuel : Nat) (e : engine) : Option (engine × Int) :=
  let e0 : engine :=
    if e.block.state ≠ e.block.prev_state then
      { e with block := { e.block with state_count := 0 } }
    else { e with block := { e.block with state_count := e.block.state_count + 1 } }
  (invoke (finalize fuel) e0).bind fun r =>
    let status := r.2
    let e1 : engine := { r.1 with block := { r.1.block with prev_state := r.1.block.state } }
    if status = EWS_ROUTE_STATUS_CLOSE then
      let e2 := pend_close e1
      if e2.block.state > EWS_SESS_REQUEST_BEGIN then
        (finalize fuel e2).map (fun e3 => (e3, EWS_ROUTE_STATUS_CLOSE))
      else some (e2, status)
    else if status = EWS_ROUTE_STATUS_NOT_FOUND ∨ status = EWS_ROUTE_STATUS_FOUND then
      if e1.block.state ≠ EWS_SESS_REQUEST_BEGIN then
        (http_error (finalize fuel) e1 500 (bytes "Internal Server Error")).map
          (fun e3 => (e3, EWS_ROUTE_STATUS_ERROR))
      else some (e1, status)
    else if status = EWS_ROUTE_STATUS_NEXT then
      if e1.block.state = EWS_SESS_RESPONSE_BEGIN then
        some ({ e1 with block := { e1.block with state := EWS_SESS_RESPONSE_HEADER } }, status)
      else if e1.block.state = EWS_SESS_RESPONSE_HEADER then
        (http_raw_send (finalize fuel) e1 [13, 10]).map fun r2 =>
          ({ r2.1 with block := { r2.1.block with state := EWS_SESS_RESPONSE_BODY } }, status)
      else if e1.block.state = EWS_SESS_RESPONSE_BODY then
        some ({ e1 with block := { e1.block with state := EWS_HTTP_FINALIZE } }, status)
      else some (e1, status)
    else if status = EWS_ROUTE_STATUS_DONE then
      (finalize fuel e1).map (fun e3 => (e3, status))
    else if status = EWS_ROUTE_STATUS_MORE then
      if e1.block.state = EWS_SESS_RESPONSE_HEADER ∨ e1.block.state = EWS_SESS_RESPONSE_BODY then
        some (e1, status)
      else
        let e2 := pend_close e1
        if e2.block.state > EWS_SESS_REQUEST_BEGIN then
          (http_error (finalize fuel) e2 500 (bytes "Internal Server Error")).map
            (fun e3 => (e3, EWS_ROUTE_STATUS_ERROR))
        else some (e2, status)
    else
      -- `default:` and `EWS_ROUTE_STATUS_ERROR`
      let e2 := pend_close e1
      if e2.block.state > EWS_SESS_REQUEST_BEGIN then
        (http_error (finalize fuel) e2 500 (bytes "Internal Server Error")).map
          (fun e3 => (e3, EWS_ROUTE_STATUS_ERROR))
      else some (e2, status)

/-! ### `request_begin` -/

/-- The offset that `while (isspace(*p)) p++;` leaves in `p`. -/
def skip_space (mem : List Nat) (p : Nat) : Nat :=
  p + ((mem.drop p).takeWhile isspace).length

/-- The first loop of `request_begin`: white space is overwritten with NUL, the first
token after white space becomes `path`, the second `version`.  Returns the memory and
the two pointers; `none` when the fuel is used up. -/
def split_tokens : Nat → List Nat → Nat → Option Nat → Option Nat →
    Option (List Nat × Option Nat × Option Nat)
  | 0, _, _, _, _ => none
  | fuel + 1, mem, p, path, version =>
    if rd mem p = 0 then some (mem, path, version)
    else if isspace (rd mem p) = true then
      let mem1 := wr mem p 0
      let p1 := skip_space mem1 (p + 1)
      if path = none then split_tokens fuel mem1 (p1 + 1) (some p1) version
      else if version = none then split_tokens fuel mem1 (p1 + 1) path (some p1)
      else split_tokens fuel mem1 (p1 + 1) path version
    else split_tokens fuel mem (p + 1) path version

/-- The memory after `while (*p) { *p = toupper(*p); p++; }` started at offset `p`. -/
def upcase (mem : List Nat) (p : Nat) : List Nat :=
  mem.take p ++ (cstring mem p).map toupper ++ mem.drop (p + strlen mem p)

/-- The lookup in the `methods` table of `request_begin`. -/
def method_of (rare : Bool) (name : List Nat) : Nat :=
  if name = bytes "GET" then EWS_SESS_METHOD_GET
  else if name = bytes "POST" then EWS_SESS_METHOD_POST
  else if name = bytes "OPTIONS" then EWS_SESS_METHOD_OPTIONS
  else if name = bytes "HEAD" then EWS_SESS_METHOD_HEAD
  else if rare = true ∧ name = bytes "CONNECT" then EWS_SESS_METHOD_CONNECT
  else if rare = true ∧ name = bytes "DELETE" then EWS_SESS_METHOD_DELETE
  else if rare = true ∧ name = bytes "PATCH" then EWS_SESS_METHOD_PATCH
  else if rare = true ∧ name = bytes "PUT" then EWS_SESS_METHOD_PUT
  else if rare = true ∧ name = bytes "TRACE" then EWS_SESS_METHOD_TRACE
  else EWS_SESS_METHOD_OTHER

/-- The part of `request_begin` up to and including the HTTP version: find the line,
split it, map the method, normalise the path, determine the version.  The flag is true
when `request_begin` has returned (`return true`), false when it goes on to the routes. -/
def request_line (fuel : Nat) (e : engine) : Option (engine × Bool) :=
  (find e.buf e.bufpos e.buflen [13, 10]).bind fun n =>
  let e1 : engine :=
    { e with block := { e.block with request_buf := e.bufpos, request_buflen := n } }
  if n < 0 then
    if e1.bufpos = 0 ∧ e1.buflen ≥ e1.buf.length - 1 then
      (http_error (finalize fuel) e1 414 (bytes "URI Too Long")).map
        fun e2 => (pend_close e2, true)
    else some (e1, true)
  else
    let base := e1.bufpos
    let mem1 := wr e1.buf (base + n.toNat) 0
    let e2 : engine :=
      { e1 with
        buf := mem1
        buflen := e1.buflen - (n.toNat + 2)
        bufpos := e1.bufpos + (n.toNat + 2)
        sess := { e1.sess with path := none } }
    (split_tokens (mem1.length + 1) mem1 base none none).bind fun t =>
    match t.2.1 with
    | none =>
      (http_error (finalize fuel) { e2 with buf := t.1 } 400 (bytes "Bad Request")).map
        fun e3 => (pend_close e3, true)
    | some path =>
      let mem2 := upcase t.1 base
      let e3 : engine :=
        { e2 with
          buf := mem2
          sess := { e2.sess with
            path := some path
            method := method_of e2.rare_methods (cstring mem2 base) } }
      (parse_path e3.buf e3.sess).bind fun pp =>
      let e4 : engine := { e3 with buf := pp.1, sess := pp.2 }
      match t.2.2 with
      | none => some (e4, false)
      | some version =>
        let mem3 := upcase e4.buf version
        let e5 : engine := { e4 with buf := mem3 }
        if cstring mem3 version = bytes "HTTP/1.1" then
          some ({ e5 with block := { e5.block with
            version := EWS_HTTP_VERSION_11
            flags := e5.block.flags ||| EWS_HTTP_FLAGS_KEEPALIVE } }, false)
        else if cstring mem3 version = bytes "HTTP/1.0" then
          some ({ e5 with block := { e5.block with version := EWS_HTTP_VERSION_10 } }, false)
        else
          (http_error (finalize fuel) e5 505 (bytes "HTTP Version Not Supported")).map
            fun e6 => (pend_close e6, true)

/-- The head of the route list, `sock->ews->route_first`. -/
def route_first (e : engine) : route_ptr :=
  if e.routes.length = 0 then route_ptr.null else route_ptr.user 0

/-- The pointer `route->next`; `none` for the `NULL` pointer. -/
def route_next (e : engine) : route_ptr → Option route_ptr
  | route_ptr.null => none
  | route_ptr.user i =>
    if i + 1 < e.routes.length then some (route_ptr.user (i + 1)) else some route_ptr.null
  | route_ptr.r404 => some route_ptr.null

/-- The route loop of `request_begin`, with `data->block.route` as its variable.  The
flag is true when the loop was left by `return true`.  `k` bounds the iterations. -/
def route_walk (fuel : Nat) : Nat → engine → Option (engine × Bool)
  | 0, _ => none
  | k + 1, e =>
    match e.block.route with
    | route_ptr.null => some (e, false)
    | route_ptr.r404 => none
    | route_ptr.user i =>
      match e.routes.get? i, e.sess.path with
      | some r, some p =>
        if fnmatch r.pattern (cstring e.buf p) = true then
          (call_handler fuel e).bind fun c =>
            if c.2 = EWS_ROUTE_STATUS_FOUND then some (c.1, false)
            else if c.2 ≠ EWS_ROUTE_STATUS_NOT_FOUND then some (c.1, true)
            else
              (route_next c.1 c.1.block.route).bind fun nx =>
                route_walk fuel k { c.1 with block := { c.1.block with route := nx } }
        else
          (route_next e e.block.route).bind fun nx =>
            route_walk fuel k { e with block := { e.block with route := nx } }
      | _, _ => none

/-- The part of `request_begin` after the version: walk the routes, fall back to the
404 route, set the next state. -/
def request_dispatch (fuel : Nat) (e : engine) : Option (engine × Bool) :=
  (route_walk fuel (e.routes.length + 1)
    { e with block := { e.block with route := route_first e } }).bind fun w =>
  if w.2 = true then some (w.1, true)
  else
    let last : Option engine :=
      if w.1.block.route = route_ptr.null then
        (call_handler fuel
          { w.1 with block := { w.1.block with route := route_ptr.r404 } }).map Prod.fst
      else some w.1
    last.map fun e1 =>
      if e1.block.version = EWS_HTTP_VERSION_09 then
        ({ e1 with block := { e1.block with state := EWS_SESS_RESPONSE_BEGIN } }, false)
      else ({ e1 with block := { e1.block with state := EWS_SESS_REQUEST_HEADER } }, false)

/-- The function `static bool request_begin(ews_sess_t *sess)`. -/
def request_begin (fuel : Nat) (e : engine) : Option (engine × Bool) :=
  (request_line fuel e).bind fun r =>
    if r.2 = true then some r else request_dispatch fuel r.1

/-- A transport that accepts every write in full. -/
def net_ok : Nat → os_send := fun _ => os_send.sent (2 ^ 64)

/-- A freshly connected session (`on_connect`: everything zeroed by `calloc`) that has
received `input` into a buffer of `bufsize` bytes. -/
def fresh_engine (routes : List ews_route) (bufsize : Nat) (input : List Nat) : engine :=
  { routes := routes
    rare_methods := false
    sock := { flags := EWS_SOCK_FLAG_CONNECTED ||| EWS_SOCK_FLAG_INUSE ||| 8, ops := transport.plain,
              net := net_ok, sends := 0, wire := [], shutdowns := 0 }
    buf := input ++ List.replicate (bufsize - input.length) 0
    bufpos := 0
    buflen := input.length
    sess := { path := none, path_len := 0, query := none, query_len := 0, method := 0 }
    block := zero_block
    user := []
    events := [] }

/-! ### Reading the record of a run -/

/-- The handler invocations of a record: route and state, in order. -/
def calls_of : List event → List (route_ptr × Nat)
  | [] => []
  | event.call r st _ :: t => (r, st) :: calls_of t
  | event.ret _ :: t => calls_of t

/-- The statuses returned by the handlers of a record, in order. -/
def rets_of : List event → List Int
  | [] => []
  | event.call _ _ _ :: t => rets_of t
  | event.ret st :: t => st :: rets_of t

/-- Whether the pattern of the `i`-th registered route matches the C string `path`, as
`fnmatch` decides it. -/
def route_matches (routes : List ews_route) (path : List Nat) (i : Nat) : Bool :=
  match routes.get? i with
  | some r => fnmatch r.pattern path
  | none => false

/-- The engine `e1` differs from `e` at most in its socket (flags, bytes on the wire). -/
def same_but_sock (e e1 : engine) : Prop :=
  e1.routes = e.routes ∧ e1.rare_methods = e.rare_methods ∧ e1.buf = e.buf ∧
    e1.bufpos = e.bufpos ∧ e1.buflen = e.buflen ∧ e1.sess = e.sess ∧ e1.block = e.block ∧
    e1.user = e.user ∧ e1.events = e.events

/-- The engine `e1` holds the same request as `e`: routes, buffer, session data, and of
the per-request block the state, the route, the version and the flags. -/
def same_request (e e1 : engine) : Prop :=
  e1.routes = e.routes ∧ e1.rare_methods = e.rare_methods ∧ e1.buf = e.buf ∧
    e1.bufpos = e.bufpos ∧ e1.buflen = e.buflen ∧ e1.sess = e.sess ∧
    e1.block.state = e.block.state ∧ e1.block.route = e.block.route ∧
    e1.block.version = e.block.version ∧ e1.block.flags = e.block.flags

/-! ### Request lines -/

/-- A token of a request line: not empty, without NUL and white space. -/
def is_token (x : List Nat) : Prop := x ≠ [] ∧ ∀ b ∈ x, b ≠ 0 ∧ isspace b = false

instance (x : List Nat) : Decidable (is_token x) := by
  unfold is_token
  exact inferInstance

/-- A run of white space between two tokens of a request line: not empty, without CR. -/
def is_blank (w : List Nat) : Prop := w ≠ [] ∧ ∀ b ∈ w, isspace b = true ∧ b ≠ 13

instance (w : List Nat) : Decidable (is_blank w) := by
  unfold is_blank
  exact inferInstance

/-- A handler that performs no operation and returns the status `st` in every state. -/
def const_handler (st : Int) : handler := fun user _ _ _ => hprog.ret st user

/-- Three routes for examples: `/x*` declines, `/a*` declines, `/a/?` accepts. -/
def example_routes : List ews_route :=
  [⟨bytes "/x*", const_handler EWS_ROUTE_STATUS_NOT_FOUND⟩,
   ⟨bytes "/a*", const_handler EWS_ROUTE_STATUS_NOT_FOUND⟩,
   ⟨bytes "/a/?", const_handler EWS_ROUTE_STATUS_FOUND⟩]

/-- The bytes of an optional third token of a request line, with the white space before
it. -/
def third_bytes : Option (List Nat × List Nat) → List Nat
  | none => []
  | some (w2, v) => w2 ++ v

/-! ### `request_header`, `request_body` and the response steps -/

/-- The union member `name` of `struct ews_sess_data`: the storage of `path`. -/
def ews_sess_data.name (d : ews_sess_data) : Option Nat := d.path

/-- The union member `name_len` of `struct ews_sess_data`: the storage of `path_len`. -/
def ews_sess_data.name_len (d : ews_sess_data) : Nat := d.path_len

/-- The union member `value` of `struct ews_sess_data`: the storage of `query`. -/
def ews_sess_data.value (d : ews_sess_data) : Option Nat := d.query

/-- The union member `value_len` of `struct ews_sess_data`: the storage of `query_len`. -/
def ews_sess_data.value_len (d : ews_sess_data) : Nat := d.query_len

/-- The function `static bool request_header(ews_sess_t *sess)`.  `name_len` is a `size_t`:
the result of `find` is converted, and so is `request->buflen` in the comparison with
it. -/
def request_header (fuel : Nat) (e : engine) : Option (engine × Bool) :=
  (find e.buf e.bufpos e.buflen [13, 10]).bind fun n =>
  let e1 : engine :=
    { e with block := { e.block with request_buf := e.bufpos, request_buflen := n } }
  if n < 0 then
    if e1.bufpos = 0 ∧ e1.buflen ≥ e1.buf.length - 1 then
      (http_error (finalize fuel) e1 431 (bytes "Request Header Fields Too Large")).map
        fun e2 => (pend_close e2, true)
    else some (e1, true)
  else
    let base := e1.bufpos
    let mem1 := wr e1.buf (base + n.toNat) 0
    let e2 : engine :=
      { e1 with
        buf := mem1
        buflen := e1.buflen - (n.toNat + 2)
        bufpos := e1.bufpos + (n.toNat + 2) }
    if n = 0 then
      some ({ e2 with block := { e2.block with state := EWS_SESS_RESPONSE_BEGIN } }, false)
    else
      (find mem1 base n.toNat [58, 32]).bind fun k =>
      let name_len := to_size_t k
      let e3 : engine :=
        { e2 with sess := { e2.sess with path := some base, path_len := name_len } }
      if name_len < 1 ∨ name_len ≥ to_size_t n then
        (http_error (finalize fuel) e3 400 (bytes "Invalid Header")).map
          fun e4 => (pend_close e4, true)
      else
        let mem2 := wr mem1 (base + name_len) 0
        let value := skip_space mem2 (base + name_len + 1)
        let e4 : engine :=
          { e3 with
            buf := mem2
            sess := { e3.sess with
              query := some value
              query_len := to_size_t (((base + n.toNat : Nat) : Int) - (value : Int)) } }
        (call_handler fuel e4).map fun r => (r.1, false)

/-- The function `static bool request_body(ews_sess_t *sess)`. -/
def request_body (fuel : Nat) (e : engine) : Option (engine × Bool) :=
  (call_handler fuel e).map fun r => (r.1, true)

/-- The function `static void response_begin(ews_sess_t *sess)`. -/
def response_begin (fuel : Nat) (e : engine) : Option engine :=
  (call_handler fuel e).map Prod.fst

/-- The function `static void response_header(ews_sess_t *sess)`. -/
def response_header (fuel : Nat) (e : engine) : Option engine :=
  (call_handler fuel e).map Prod.fst

/-- The function `static void response_body(ews_sess_t *sess)`. -/
def response_body (fuel : Nat) (e : engine) : Option engine :=
  (call_handler fuel e).map Prod.fst

/-! ### The socket events of the HTTP engine -/

/-- The function `want_read`: `(data->block.state & 0x30) == 0x00`. -/
def want_read (e : engine) : Bool := decide (e.block.state &&& 48 = 0)

/-- The function `want_write`: `(data->block.state & 0x30) == 0x10`. -/
def want_write (e : engine) : Bool := decide (e.block.state &&& 48 = 16)

/-- What the operating system (or the TLS library) answers to one read: the bytes it
holds for the connection (none when the peer has closed), or a failure. -/
inductive os_recv where
  | data (bs : List Nat)
  | would_block
  | reset
  | failed
  deriving DecidableEq, Repr

/-- The transport's `recv` into a buffer of `len` bytes: `ews_sock_recv` and
`ews_sock_recv_tls`.  Returns the socket, the `ssize_t` result and the bytes stored. -/
def sock_recv (s : ews_sock) (a : os_recv) (len : Nat) : ews_sock × Int × List Nat :=
  match a with
  | os_recv.data bs =>
    if min len bs.length = 0 then
      ({ s with flags := s.flags ||| EWS_SOCK_FLAG_PEND_CLOSE }, 0, [])
    else (s, ((min len bs.length : Nat) : Int), bs.take len)
  | os_recv.would_block => (s, -1, [])
  | _ => ({ s with flags := s.flags ||| EWS_SOCK_FLAG_PEND_CLOSE }, -1, [])

/-- One round of `do_read` as the environment answers it: what `recv` yields, and what
the TLS library then reports as already decrypted (`mbedtls_ssl_get_bytes_avail`). -/
structure os_read where
  recv : os_recv
  avail : Nat

/-- The transport's `avail`: `ews_sock_avail` returns 0, `ews_sock_avail_tls` asks the
TLS library. -/
def sock_avail (s : ews_sock) (a : Nat) : Nat :=
  match s.ops with
  | transport.plain => 0
  | transport.tls => a

/-- The call `funcs[data->block.state & 0xf](sess)` of `do_read`; the table has three
entries, an index beyond them has no defined result. -/
def read_dispatch (fuel : Nat) (e : engine) : Option (engine × Bool) :=
  match e.block.state % 16 with
  | 0 => request_begin fuel e
  | 1 => request_header fuel e
  | 2 => request_body fuel e
  | _ => none

/-- The loop `while (data->buflen > 0)` of `do_read`.  The flag is true when `do_read`
returns from inside the loop (pend-close is set), false when control reaches `done`.
`k` bounds the iterations. -/
def read_loop (fuel : Nat) : Nat → engine → Option (engine × Bool)
  | 0, _ => none
  | k + 1, e =>
    if e.buflen > 0 then
      (read_dispatch fuel e).bind fun r =>
        if r.2 = true then
          some (r.1, decide (r.1.sock.flags &&& EWS_SOCK_FLAG_PEND_CLOSE ≠ 0))
        else read_loop fuel k r.1
    else some (e, false)

/-- The function `do_read`.  Each element of the list answers one round (`again:`); when
the list is used up `recv` would block. -/
def do_read (fuel : Nat) : engine → List os_read → Option engine
  | e, [] => some e
  | e, a :: rest =>
    let r := sock_recv e.sock a.recv (e.buf.length - e.buflen)
    if r.2.1 ≤ 0 then some { e with sock := r.1 }
    else
      let e1 : engine :=
        { e with
          sock := r.1
          buf := writes e.buf e.buflen r.2.2
          buflen := e.buflen + r.2.1.toNat }
      (read_loop fuel (e1.buflen + 1) e1).bind fun l =>
        if l.2 = true then some l.1
        else if l.1.buflen = l.1.buf.length then some (pend_close l.1)
        else
          let e2 : engine :=
            if l.1.bufpos > 0 then
              { l.1 with
                buf := (l.1.buf.drop l.1.bufpos).take l.1.buflen ++ l.1.buf.drop l.1.buflen
                bufpos := 0 }
            else l.1
          if sock_avail e2.sock a.avail > 0 then do_read fuel e2 rest else some e2

/-- The function `do_write`: `funcs[data->block.state & 0xf](sess)`; the table has three
entries, an index beyond them has no defined result. -/
def do_write (fuel : Nat) (e : engine) : Option engine :=
  match e.block.state % 16 with
  | 0 => response_begin fuel e
  | 1 => response_header fuel e
  | 2 => response_body fuel e
  | _ => none

/-- The demo handler `ews_route_test_handler` of src/route.c (its `printf` calls write to
the standard output and are left out). -/
def ews_route_test_handler : handler := fun user _ d state =>
  if state = EWS_SESS_REQUEST_BEGIN then hprog.ret EWS_ROUTE_STATUS_FOUND user
  else if state = EWS_SESS_REQUEST_HEADER then hprog.ret EWS_ROUTE_STATUS_NEXT user
  else if state = EWS_SESS_REQUEST_BODY then
    hprog.recv d.path_len (fun _ => hprog.ret EWS_ROUTE_STATUS_NEXT user)
  else if state = EWS_SESS_RESPONSE_BEGIN then
    hprog.status 200 (bytes "OK") (hprog.ret EWS_ROUTE_STATUS_NEXT user)
  else if state = EWS_SESS_RESPONSE_HEADER then
    hprog.header (bytes "Transfer-Encoding") (bytes "chunked")
      (hprog.ret EWS_ROUTE_STATUS_NEXT user)
  else if state = EWS_SESS_RESPONSE_BODY then
    hprog.send (bytes "Hello world!") (fun _ => hprog.ret EWS_ROUTE_STATUS_DONE user)
  else hprog.ret EWS_ROUTE_STATUS_DONE user

/-! ### Sample handlers and runs for the statements -/

/-- A handler that accepts the request, sends the status `200 OK` at `RESPONSE_BEGIN`
and two body bytes at `RESPONSE_BODY`, and returns `NEXT` in every state after
`REQUEST_BEGIN`. -/
def next_handler : handler := fun user _ _ state =>
  if state = EWS_SESS_REQUEST_BEGIN then hprog.ret EWS_ROUTE_STATUS_FOUND user
  else if state = EWS_SESS_RESPONSE_BEGIN then
    hprog.status 200 (bytes "OK") (hprog.ret EWS_ROUTE_STATUS_NEXT user)
  else if state = EWS_SESS_RESPONSE_BODY then
    hprog.send (bytes "Hi") (fun _ => hprog.ret EWS_ROUTE_STATUS_NEXT user)
  else hprog.ret EWS_ROUTE_STATUS_NEXT user

/-- A handler that accepts the request, sends the status `200 OK` at `RESPONSE_BEGIN`,
and calls `status` once more at `RESPONSE_HEADER`. -/
def late_status_handler : handler := fun user _ _ state =>
  if state = EWS_SESS_REQUEST_BEGIN then hprog.ret EWS_ROUTE_STATUS_FOUND user
  else if state = EWS_SESS_RESPONSE_BEGIN then
    hprog.status 200 (bytes "OK") (hprog.ret EWS_ROUTE_STATUS_NEXT user)
  else if state = EWS_SESS_RESPONSE_HEADER then
    hprog.status 200 (bytes "OK") (hprog.ret EWS_ROUTE_STATUS_NEXT user)
  else hprog.ret EWS_ROUTE_STATUS_NEXT user

/-- One round of `do_read` in which `recv` yields the bytes of `s`. -/
def received (s : String) : List os_read := [⟨os_recv.data (bytes s), 0⟩]

/-- The text of a byte list, for reading the bytes on the wire. -/
def text (l : List Nat) : String := String.mk (l.map Char.ofNat)

/-- The transport accepts every write in full: it has not been shut down, and the peer
takes every byte that is offered. -/
def accepts (s : ews_sock) : Prop :=
  s.flags &&& EWS_SOCK_FLAG_SHUTDOWN = 0 ∧ ∀ k, ∃ n, s.net k = os_send.sent n ∧ 2 ^ 64 ≤ n

/-- The socket after one write of `buf` that was accepted in full. -/
def sent (s : ews_sock) (buf : List Nat) : ews_sock :=
  { s with sends := s.sends + 1, wire := s.wire ++ buf }

/-! ### What session operations can change -/

/-- Pend-close is set on the socket. -/
def pend (s : ews_sock) : Prop := s.flags &&& EWS_SOCK_FLAG_PEND_CLOSE ≠ 0

instance (s : ews_sock) : Decidable (pend s) := by
  unfold pend
  exact inferInstance

/-- The handler performs no session operation when it is invoked at `FINALIZE`. -/
def quiet_at_finalize (h : handler) : Prop :=
  ∀ u b d, ∃ st u1, h u b d EWS_HTTP_FINALIZE = hprog.ret st u1

/-- Past `REQUEST_BEGIN` the request has a route, and its handler performs no session
operation at `FINALIZE`; so `finalize` returns. -/
def safe (e : engine) : Prop :=
  e.block.state ≠ EWS_SESS_REQUEST_BEGIN →
    ∃ h, route_handler e e.block.route = some h ∧ quiet_at_finalize h

/-- The engine `e1` has the routes, the buffer and the session data of `e`, and
pend-close is still set if it was. -/
def same_session (e e1 : engine) : Prop :=
  e1.routes = e.routes ∧ e1.rare_methods = e.rare_methods ∧ e1.buf = e.buf ∧
    e1.bufpos = e.bufpos ∧ e1.buflen = e.buflen ∧ e1.sess = e.sess ∧
    (pend e.sock → pend e1.sock)

/-- The request of `e` is still open in `e1`: no handler was invoked, and of the
per-request block at most the flags and the outstanding response length differ (in
`REQUEST_BEGIN` nothing differs). -/
def live (e e1 : engine) : Prop :=
  e1.user = e.user ∧ e1.events = e.events ∧
    e1.block = { e.block with flags := e1.block.flags,
                              response_length := e1.block.response_length } ∧
    (e.block.state = EWS_SESS_REQUEST_BEGIN → e1.block = e.block)

/-- The request of `e` was finalized on the way to `e1`: the handler of its route was
invoked once at `FINALIZE` with `state_count` 0, and the per-request block is zeroed. -/
def finalized (e e1 : engine) : Prop :=
  e.block.state ≠ EWS_SESS_REQUEST_BEGIN ∧ e1.block = zero_block ∧
    ∃ h st u1, route_handler e e.block.route = some h ∧
      h e.user e.buf e.sess EWS_HTTP_FINALIZE = hprog.ret st u1 ∧ e1.user = u1 ∧
      e1.events = e.events ++ [event.call e.block.route EWS_HTTP_FINALIZE 0, event.ret st]

/-- What session operations make of an engine: the request is still open, or it was
finalized once. -/
def outcome (e e1 : engine) : Prop := same_session e e1 ∧ (live e e1 ∨ finalized e e1)

/-- Every `send` and `sendf` of the program offers fewer than 2^32 bytes (so the
chunk-size line of `http_send` fits its buffer). -/
def short_sends : hprog → Prop
  | hprog.ret _ _ => True
  | hprog.recv _ k => ∀ n, short_sends (k n)
  | hprog.send buf k => buf.length < 2 ^ 32 ∧ ∀ n, short_sends (k n)
  | hprog.sendf buf k => buf.length < 2 ^ 32 ∧ short_sends k
  | hprog.status _ _ k => short_sends k
  | hprog.error _ _ k => short_sends k
  | hprog.header _ _ k => short_sends k

/-- A handler that performs no session operation at `FINALIZE` and never offers 2^32
bytes or more to `send`. -/
def tame (h : handler) : Prop :=
  quiet_at_finalize h ∧ ∀ u b d s, short_sends (h u b d s)

/-- The `switch (status)` of `call_handler`: what happens to the engine `e1` once the
handler has returned `status` and `prev_state` has been stored. -/
def call_handler_switch (fuel : Nat) (e1 : engine) (status : Int) : Option (engine × Int) :=
  if status = EWS_ROUTE_STATUS_CLOSE then
    let e2 := pend_close e1
    if e2.block.state > EWS_SESS_REQUEST_BEGIN then
      (finalize fuel e2).map (fun e3 => (e3, EWS_ROUTE_STATUS_CLOSE))
    else some (e2, status)
  else if status = EWS_ROUTE_STATUS_NOT_FOUND ∨ status = EWS_ROUTE_STATUS_FOUND then
    if e1.block.state ≠ EWS_SESS_REQUEST_BEGIN then
      (http_error (finalize fuel) e1 500 (bytes "Internal Server Error")).map
        (fun e3 => (e3, EWS_ROUTE_STATUS_ERROR))
    else some (e1, status)
  else if status = EWS_ROUTE_STATUS_NEXT then
    if e1.block.state = EWS_SESS_RESPONSE_BEGIN then
      some ({ e1 with block := { e1.block with state := EWS_SESS_RESPONSE_HEADER } }, status)
    else if e1.block.state = EWS_SESS_RESPONSE_HEADER then
      (http_raw_send (finalize fuel) e1 [13, 10]).map fun r2 =>
        ({ r2.1 with block := { r2.1.block with state := EWS_SESS_RESPONSE_BODY } }, status)
    else if e1.block.state = EWS_SESS_RESPONSE_BODY then
      some ({ e1 with block := { e1.block with state := EWS_HTTP_FINALIZE } }, status)
    else some (e1, status)
  else if status = EWS_ROUTE_STATUS_DONE then
    (finalize fuel e1).map (fun e3 => (e3, status))
  else if status = EWS_ROUTE_STATUS_MORE then
    if e1.block.state = EWS_SESS_RESPONSE_HEADER ∨ e1.block.state = EWS_SESS_RESPONSE_BODY then
      some (e1, status)
    else
      let e2 := pend_close e1
      if e2.block.state > EWS_SESS_REQUEST_BEGIN then
        (http_error (finalize fuel) e2 500 (bytes "Internal Server Error")).map
          (fun e3 => (e3, EWS_ROUTE_STATUS_ERROR))
      else some (e2, status)
  else
    let e2 := pend_close e1
    if e2.block.state > EWS_SESS_REQUEST_BEGIN then
      (http_error (finalize fuel) e2 500 (bytes "Internal Server Error")).map
        (fun e3 => (e3, EWS_ROUTE_STATUS_ERROR))
    else some (e2, status)

/-- The value that `call_handler` stores in `state_count` before it invokes the handler. -/
def next_count (b : http_block) : Nat :=
  if b.state ≠ b.prev_state then 0 else b.state_count + 1

/-- What a step of the engine makes of `e`: routes, buffer and session data are kept,
the handler was invoked at most once more, at `FINALIZE`, and only past `REQUEST_BEGIN`;
in `REQUEST_BEGIN` the block and the handler state are kept as well. -/
def step_of (e e1 : engine) : Prop :=
  same_session e e1 ∧
    (e1.events = e.events ∨
      (e.block.state ≠ EWS_SESS_REQUEST_BEGIN ∧
        ∃ stF, e1.events = e.events ++
          [event.call e.block.route EWS_HTTP_FINALIZE 0, event.ret stF])) ∧
    (e.block.state = EWS_SESS_REQUEST_BEGIN →
      e1.events = e.events ∧ e1.block = e.block ∧ e1.user = e.user)

/-- A session of an HTTP/1.1 request (keepalive set) whose route is the first registered
route, in state `st`, with nothing received or sent so far. -/
def sample_engine (routes : List ews_route) (st : Nat) : engine :=
  { fresh_engine routes 64 [] with
    block := { zero_block with
      version := EWS_HTTP_VERSION_11
      route := route_ptr.user 0
      state := st
      flags := EWS_HTTP_FLAGS_KEEPALIVE } }

/-- The response that `http_error` writes for the code 500 and the message
`Internal Server Error`, for version 1.1 and for version 1.0. -/
def response_500 (version : Nat) : List Nat :=
  if version = EWS_HTTP_VERSION_11 then
    bytes "HTTP/1.1 500 Internal Server Error\r\nContent-Type: text/html\r\nContent-Length: 30\r\n\r\n<h1>Internal Server Error</h1>"
  else
    bytes "HTTP/1.0 500 Internal Server Error\r\nContent-Type: text/html\r\nContent-Length: 30\r\n\r\n<h1>Internal Server Error</h1>"

/-- The response that `http_error` writes for the code 400 and the message
`Invalid Header`, for version 1.1 and for version 1.0. -/
def response_400 (version : Nat) : List Nat :=
  if version = EWS_HTTP_VERSION_11 then
    bytes "HTTP/1.1 400 Invalid Header\r\nContent-Type: text/html\r\nContent-Length: 23\r\n\r\n<h1>Invalid Header</h1>"
  else
    bytes "HTTP/1.0 400 Invalid Header\r\nContent-Type: text/html\r\nContent-Length: 23\r\n\r\n<h1>Invalid Header</h1>"

/-- A handler that accepts the request, sends the status `200 OK`, ends the headers and
returns `ERROR` at `RESPONSE_BODY`. -/
def error_at_body_handler : handler := fun user _ _ state =>
  if state = EWS_SESS_REQUEST_BEGIN then hprog.ret EWS_ROUTE_STATUS_FOUND user
  else if state = EWS_SESS_RESPONSE_BEGIN then
    hprog.status 200 (bytes "OK") (hprog.ret EWS_ROUTE_STATUS_NEXT user)
  else if state = EWS_SESS_RESPONSE_BODY then hprog.ret EWS_ROUTE_STATUS_ERROR user
  else hprog.ret EWS_ROUTE_STATUS_NEXT user

/-- The needle `s` stands in the memory at offset `base + i`. -/
def occurs_at (mem : List Nat) (base : Nat) (s : List Nat) (i : Nat) : Prop :=
  ∀ j, j < s.length → rd mem (base + (i + j)) = rd s j

instance (mem : List Nat) (base : Nat) (s : List Nat) (i : Nat) :
    Decidable (occurs_at mem base s i) := by
  unfold occurs_at
  exact inferInstance

/-- A session in `REQUEST_HEADER` of an HTTP/1.1 request (keepalive set) whose route is
the first registered route, with `input` received into its buffer of 64 bytes. -/
def header_engine (routes : List ews_route) (input : String) : engine :=
  { fresh_engine routes 64 (bytes input) with
    block := { zero_block with
      version := EWS_HTTP_VERSION_11
      route := route_ptr.user 0
      state := EWS_SESS_REQUEST_HEADER
      flags := EWS_HTTP_FLAGS_KEEPALIVE } }

/-- A handler that accepts the request, sends the status `200 OK`, declares the length
`n` with a `Content-Length` header, and at `RESPONSE_BODY` calls `send` twice, with
`first` and with `second`; it keeps what the two calls returned as its private state. -/
def content_length_handler (n first second : List Nat) : handler := fun user _ _ state =>
  if state = EWS_SESS_REQUEST_BEGIN then hprog.ret EWS_ROUTE_STATUS_FOUND user
  else if state = EWS_SESS_RESPONSE_BEGIN then
    hprog.status 200 (bytes "OK") (hprog.ret EWS_ROUTE_STATUS_NEXT user)
  else if state = EWS_SESS_RESPONSE_HEADER then
    hprog.header (bytes "Content-Length") n (hprog.ret EWS_ROUTE_STATUS_NEXT user)
  else if state = EWS_SESS_RESPONSE_BODY then
    hprog.send first (fun r1 => hprog.send second (fun r2 =>
      hprog.ret EWS_ROUTE_STATUS_DONE [r1.toNat, r2.toNat]))
  else hprog.ret EWS_ROUTE_STATUS_NEXT user

/-- The demo handler with one more response header, `Connection: close`. -/
def closing_handler : handler := fun user buf d state =>
  if state = EWS_SESS_RESPONSE_HEADER then
    hprog.header (bytes "Connection") (bytes "close")
      (ews_route_test_handler user buf d state)
  else ews_route_test_handler user buf d state

/-- The engine after `n` calls of `do_write`. -/
def writes_done (fuel : Nat) : Nat → Option engine → Option engine
  | 0, e => e
  | n + 1, e => writes_done fuel n (e.bind (do_write fuel))

/-- The number that a string of decimal digits denotes. -/
def decimal (s : List Nat) : Nat := s.foldl (fun a d => a * 10 + (d - 48)) 0

/-- The demo handler, which in addition records what it is shown at `REQUEST_BEGIN`: it
appends `path_len`, whether `query` is set (1) or null (0), and `query_len` to its
private state. -/
def recording_handler : handler := fun user buf d state =>
  if state = EWS_SESS_REQUEST_BEGIN then
    hprog.ret EWS_ROUTE_STATUS_FOUND
      (user ++ [d.path_len, if d.query.isSome then 1 else 0, d.query_len])
  else ews_route_test_handler user buf d state

/-- A freshly connected session over the TLS transport whose `k`-th write would block
(`MBEDTLS_ERR_SSL_WANT_WRITE`); every other write is accepted in full. -/
def blocking_engine (routes : List ews_route) (k : Nat) : engine :=
  { fresh_engine routes 64 [] with
    sock := { (fresh_engine routes 64 []).sock with
      ops := transport.tls
      net := fun i => if i = k then os_send.would_block else os_send.sent (2 ^ 64) } }

/-- The `while` loop of `find` together with the record of the indices `i + j` at which
it reads `buf`, in order. -/
def find_loop_reads (mem : List Nat) (base hlen : Nat) (s : List Nat) :
    Nat → Nat → Nat → Option (Int × List Nat)
  | 0, _, _ => none
  | fuel + 1, i, j =>
    if i ≤ hlen - s.length then
      if rd mem (base + (i + j)) = rd s j then
        if j = (s.length + 2 ^ 64 - 1) % 2 ^ 64 then some ((i : Int), [i + j])
        else (find_loop_reads mem base hlen s fuel i (j + 1)).map fun r => (r.1, (i + j) :: r.2)
      else (find_loop_reads mem base hlen s fuel (i + 1) 0).map fun r => (r.1, (i + j) :: r.2)
    else some (-1, [])

/-- The function `find` together with the record of the indices at which it reads `buf`. -/
def find_reads (mem : List Nat) (base hlen : Nat) (s : List Nat) : Option (Int × List Nat) :=
  if hlen < s.length then some (-1, [])
  else find_loop_reads mem base hlen s ((hlen + 1) * (s.length + 1) + 1) 0 0

/-! ## The worker and the socket slots (src/worker.c, src/listener.c, src/socket.c, src/server.c) -/

/-- Socket type and protocol values of `enum ews_sock_flags`. -/
abbrev EWS_SOCK_FLAG_TYPE_LISTEN : Nat := 0
abbrev EWS_SOCK_FLAG_TYPE_CLIENT : Nat := 8
abbrev EWS_SOCK_FLAG_PROTO_HTTP : Nat := 0

/-- The event table behind `sock->evt`: `listener_sock_evt`, which provides `on_close`,
`want_read` and `do_read`, or `http_sock_evt`, which provides all six callbacks. -/
inductive sock_evt where
  | listener
  | http
  deriving DecidableEq, Repr

/-- The callback behind `sock->connect`: `ews_connect` or `ews_connect_tls`. -/
inductive connect_fn where
  | plain
  | tls
  deriving DecidableEq, Repr

/-- A socket slot as the worker sees it (`struct ews_sock`); `none` is `NULL`.  `user` is
the HTTP session that `on_connect` allocates; the socket inside the session is brought
up to date with the slot whenever the session runs. -/
structure sock_slot where
  fd : Int
  connect : Option connect_fn
  ops : Option transport
  evt : Option sock_evt
  flags : Nat
  last_active : Nat
  idle_timeout : Nat
  user : Option engine

/-- A slot after `memset(sock, 0, sizeof(*sock))` (and after `calloc`). -/
def zero_slot : sock_slot :=
  { fd := 0, connect := none, ops := none, evt := none, flags := 0, last_active := 0,
    idle_timeout := 0, user := none }

/-- What the server is compiled and configured with: the routes, `CONFIG_EWS_RARE_METHODS`,
`CONFIG_EWS_SESSION_BUFSIZE`, `ews->config.idle_timeout` as `ews_init` leaves it, the
bound on the nesting of `finalize`, and how the network answers the `k`-th write on a
descriptor. -/
structure ews_cfg where
  routes : List ews_route
  rare_methods : Bool
  bufsize : Nat
  idle_timeout : Nat
  fuel : Nat
  net : Int → Nat → os_send

/-- A callback that the worker invokes on a descriptor, or the log line `idle timeout`. -/
inductive wevent where
  | connect (fd : Int)
  | idle_timeout (fd : Int)
  | on_close (fd : Int)
  | close (fd : Int)
  | on_connect (fd : Int)
  | do_read (fd : Int)
  | do_write (fd : Int)
  deriving DecidableEq, Repr

/-- The function `ews_connect`. -/
def ews_connect (cfg : ews_cfg) (s : sock_slot) : sock_slot :=
  { s with ops := some transport.plain, idle_timeout := cfg.idle_timeout,
           evt := some sock_evt.http }

/-- The function `ews_connect_tls`; the thread it starts is `ews_connect_tls_task`. -/
def ews_connect_tls (cfg : ews_cfg) (s : sock_slot) : sock_slot :=
  { s with ops := some transport.tls, idle_timeout := cfg.idle_timeout }

/-- The thread `ews_connect_tls_task`: when set-up and handshake succeed (`ok`) it stores
`&http_sock_evt`, otherwise it calls `ews_sock_close_tls`, which zeroes the slot. -/
def ews_connect_tls_task (ok : Bool) (s : sock_slot) : sock_slot :=
  if ok = true then { s with evt := some sock_evt.http } else zero_slot

/-- The session of a slot with the socket as the slot has it. -/
def slot_engine (s : sock_slot) (e : engine) (t : transport) : engine :=
  { e with sock := { e.sock with flags := s.flags, ops := t } }

/-- The function `on_connect` of src/http.c: `set_block`, the flags, and a session from
`calloc`. -/
def http_on_connect (cfg : ews_cfg) (s : sock_slot) : Option sock_slot :=
  s.ops.map fun t =>
    { s with
      flags := s.flags ||| EWS_SOCK_FLAG_PROTO_HTTP ||| EWS_SOCK_FLAG_CONNECTED
      user := some
        { routes := cfg.routes
          rare_methods := cfg.rare_methods
          sock :=
            { flags := s.flags ||| EWS_SOCK_FLAG_PROTO_HTTP ||| EWS_SOCK_FLAG_CONNECTED
              ops := t, net := cfg.net s.fd, sends := 0, wire := [], shutdowns := 0 }
          buf := List.replicate cfg.bufsize 0
          bufpos := 0
          buflen := 0
          sess := { path := none, path_len := 0, query := none, query_len := 0, method := 0 }
          block := zero_block
          user := []
          events := [] } }

/-- The function `on_close` of src/http.c: `finalize`, `free`, and the transport's
`close`, which zeroes the slot. -/
def http_on_close (cfg : ews_cfg) (s : sock_slot) : Option sock_slot :=
  s.user.bind fun e => s.ops.bind fun t =>
    (finalize cfg.fuel (slot_engine s e t)).map fun _ => zero_slot

/-- The function `on_close` of src/listener.c: `close(sock->fd)` and
`sock->flags &= ~EWS_SOCK_FLAG_CONNECTED`. -/
def listener_on_close (s : sock_slot) : sock_slot :=
  { s with flags := s.flags &&& (2 ^ 32 - 1 - EWS_SOCK_FLAG_CONNECTED) }

/-- The close path of `pre_select`:
`if (sock->evt && sock->evt->on_close) sock->evt->on_close(sock); else sock->ops->close(sock);`.
Both event tables provide `on_close`; both transports' `close` zero the slot. -/
def close_path (cfg : ews_cfg) (s : sock_slot) : Option (sock_slot × List wevent) :=
  match s.evt with
  | some sock_evt.http => (http_on_close cfg s).map fun s1 => (s1, [wevent.on_close s.fd])
  | some sock_evt.listener => some (listener_on_close s, [wevent.on_close s.fd])
  | none => s.ops.map fun _ => (zero_slot, [wevent.close s.fd])

/-- The call `sock->evt->want_read && sock->evt->want_read(sock)`. -/
def evt_want_read (k : sock_evt) (s : sock_slot) : Option Bool :=
  match k with
  | sock_evt.listener => some true
  | sock_evt.http => s.user.map want_read

/-- The call `sock->evt->want_write && sock->evt->want_write(sock)`; the listener's table
has no `want_write`. -/
def evt_want_write (k : sock_evt) (s : sock_slot) : Option Bool :=
  match k with
  | sock_evt.listener => some false
  | sock_evt.http => s.user.map want_write

/-- The arguments `fd_max`, `rfds` and `wfds` of `pre_select`. -/
structure fdsets where
  fd_max : Int
  rfds : List Int
  wfds : List Int
  deriving DecidableEq, Repr

/-- The statements `FD_SET(sock->fd, rfds); *fd_max = MAX(*fd_max, sock->fd);`. -/
def fd_set_read (fd : Int) (f : fdsets) : fdsets :=
  { f with rfds := fd :: f.rfds, fd_max := max f.fd_max fd }

/-- The statements `FD_SET(sock->fd, wfds); *fd_max = MAX(*fd_max, sock->fd);`. -/
def fd_set_write (fd : Int) (f : fdsets) : fdsets :=
  { f with wfds := fd :: f.wfds, fd_max := max f.fd_max fd }

/-- The start of `pre_select` for a slot in use:
`if (sock->connect) { sock->connect(sock); sock->connect = NULL; }`. -/
def after_connect (cfg : ews_cfg) (s : sock_slot) : sock_slot :=
  match s.connect with
  | some connect_fn.plain => { ews_connect cfg s with connect := none }
  | some connect_fn.tls => { ews_connect_tls cfg s with connect := none }
  | none => s

/-- The record of that call. -/
def connect_events (s : sock_slot) : List wevent :=
  match s.connect with
  | some _ => [wevent.connect s.fd]
  | none => []

/-- The function `pre_select`.  `now`, `last_active` and `idle_timeout` are `uint32_t`. -/
def pre_select (cfg : ews_cfg) (now : Nat) (s : sock_slot) (f : fdsets) :
    Option (sock_slot × fdsets × List wevent) :=
  if s.flags &&& EWS_SOCK_FLAG_INUSE = 0 then some (s, f, [])
  else
    let s1 := after_connect cfg s
    if s1.idle_timeout > 0 ∧ (now + 2 ^ 32 - s1.last_active) % 2 ^ 32 > s1.idle_timeout then
      (close_path cfg s1).map fun r =>
        (r.1, f, connect_events s ++ wevent.idle_timeout s1.fd :: r.2)
    else if s1.flags &&& EWS_SOCK_FLAG_PEND_CLOSE ≠ 0 then
      (close_path cfg s1).map fun r => (r.1, f, connect_events s ++ r.2)
    else
      match s1.evt with
      | none => some (s1, f, connect_events s)
      | some k =>
        (if s1.flags &&& EWS_SOCK_FLAG_CONNECTED = 0 ∧ k = sock_evt.http then
            (http_on_connect cfg s1).map fun s2 => (s2, [wevent.on_connect s1.fd])
          else some (s1, [])).bind fun c =>
        if c.1.flags &&& EWS_SOCK_FLAG_CONNECTED ≠ 0 then
          (evt_want_read k c.1).bind fun wr =>
          (evt_want_write k c.1).bind fun ww =>
            let f1 := if wr = true then fd_set_read c.1.fd f else f
            let f2 := if ww = true then fd_set_write c.1.fd f1 else f1
            some (c.1, f2, connect_events s ++ c.2)
        else some (c.1, f, connect_events s ++ c.2)

/-- What the operating system answers during one pass of the worker: the clock
(`ews_time_ms`), the result of `select` with the descriptor sets as it leaves them, the
result of `accept` on a listening descriptor with the clock at that moment, and the
answers to the reads on a descriptor. -/
structure pass_env where
  now : Nat
  select : fdsets → Int × List Int × List Int
  accept : Int → Int
  accept_time : Nat
  recv : Int → List os_read

/-- The server (`struct ews`): the listeners, the client slots
(`CONFIG_EWS_HTTP_CLIENTS` and `CONFIG_EWS_HTTPS_CLIENTS` of them) and the shutdown flag
of the worker. -/
structure ews where
  http_listener : sock_slot
  http_client : List sock_slot
  https_listener : sock_slot
  https_client : List sock_slot
  shutdown : Bool

/-- A pointer to one of the slots of the server. -/
inductive slot_ref where
  | http_listener
  | http_client (i : Nat)
  | https_listener
  | https_client (i : Nat)
  deriving DecidableEq, Repr

/-- The slot behind a pointer. -/
def ews.get (srv : ews) : slot_ref → Option sock_slot
  | slot_ref.http_listener => some srv.http_listener
  | slot_ref.http_client i => srv.http_client.get? i
  | slot_ref.https_listener => some srv.https_listener
  | slot_ref.https_client i => srv.https_client.get? i

/-- Store a slot behind a pointer. -/
def ews.set (srv : ews) (r : slot_ref) (s : sock_slot) : ews :=
  match r with
  | slot_ref.http_listener => { srv with http_listener := s }
  | slot_ref.http_client i => { srv with http_client := srv.http_client.set i s }
  | slot_ref.https_listener => { srv with https_listener := s }
  | slot_ref.https_client i => { srv with https_client := srv.https_client.set i s }

/-- The index of the first slot that is not in use (the search loops of the listener's
`do_read`). -/
def first_free : List sock_slot → Option Nat
  | [] => none
  | s :: rest =>
    if s.flags &&& EWS_SOCK_FLAG_INUSE = 0 then some 0
    else (first_free rest).map fun i => i + 1

/-- The function `do_read` of src/listener.c for the listener `l`: take the first free
client slot of the listener's kind, zero it, `accept` into it, and on success mark it in
use and store the `connect` callback. -/
def listener_do_read (env : pass_env) (srv : ews) (l : sock_slot) : ews :=
  if l.flags &&& EWS_SOCK_FLAG_TLS = 0 then
    match first_free srv.http_client with
    | none => srv
    | some i =>
      if env.accept l.fd < 0 then
        srv.set (slot_ref.http_client i) { zero_slot with fd := env.accept l.fd }
      else
        srv.set (slot_ref.http_client i)
          { zero_slot with
            fd := env.accept l.fd
            last_active := env.accept_time
            flags := EWS_SOCK_FLAG_INUSE ||| EWS_SOCK_FLAG_TYPE_CLIENT
            connect := some connect_fn.plain }
  else
    match first_free srv.https_client with
    | none => srv
    | some i =>
      if env.accept l.fd < 0 then
        srv.set (slot_ref.https_client i) { zero_slot with fd := env.accept l.fd }
      else
        srv.set (slot_ref.https_client i)
          { zero_slot with
            fd := env.accept l.fd
            last_active := env.accept_time
            flags := EWS_SOCK_FLAG_INUSE ||| EWS_SOCK_FLAG_TYPE_CLIENT ||| EWS_SOCK_FLAG_TLS
            connect := some connect_fn.tls }

/-- The function `do_read` of src/http.c on a slot. -/
def http_do_read (cfg : ews_cfg) (answers : List os_read) (s : sock_slot) : Option sock_slot :=
  s.user.bind fun e => s.ops.bind fun t =>
    (do_read cfg.fuel (slot_engine s e t) answers).map fun e1 =>
      { s with flags := e1.sock.flags, user := some e1 }

/-- The function `do_write` of src/http.c on a slot. -/
def http_do_write (cfg : ews_cfg) (s : sock_slot) : Option sock_slot :=
  s.user.bind fun e => s.ops.bind fun t =>
    (do_write cfg.fuel (slot_engine s e t)).map fun e1 =>
      { s with flags := e1.sock.flags, user := some e1 }

/-- The function `post_select` for the slot behind `r`. -/
def post_select (cfg : ews_cfg) (env : pass_env) (rfds wfds : List Int) (r : slot_ref)
    (srv : ews) : Option (ews × List wevent) :=
  (srv.get r).bind fun s =>
  if s.flags &&& EWS_SOCK_FLAG_CONNECTED = 0 then some (srv, [])
  else
    (if s.fd ∈ rfds then
        match s.evt with
        | none => none
        | some sock_evt.listener =>
          some (listener_do_read env (srv.set r { s with last_active := env.now })
            { s with last_active := env.now }, [wevent.do_read s.fd])
        | some sock_evt.http =>
          (http_do_read cfg (env.recv s.fd) { s with last_active := env.now }).map fun s1 =>
            (srv.set r s1, [wevent.do_read s.fd])
      else some (srv, [])).bind fun a =>
    (a.1.get r).bind fun s1 =>
    (if s1.fd ∈ wfds then
        match s1.evt with
        | none => none
        | some sock_evt.listener => some (a.1, [])
        | some sock_evt.http =>
          (http_do_write cfg { s1 with last_active := env.now }).map fun s2 =>
            (a.1.set r s2, [wevent.do_write s1.fd])
      else some (a.1, [])).map fun b => (b.1, a.2 ++ b.2)

/-- The slots in the order in which `worker_loop` visits them; a kind of which the server
has no client slots is compiled out together with its listener. -/
def slot_refs (srv : ews) : List slot_ref :=
  (if srv.http_client.length > 0 then
      slot_ref.http_listener :: (List.range srv.http_client.length).map slot_ref.http_client
    else []) ++
  (if srv.https_client.length > 0 then
      slot_ref.https_listener :: (List.range srv.https_client.length).map slot_ref.https_client
    else [])

/-- The calls of `pre_select` of one pass. -/
def pre_select_all (cfg : ews_cfg) (now : Nat) :
    List slot_ref → ews → fdsets → Option (ews × fdsets × List wevent)
  | [], srv, f => some (srv, f, [])
  | r :: rest, srv, f =>
    (srv.get r).bind fun s =>
    (pre_select cfg now s f).bind fun p =>
    (pre_select_all cfg now rest (srv.set r p.1) p.2.1).map fun q =>
      (q.1, q.2.1, p.2.2 ++ q.2.2)

/-- The calls of `post_select` of one pass. -/
def post_select_all (cfg : ews_cfg) (env : pass_env) (rfds wfds : List Int) :
    List slot_ref → ews → Option (ews × List wevent)
  | [], srv => some (srv, [])
  | r :: rest, srv =>
    (post_select cfg env rfds wfds r srv).bind fun p =>
    (post_select_all cfg env rfds wfds rest p.1).map fun q => (q.1, p.2 ++ q.2)

/-- The function `worker_loop`: one pass of the worker. -/
def worker_loop (cfg : ews_cfg) (env : pass_env) (srv : ews) : Option (ews × List wevent) :=
  (pre_select_all cfg env.now (slot_refs srv) srv ⟨0, [], []⟩).bind fun p =>
    if (env.select p.2.1).1 = 0 then some (p.1, p.2.2)
    else
      (post_select_all cfg env (env.select p.2.1).2.1 (env.select p.2.1).2.2 (slot_refs p.1)
        (if (env.select p.2.1).1 < 0 then { p.1 with shutdown := true } else p.1)).map fun q =>
        (q.1, p.2.2 ++ q.2)

/-- The function `listener_init`.  `nh` is `CONFIG_EWS_HTTP_CLIENTS`; `fd` is what
`socket` returns and `bound` tells whether `bind` and `listen` succeed. -/
def listener_init (nh : Nat) (tls : Bool) (fd : Int) (bound : Bool) (s : sock_slot) :
    sock_slot × Bool :=
  if fd < 0 ∨ bound = false then
    ({ s with flags := 0, fd := if fd > 0 then -1 else fd }, false)
  else
    ({ s with
        fd := fd
        evt := some sock_evt.listener
        flags := s.flags ||| EWS_SOCK_FLAG_INUSE ||| EWS_SOCK_FLAG_TYPE_LISTEN |||
          (if nh > 0 ∧ tls = true then EWS_SOCK_FLAG_TLS else 0) ||| EWS_SOCK_FLAG_CONNECTED },
      true)

/-- The server that `ews_init` returns: everything zero from `calloc`, then the
listeners.  `http` and `https` are what `socket`, `bind` and `listen` answer; `https` is
`none` when no certificate is configured. -/
def ews_init (nh ns : Nat) (http : Int × Bool) (https : Option (Int × Bool)) : ews :=
  { http_listener :=
      if nh > 0 then (listener_init nh false http.1 http.2 zero_slot).1 else zero_slot
    http_client := List.replicate nh zero_slot
    https_listener :=
      match https with
      | some a => if ns > 0 then (listener_init nh true a.1 a.2 zero_slot).1 else zero_slot
      | none => zero_slot
    https_client := List.replicate ns zero_slot
    shutdown := false }

/-- The states of the server that can be reached: `ews_init`, passes of the worker, and
the handshake threads finishing. -/
inductive reachable (cfg : ews_cfg) : ews → Prop
  | init (nh ns : Nat) (http : Int × Bool) (https : Option (Int × Bool)) :
      reachable cfg (ews_init nh ns http https)
  | pass (env : pass_env) (srv srv1 : ews) (ev : List wevent) :
      reachable cfg srv → worker_loop cfg env srv = some (srv1, ev) → reachable cfg srv1
  | task (srv : ews) (i : Nat) (s : sock_slot) (ok : Bool) :
      reachable cfg srv → srv.https_client.get? i = some s →
      reachable cfg (srv.set (slot_ref.https_client i) (ews_connect_tls_task ok s))

/-- A server with one plain client slot whose listener (descriptor 3) is listening. -/
def sample_server : ews := ews_init 1 0 (3, true) none

/-- A configuration without routes: buffers of 64 bytes, an idle timeout of 30 seconds,
a network that accepts every write. -/
def sample_cfg : ews_cfg :=
  { routes := [], rare_methods := false, bufsize := 64, idle_timeout := 30000, fuel := 1,
    net := fun _ => net_ok }

/-- A pass at time `now` in which `select` reports the descriptors `ready` as readable
and `accept` returns the descriptor 5. -/
def ready_env (now : Nat) (ready : List Int) : pass_env :=
  { now := now, select := fun _ => ((ready.length : Int), ready, []), accept := fun _ => 5,
    accept_time := now, recv := fun _ => [] }

/-- A pass at time `now` in which `select` fails and leaves the descriptor sets as they
were passed. -/
def failing_env (now : Nat) : pass_env :=
  { now := now, select := fun f => (-1, f.rfds, f.wfds), accept := fun _ => -1,
    accept_time := now, recv := fun _ => [] }

/-- The sample server after a pass in which the listener accepts a connection and a pass
in which the worker connects it. -/
def connected_server : Option ews :=
  (worker_loop sample_cfg (ready_env 1000 [3]) sample_server).bind fun r =>
    (worker_loop sample_cfg (ready_env 1001 []) r.1).map Prod.fst

/-- The close path of `pre_select` has what it dereferences: without an event table the
transport; for an HTTP slot the session, the transport, and a handler that performs no
session operation when `finalize` notifies it. -/
def closable (cfg : ews_cfg) (s : sock_slot) : Prop :=
  match s.evt with
  | some sock_evt.http =>
    ∃ e t, s.user = some e ∧ s.ops = some t ∧ 1 ≤ cfg.fuel ∧
      (e.block.route ≠ route_ptr.null →
        ∃ h, route_handler e e.block.route = some h ∧ quiet_at_finalize h)
  | some sock_evt.listener => True
  | none => s.ops ≠ none

/-- The rest of `pre_select` has what it dereferences: an HTTP slot has its transport,
and its session once it is connected. -/
def ready (s : sock_slot) : Prop :=
  s.evt = some sock_evt.http →
    s.ops ≠ none ∧ (s.flags &&& EWS_SOCK_FLAG_CONNECTED ≠ 0 → s.user ≠ none)

/-- A connected slot has a transport. -/
def slot_ok (s : sock_slot) : Prop :=
  s.flags &&& EWS_SOCK_FLAG_CONNECTED ≠ 0 → s.ops ≠ none

/-- A listener slot: no `connect` callback, no transport, not the HTTP event table. -/
def listener_ok (s : sock_slot) : Prop :=
  s.connect = none ∧ s.ops = none ∧ s.evt ≠ some sock_evt.http

/-- The property of the slot behind a pointer, by its kind. -/
def ref_ok (r : slot_ref) (s : sock_slot) : Prop :=
  match r with
  | slot_ref.http_listener => listener_ok s
  | slot_ref.https_listener => listener_ok s
  | slot_ref.http_client _ => slot_ok s
  | slot_ref.https_client _ => slot_ok s

/-- Every client slot that is connected has a transport; the listeners have none. -/
def server_ok (srv : ews) : Prop :=
  (∀ s ∈ srv.http_client, slot_ok s) ∧ (∀ s ∈ srv.https_client, slot_ok s) ∧
  listener_ok srv.http_listener ∧ listener_ok srv.https_listener

/-- A connected HTTP client slot (descriptor 5, last active at time 1000, idle timeout of
30 seconds) whose session has just been allocated, with `extra` or-ed into its flags. -/
def sample_slot (extra : Nat) : sock_slot :=
  { fd := 5, connect := none, ops := some transport.plain, evt := some sock_evt.http
    flags := EWS_SOCK_FLAG_INUSE ||| EWS_SOCK_FLAG_TYPE_CLIENT ||| EWS_SOCK_FLAG_CONNECTED |||
      extra
    last_active := 1000, idle_timeout := 30000, user := some (fresh_engine [] 64 []) }

/-! ## Theorems: `fnmatch` -/

theorem fnmatch_star_of_ne (c : Nat) (p : List Nat) (pl : Option (List Nat)) (h : c ≠ 42) :
    fnmatch_star (c :: p) pl = some (c :: p, pl) := by
  unfold fnmatch_star
  split
  · rename_i heq
    simp at heq
    omega
  · rfl

theorem fnmatch_loop_nil_pattern (s : List Nat) :
    fnmatch_loop s [] none = true ↔ s = [] := by
  cases s <;> simp [fnmatch_loop, fnmatch_star]

/-- Without a rewind pointer, a star-free pattern is matched byte by byte. -/
theorem fnmatch_loop_starfree (q : List Nat) (hq : 42 ∉ q) (s : List Nat) :
    fnmatch_loop s q none = true ↔ List.Forall₂ charMatch q s := by
  induction q generalizing s with
  | nil =>
    rw [fnmatch_loop_nil_pattern]
    constructor
    · rintro rfl; exact List.Forall₂.nil
    · intro h; cases h; rfl
  | cons c q ih =>
    have hc : c ≠ 42 := fun h => hq (by simp [h])
    have hq1 : 42 ∉ q := fun h => hq (by simp [h])
    cases s with
    | nil =>
      unfold fnmatch_loop
      rw [fnmatch_star_of_ne c q none hc]
      simp
    | cons sc s1 =>
      unfold fnmatch_loop
      rw [fnmatch_star_of_ne c q none hc]
      simp only [List.forall₂_cons]
      by_cases hm : c = sc ∨ c = 63
      · simp only [hm, if_true]
        rw [ih hq1 s1]
        constructor
        · intro h; exact ⟨by unfold charMatch; tauto, h⟩
        · intro h; exact h.2
      · simp only [hm, if_false]
        constructor
        · intro h; cases h
        · intro h; exact absurd (by have := h.1; unfold charMatch at this; tauto) hm

/-- A star-free pattern followed by one final `*` matches the strings that have a
prefix matched by the star-free part. -/
theorem fnmatch_loop_final_star (q : List Nat) (hq : 42 ∉ q) (s : List Nat) :
    fnmatch_loop s (q ++ [42]) none = true ↔
      ∃ pre suf, s = pre ++ suf ∧ List.Forall₂ charMatch q pre := by
  induction q generalizing s with
  | nil =>
    constructor
    · intro _; exact ⟨[], s, rfl, List.Forall₂.nil⟩
    · intro _; cases s <;> simp [fnmatch_loop, fnmatch_star]
  | cons c q ih =>
    have hc : c ≠ 42 := fun h => hq (by simp [h])
    have hq1 : 42 ∉ q := fun h => hq (by simp [h])
    cases s with
    | nil =>
      unfold fnmatch_loop
      rw [List.cons_append, fnmatch_star_of_ne c _ none hc]
      simp only [Bool.false_eq_true, false_iff]
      rintro ⟨pre, suf, hs, hf⟩
      cases hf
      simp at hs
    | cons sc s1 =>
      unfold fnmatch_loop
      rw [List.cons_append, fnmatch_star_of_ne c _ none hc]
      by_cases hm : c = sc ∨ c = 63
      · simp only [hm, if_true]
        rw [ih hq1 s1]
        constructor
        · rintro ⟨pre, suf, hs, hf⟩
          exact ⟨sc :: pre, suf, by simp [hs], List.Forall₂.cons (by unfold charMatch; tauto) hf⟩
        · rintro ⟨pre, suf, hs, hf⟩
          cases hf with
          | cons h1 h2 =>
            simp only [List.cons_append, List.cons.injEq] at hs
            exact ⟨_, suf, hs.2, h2⟩
      · simp only [hm, if_false]
        simp only [Bool.false_eq_true, false_iff]
        rintro ⟨pre, suf, hs, hf⟩
        cases hf with
        | cons h1 h2 =>
          simp only [List.cons_append, List.cons.injEq] at hs
          unfold charMatch at h1
          rw [← hs.1] at h1
          tauto

/-- C3: for a pattern whose only `*`, if any, is its last byte, `fnmatch` agrees with
the glob dialect.  Without `*` it returns true iff pattern and string have the same
length and every pattern byte is `?` or the string byte at its position; with a final
`*` it returns true iff some prefix of the string matches the star-free part that way. -/
theorem fnmatch_starfree_or_final_star (q s : List Nat) (hq : 42 ∉ q) :
    (fnmatch q s = true ↔ List.Forall₂ charMatch q s) ∧
    (fnmatch (q ++ [42]) s = true ↔
      ∃ pre suf, s = pre ++ suf ∧ List.Forall₂ charMatch q pre) :=
  ⟨fnmatch_loop_starfree q hq s, fnmatch_loop_final_star q hq s⟩

theorem fnmatch_starfree_or_final_star_witness :
    (fnmatch (bytes "/a?") (bytes "/ab") = true ↔
        List.Forall₂ charMatch (bytes "/a?") (bytes "/ab")) ∧
    (fnmatch (bytes "/a?" ++ [42]) (bytes "/ab") = true ↔
      ∃ pre suf, bytes "/ab" = pre ++ suf ∧ List.Forall₂ charMatch (bytes "/a?") pre) :=
  fnmatch_starfree_or_final_star (bytes "/a?") (bytes "/ab") (by decide)

/-- C2: `fnmatch` rejects a string that the glob dialect accepts: after a mismatch
behind a `*` the string pointer is only advanced, never taken back to where the
attempt began, so `*ab` does not match `aab` (and `**` does not match the empty
string). -/
theorem fnmatch_misses_glob_match :
    fnmatch (bytes "*ab") (bytes "aab") = false ∧ Glob (bytes "*ab") (bytes "aab") ∧
    fnmatch (bytes "**") [] = false ∧ Glob (bytes "**") [] := by
  refine ⟨by decide, ?_, by decide, ?_⟩
  · exact Glob.star [97] [97, 98] [97, 98]
      (Glob.lit 97 [98] [98] (by decide) (by decide)
        (Glob.lit 98 [] [] (by decide) (by decide) Glob.nil))
  · exact Glob.star [] [] [42] (Glob.star [] [] [] Glob.nil)

/-! ## Theorems: `parse_path` -/

theorem rd_drop (mem : List Nat) (i k : Nat) : rd mem (i + k) = rd (mem.drop i) k := by
  simp [rd, List.getElem?_drop]

theorem rd_wr_self (mem : List Nat) (i v : Nat) (h : i < mem.length) : rd (wr mem i v) i = v := by
  simp [rd, wr, h]

theorem rd_wr_ne (mem : List Nat) (i j v : Nat) (h : i ≠ j) : rd (wr mem i v) j = rd mem j := by
  simp [rd, wr, h]

theorem drop_wr (mem : List Nat) (po pi v : Nat) (h : po < pi) :
    (wr mem po v).drop pi = mem.drop pi := by
  unfold wr
  exact List.drop_set_of_lt v mem h

theorem wr_wr (mem : List Nat) (i v w : Nat) : wr (wr mem i v) i w = wr mem i w := by
  unfold wr
  exact List.set_set v w mem i

theorem length_wr (mem : List Nat) (i v : Nat) : (wr mem i v).length = mem.length := by
  simp [wr]

theorem length_writes (bs : List Nat) (mem : List Nat) (po : Nat) :
    (writes mem po bs).length = mem.length := by
  induction bs generalizing mem po with
  | nil => rfl
  | cons b bs ih => simp [writes, ih, length_wr]

theorem rd_append_zero (r post : List Nat) : rd (r ++ 0 :: post) 0 = rd r 0 := by
  cases r <;> simp [rd]

theorem rd_append_one (r post : List Nat) (h : rd r 0 ≠ 0) : rd (r ++ 0 :: post) 1 = rd r 1 := by
  cases r with
  | nil => simp [rd] at h
  | cons x r1 => cases r1 <;> simp [rd]

theorem norm_result_emit (mem : List Nat) (po endp v : Nat) (data : ews_sess_data)
    (r : List Nat × Option (List Nat)) :
    norm_result (wr mem po v) (po + 1) endp { data with path_len := data.path_len + 1 } r =
      norm_result mem po endp data (emit v r) := by
  obtain ⟨out, q⟩ := r
  cases q <;> simp [norm_result, emit, writes] <;> omega

theorem rd_ne_zero_lt (r : List Nat) (k : Nat) (h : rd r k ≠ 0) : k < r.length := by
  by_contra hk
  apply h
  simp [rd, List.getElem?_eq_none (Nat.le_of_not_lt hk)]

theorem parse_path_loop_eq_norm (fuel : Nat) :
    ∀ (rest post mem : List Nat) (pi po last : Nat) (data : ews_sess_data),
      rest.length < fuel → (∀ b ∈ rest, b ≠ 0) → mem.drop pi = rest ++ 0 :: post →
      po ≤ pi → ((0 < data.path_len ∧ rd mem (po - 1) = 47) ↔ last = 47) →
      parse_path_loop fuel mem pi po data =
        some (norm_result mem po (pi + rest.length) data (norm last rest)) := by
  induction fuel with
  | zero => intro rest post mem pi po last data h; omega
  | succ fuel ih =>
    intro rest post mem pi po last data hfuel hnz hmem hpo hlast
    have hlen : pi + rest.length < mem.length := by
      have := congrArg List.length hmem
      simp at this
      omega
    cases rest with
    | nil =>
      have hc : rd mem pi = 0 := by
        have := rd_drop mem pi 0
        simp only [Nat.add_zero] at this
        rw [this, hmem]; simp [rd]
      rw [parse_path_loop, norm]
      simp only [hc, if_true]
      cases data with | mk p pl q ql m => cases q <;> simp [norm_result, writes]
    | cons c r =>
      have hc : rd mem pi = c := by
        have := rd_drop mem pi 0
        simp only [Nat.add_zero] at this
        rw [this, hmem]; simp [rd]
      have hc0 : c ≠ 0 := hnz c (by simp)
      have hnz1 : ∀ b ∈ r, b ≠ 0 := fun b hb => hnz b (by simp [hb])
      have h1 : rd mem (pi + 1) = rd r 0 := by
        rw [rd_drop, hmem]
        simp only [List.cons_append]
        show rd (r ++ 0 :: post) 0 = rd r 0
        exact rd_append_zero r post
      have h2 : rd r 0 ≠ 0 → rd mem (pi + 2) = rd r 1 := by
        intro h
        rw [rd_drop, hmem]
        simp only [List.cons_append]
        show rd (r ++ 0 :: post) 1 = rd r 1
        exact rd_append_one r post h
      have hpolt : po < mem.length := by simp at hlen; omega
      have hdrop : ∀ k, k ≤ r.length + 1 → mem.drop (pi + k) = (c :: r).drop k ++ 0 :: post := by
        intro k hk
        rw [← List.drop_drop, hmem]
        exact List.drop_append_of_le_length (by simpa using hk)
      have hcopy : ∀ v k, 1 ≤ k → k ≤ r.length + 1 →
          parse_path_loop fuel (wr mem po v) (pi + k) (po + 1)
            { data with path_len := data.path_len + 1 } =
          some (norm_result mem po (pi + (c :: r).length) data
            (emit v (norm v ((c :: r).drop k)))) := by
        intro v k hk1 hk2
        rw [ih ((c :: r).drop k) post (wr mem po v) (pi + k) (po + 1) v _
          (by simp at hfuel ⊢; omega)
          (fun b hb => hnz b (List.mem_of_mem_drop hb))
          (by rw [drop_wr _ _ _ _ (by omega), hdrop k hk2]) (by omega)
          (by simp [rd_wr_self _ _ _ hpolt]), norm_result_emit]
        simp only [List.length_cons, List.length_drop]
        rw [show pi + k + (r.length + 1 - k) = pi + (r.length + 1) by omega]
      have hskip : ∀ k, 1 ≤ k → k ≤ r.length + 1 → parse_path_loop fuel mem (pi + k) po data =
          some (norm_result mem po (pi + (c :: r).length) data (norm last ((c :: r).drop k))) := by
        intro k hk1 hk2
        rw [ih ((c :: r).drop k) post mem (pi + k) po last data
          (by simp at hfuel ⊢; omega)
          (fun b hb => hnz b (List.mem_of_mem_drop hb)) (hdrop k hk2) (by omega) hlast]
        simp only [List.length_cons, List.length_drop]
        rw [show pi + k + (r.length + 1 - k) = pi + (r.length + 1) by omega]
      have hx0 : isxdigit 0 = false := by decide
      rw [parse_path_loop, norm]
      dsimp only
      rw [hc, h1]
      by_cases hpct : c = 37 ∧ isxdigit (rd r 0) = true ∧ isxdigit (rd r 1) = true
      · obtain ⟨hc37, hxa, hxb⟩ := hpct
        have ha0 : rd r 0 ≠ 0 := by intro h; rw [h, hx0] at hxa; cases hxa
        have hb0 : rd r 1 ≠ 0 := by intro h; rw [h, hx0] at hxb; cases hxb
        have hr2 : 2 ≤ r.length := rd_ne_zero_lt r 1 hb0
        subst hc37
        rw [h2 ha0]
        simp only [hxa, hxb, and_self, if_true]
        rw [if_neg (by decide), rd_wr_self _ _ _ hpolt, rd_wr_ne _ _ _ _ (by omega), wr_wr,
          h2 ha0]
        have := hcopy (pctbyte (rd r 0) (rd r 1)) 3 (by omega) (by omega)
        simpa [pctbyte] using this
      · have hpct2 : ¬ (c = 37 ∧ isxdigit (rd r 0) = true ∧ isxdigit (rd mem (pi + 2)) = true) := by
          rintro ⟨a, b, d⟩
          have ha0 : rd r 0 ≠ 0 := by intro h; rw [h, hx0] at b; cases b
          rw [h2 ha0] at d
          exact hpct ⟨a, b, d⟩
        rw [if_neg hc0, if_neg hpct2, if_neg hpct]
        have hd1 : (c :: r).drop 1 = r := rfl
        by_cases h43 : c = 43
        · rw [if_pos h43, if_pos h43]
          have := hcopy 32 1 (by omega) (by omega)
          rwa [hd1] at this
        rw [if_neg h43, if_neg h43]
        by_cases h47 : c = 47
        · rw [if_pos h47, if_pos h47]
          by_cases hdot : rd r 0 = 46
          · have ha0 : rd r 0 ≠ 0 := by omega
            have hr1 : 1 ≤ r.length := rd_ne_zero_lt r 0 ha0
            rw [if_pos hdot, if_pos hdot, h2 ha0]
            by_cases hseg : rd r 1 = 0 ∨ rd r 1 = 47
            · rw [if_pos hseg, if_pos hseg]
              have := hskip 2 (by omega) (by omega)
              simpa using this
            · rw [if_neg hseg, if_neg hseg]
              have hdead : ¬ (rd r 1 = 46 ∧ (c + 3 = 0 ∨ c + 3 = 47)) := by omega
              rw [if_neg hdead]
              have := hcopy c 1 (by omega) (by omega)
              rw [hd1] at this
              rw [this, h47]
          · rw [if_neg hdot, if_neg hdot]
            by_cases hl : last = 47
            · rw [if_pos (hlast.mpr hl), if_pos hl]
              have := hskip 1 (by omega) (by omega)
              rwa [hd1] at this
            · rw [if_neg (fun h => hl (hlast.mp h)), if_neg hl]
              have := hcopy c 1 (by omega) (by omega)
              rw [hd1] at this
              rw [this, h47]
        rw [if_neg h47, if_neg h47]
        by_cases h63 : c = 63
        · rw [if_pos h63, if_pos h63]
          simp only [norm_result, writes, List.nil_append, List.length_nil, Nat.add_zero,
            List.length_cons]
          rw [show pi + (r.length + 1) - r.length = pi + 1 by omega]
        · rw [if_neg h63, if_neg h63]
          have := hcopy c 1 (by omega) (by omega)
          rwa [hd1] at this

theorem writes_eq (bs : List Nat) : ∀ (mem : List Nat) (po : Nat), po + bs.length ≤ mem.length →
    writes mem po bs = mem.take po ++ bs ++ mem.drop (po + bs.length) := by
  induction bs with
  | nil => intro mem po _; simp [writes]
  | cons b bs ih =>
    intro mem po h
    simp only [List.length_cons] at h
    have hpo : po < mem.length := by omega
    rw [writes, ih _ _ (by rw [length_wr]; omega)]
    unfold wr
    rw [List.set_eq_take_append_cons_drop, if_pos hpo]
    have h1 : (List.take po mem ++ b :: List.drop (po + 1) mem).take (po + 1) =
        List.take po mem ++ [b] := by
      rw [List.take_append_eq_append_take]
      simp [List.length_take, Nat.min_eq_left (Nat.le_of_lt hpo)]
    have h2 : (List.take po mem ++ b :: List.drop (po + 1) mem).drop (po + 1 + bs.length) =
        List.drop (po + (bs.length + 1)) mem := by
      rw [List.drop_append_eq_append_drop]
      simp [List.length_take, Nat.min_eq_left (Nat.le_of_lt hpo)]
      rw [List.drop_eq_nil_of_le (by simp; omega)]
      simp
      have : po + 1 + bs.length - po = bs.length + 1 := by omega
      rw [this]
      simp [List.drop_drop]
      congr 1; omega
    rw [h1, h2]
    simp

/-- Bytes accounted for by a result of `norm`: the written bytes, and the `?` with what follows it. -/
theorem norm_length (last : Nat) (rest : List Nat) :
    (norm last rest).1.length +
      (match (norm last rest).2 with | some q => q.length + 1 | none => 0) ≤ rest.length := by
  induction last, rest using norm.induct with
  | case1 last => simp [norm]
  | case2 last c r h ih =>
    rw [norm.eq_2, if_pos h]
    simp only [emit, List.length_cons, List.length_drop] at ih ⊢
    have hr : 2 ≤ r.length := rd_ne_zero_lt r 1 (by
      intro h0; rw [h0] at h; exact absurd h.2.2 (by decide))
    omega
  | case3 last r h ih =>
    rw [norm.eq_2, if_neg h, if_pos rfl]
    simp only [emit, List.length_cons] at ih ⊢
    omega
  | case4 last r h1 h2 h3 h4 ih =>
    rw [norm.eq_2, if_neg h3, if_neg h4, if_pos rfl, if_pos h1, if_pos h2]
    simp only [List.length_cons, List.length_drop] at ih ⊢
    omega
  | case5 last r h1 h2 h3 h4 ih =>
    rw [norm.eq_2, if_neg h3, if_neg h4, if_pos rfl, if_pos h1, if_neg h2]
    simp only [emit, List.length_cons] at ih ⊢
    omega
  | case6 r h1 h3 h4 ih =>
    rw [norm.eq_2, if_neg h3, if_neg h4, if_pos rfl, if_neg h1, if_pos rfl]
    simp only [List.length_cons] at ih ⊢
    omega
  | case7 last r h1 h2 h3 h4 ih =>
    rw [norm.eq_2, if_neg h3, if_neg h4, if_pos rfl, if_neg h1, if_neg h2]
    simp only [emit, List.length_cons] at ih ⊢
    omega
  | case8 last r h1 h2 h3 =>
    rw [norm.eq_2, if_neg h1, if_neg h2, if_neg h3, if_pos rfl]
    simp
  | case9 last c r h1 h2 h3 h4 ih =>
    rw [norm.eq_2, if_neg h1, if_neg h2, if_neg h3, if_neg h4]
    simp only [emit, List.length_cons] at ih ⊢
    omega

/-- What `parse_path` computes on a NUL-terminated token `tok` stored at offset
`pre.length`: the writes and the session data given by `norm 0 tok`. -/
theorem parse_path_eq_norm (pre tok post : List Nat) (data : ews_sess_data)
    (hnz : ∀ b ∈ tok, b ≠ 0) (hpath : data.path = some pre.length)
    (hlast : data.path_len = 0 ∨ rd (pre ++ tok ++ 0 :: post) (pre.length - 1) ≠ 47) :
    parse_path (pre ++ tok ++ 0 :: post) data =
      some (norm_result (pre ++ tok ++ 0 :: post) pre.length (pre.length + tok.length) data
        (norm 0 tok)) := by
  unfold parse_path
  rw [hpath]
  exact parse_path_loop_eq_norm _ tok post _ pre.length pre.length 0 data
    (by simp; omega) hnz (by simp) (Nat.le_refl _)
    (by constructor
        · rintro ⟨h1, h2⟩; rcases hlast with h | h
          · omega
          · exact absurd h2 h
        · intro h; omega)

theorem parsed_path_eq (tok : List Nat) (hnz : ∀ b ∈ tok, b ≠ 0) :
    parsed_path tok = some (norm 0 tok).1 := by
  unfold parsed_path
  have h := parse_path_eq_norm [] tok [] (fresh_data 0) hnz rfl (Or.inl rfl)
  simp only [List.nil_append, List.length_nil, Nat.zero_add] at h
  rw [h]
  have hl := norm_length 0 tok
  simp only [Option.map_some', Option.some.injEq, norm_result]
  cases hq : (norm 0 tok).2 with
  | none =>
    rw [hq] at hl
    simp only [fresh_data, Nat.zero_add]
    rw [writes_eq _ _ _ (by simp; omega)]
    simp
  | some q =>
    rw [hq] at hl
    simp only [fresh_data, Nat.zero_add]
    rw [writes_eq _ _ _ (by simp; omega)]
    simp [List.take_append_of_le_length]

/-- The loop of `parse_path` returns on every memory: `pi` moves forward in every
iteration and stops at the first NUL byte, at the latest just after the memory. -/
theorem parse_path_loop_isSome (fuel : Nat) :
    ∀ (mem : List Nat) (pi po : Nat) (data : ews_sess_data), mem.length - pi < fuel →
      (parse_path_loop fuel mem pi po data).isSome = true := by
  induction fuel with
  | zero => intro mem pi po data h; omega
  | succ fuel ih =>
    intro mem pi po data h
    rw [parse_path_loop]
    dsimp only
    by_cases hc : rd mem pi = 0
    · rw [if_pos hc]; cases data.query <;> rfl
    · have hpi : pi < mem.length := rd_ne_zero_lt mem pi hc
      rw [if_neg hc]
      split_ifs <;> first
        | rfl
        | (apply ih; simp only [length_wr]; omega)
        | (apply ih; omega)

theorem parse_path_isSome (mem : List Nat) (data : ews_sess_data) (p : Nat)
    (hp : data.path = some p) : (parse_path mem data).isSome = true := by
  unfold parse_path
  rw [hp]
  exact parse_path_loop_isSome _ mem p p data (by omega)

theorem rd_cons_zero (x : Nat) (l : List Nat) : rd (x :: l) 0 = x := by simp [rd]

theorem rd_cons_succ (x : Nat) (l : List Nat) (k : Nat) : rd (x :: l) (k + 1) = rd l k := by
  simp [rd]

theorem rd_nil (k : Nat) : rd [] k = 0 := by simp [rd]

theorem rd_drop' (l : List Nat) (i k : Nat) : rd (l.drop i) k = rd l (i + k) :=
  (rd_drop l i k).symm

theorem prefix_two_iff (a b : Nat) (hb : b ≠ 0) (l : List Nat) :
    [a, b] <+: l ↔ rd l 0 = a ∧ rd l 1 = b := by
  cases l with
  | nil => simp [rd_nil]; intro h; omega
  | cons x l =>
    cases l with
    | nil =>
      simp [rd_cons_zero, rd_cons_succ, rd_nil, List.cons_prefix_cons]
      intro _; omega
    | cons y l =>
      simp [rd_cons_zero, rd_cons_succ, List.cons_prefix_cons]
      constructor
      · rintro ⟨h1, h2⟩; exact ⟨h1.symm, h2.symm⟩
      · rintro ⟨h1, h2⟩; exact ⟨h1.symm, h2.symm⟩

theorem infix_two_cons (a b : Nat) (hb : b ≠ 0) (x : Nat) (l : List Nat) :
    [a, b] <:+: x :: l ↔ (x = a ∧ rd l 0 = b) ∨ [a, b] <:+: l := by
  rw [List.infix_cons_iff, prefix_two_iff a b hb, rd_cons_zero, rd_cons_succ]

theorem infix_three_cons (a b c : Nat) (hc : c ≠ 0) (x : Nat) (l : List Nat) :
    [a, b, c] <:+: x :: l ↔ (x = a ∧ rd l 0 = b ∧ rd l 1 = c) ∨ [a, b, c] <:+: l := by
  rw [List.infix_cons_iff, List.cons_prefix_cons, prefix_two_iff b c hc]
  constructor
  · rintro (⟨h1, h2⟩ | h)
    · exact Or.inl ⟨h1.symm, h2⟩
    · exact Or.inr h
  · rintro (⟨h1, h2⟩ | h)
    · exact Or.inl ⟨h1.symm, h2⟩
    · exact Or.inr h

theorem not_infix_nil_two (a b : Nat) : ¬ [a, b] <:+: ([] : List Nat) := by
  simp

theorem not_infix_nil_three (a b c : Nat) : ¬ [a, b, c] <:+: ([] : List Nat) := by
  simp

/-- The first byte written for an input that does not begin with `.` is not a `.`
(no percent escapes). -/
theorem norm_head_ne_dot (last : Nat) (rest : List Nat) :
    37 ∉ rest → rd rest 0 ≠ 46 → rd (norm last rest).1 0 ≠ 46 := by
  induction last, rest using norm.induct with
  | case1 last => intro _ _; simp [norm, rd_nil]
  | case2 last c r h ih => intro hp; exact absurd (by simp [h.1]) hp
  | case3 last r h ih =>
    intro _ _
    rw [norm.eq_2, if_neg h, if_pos rfl]
    simp [emit, rd_cons_zero]
  | case4 last r h1 h2 h3 h4 ih =>
    intro hp _
    rw [norm.eq_2, if_neg h3, if_neg h4, if_pos rfl, if_pos h1, if_pos h2]
    apply ih
    · intro hm; exact hp (List.mem_cons_of_mem _ (List.mem_of_mem_drop hm))
    · rw [rd_drop']; show rd r 1 ≠ 46; rcases h2 with h | h <;> omega
  | case5 last r h1 h2 h3 h4 ih =>
    intro _ _
    rw [norm.eq_2, if_neg h3, if_neg h4, if_pos rfl, if_pos h1, if_neg h2]
    simp [emit, rd_cons_zero]
  | case6 r h1 h3 h4 ih =>
    intro hp _
    rw [norm.eq_2, if_neg h3, if_neg h4, if_pos rfl, if_neg h1, if_pos rfl]
    exact ih (fun hm => hp (List.mem_cons_of_mem _ hm)) h1
  | case7 last r h1 h2 h3 h4 ih =>
    intro _ _
    rw [norm.eq_2, if_neg h3, if_neg h4, if_pos rfl, if_neg h1, if_neg h2]
    simp [emit, rd_cons_zero]
  | case8 last r h1 h2 h3 =>
    intro _ _
    rw [norm.eq_2, if_neg h1, if_neg h2, if_neg h3, if_pos rfl]
    simp [rd_nil]
  | case9 last c r h1 h2 h3 h4 ih =>
    intro _ hc
    rw [norm.eq_2, if_neg h1, if_neg h2, if_neg h3, if_neg h4]
    rw [rd_cons_zero] at hc
    simpa [emit, rd_cons_zero] using hc

/-- The first byte written for an input that begins with a byte other than `/` and `%`
is not a `/`. -/
theorem norm_head_ne_slash (last x : Nat) (r : List Nat) (h47 : x ≠ 47) (h37 : x ≠ 37) :
    rd (norm last (x :: r)).1 0 ≠ 47 := by
  rw [norm.eq_2, if_neg (fun h => h37 h.1), if_neg h47]
  by_cases h43 : x = 43
  · rw [if_pos h43]; simp [emit, rd_cons_zero]
  · rw [if_neg h43]
    by_cases h63 : x = 63
    · rw [if_pos h63]; simp [rd_nil]
    · rw [if_neg h63]; simpa [emit, rd_cons_zero] using h47

/-- Without percent escapes the written bytes never contain `/./`. -/
theorem norm_no_slash_dot_slash (last : Nat) (rest : List Nat) :
    37 ∉ rest → ¬ [47, 46, 47] <:+: (norm last rest).1 := by
  induction last, rest using norm.induct with
  | case1 last => intro _; simp [norm]
  | case2 last c r h ih => intro hp; exact absurd (by simp [h.1]) hp
  | case3 last r h ih =>
    intro hp
    rw [norm.eq_2, if_neg h, if_pos rfl]
    simp only [emit]
    rw [infix_three_cons _ _ _ (by decide)]
    rintro (⟨h, -⟩ | h)
    · omega
    · exact ih (fun hm => hp (List.mem_cons_of_mem _ hm)) h
  | case4 last r h1 h2 h3 h4 ih =>
    intro hp
    rw [norm.eq_2, if_neg h3, if_neg h4, if_pos rfl, if_pos h1, if_pos h2]
    exact ih (fun hm => hp (List.mem_cons_of_mem _ (List.mem_of_mem_drop hm)))
  | case5 last r h1 h2 h3 h4 ih =>
    intro hp
    have hp1 : 37 ∉ r := fun hm => hp (List.mem_cons_of_mem _ hm)
    rw [norm.eq_2, if_neg h3, if_neg h4, if_pos rfl, if_pos h1, if_neg h2]
    simp only [emit]
    rw [infix_three_cons _ _ _ (by decide)]
    rintro (⟨-, -, h⟩ | h)
    · -- the input continues with `.x`, `x` neither `/` nor the end
      match r, h1, h2, hp1, h with
      | [], h1, _, _, _ => simp [rd_nil] at h1
      | [_], _, h2, _, _ => simp [rd_cons_succ, rd_nil] at h2
      | d :: x :: r2, h1, h2, hp1, h =>
        rw [rd_cons_zero] at h1
        rw [rd_cons_succ, rd_cons_zero] at h2
        have hx37 : x ≠ 37 := fun e => hp1 (by simp [e])
        subst h1
        rw [norm.eq_2, if_neg (by omega), if_neg (by omega), if_neg (by omega),
          if_neg (by omega)] at h
        simp only [emit, rd_cons_succ] at h
        exact norm_head_ne_slash 46 x r2 (by omega) hx37 h
    · exact ih hp1 h
  | case6 r h1 h3 h4 ih =>
    intro hp
    rw [norm.eq_2, if_neg h3, if_neg h4, if_pos rfl, if_neg h1, if_pos rfl]
    exact ih (fun hm => hp (List.mem_cons_of_mem _ hm))
  | case7 last r h1 h2 h3 h4 ih =>
    intro hp
    have hp1 : 37 ∉ r := fun hm => hp (List.mem_cons_of_mem _ hm)
    rw [norm.eq_2, if_neg h3, if_neg h4, if_pos rfl, if_neg h1, if_neg h2]
    simp only [emit]
    rw [infix_three_cons _ _ _ (by decide)]
    rintro (⟨-, h, -⟩ | h)
    · exact norm_head_ne_dot 47 r hp1 h1 h
    · exact ih hp1 h
  | case8 last r h1 h2 h3 =>
    intro _
    rw [norm.eq_2, if_neg h1, if_neg h2, if_neg h3, if_pos rfl]
    simp
  | case9 last c r h1 h2 h3 h4 ih =>
    intro hp
    rw [norm.eq_2, if_neg h1, if_neg h2, if_neg h3, if_neg h4]
    simp only [emit]
    rw [infix_three_cons _ _ _ (by decide)]
    rintro (⟨h, -⟩ | h)
    · exact h3 h
    · exact ih (fun hm => hp (List.mem_cons_of_mem _ hm)) h

theorem lone_dots_drop (tok : List Nat) (k : Nat) (h : lone_dots tok) : lone_dots (tok.drop k) := by
  intro i hi h1 h2
  rw [rd_drop'] at h1 h2 ⊢
  simp only [List.length_drop] at hi
  have := h (k + i) (by omega) h1 (by rw [Nat.add_assoc]; exact h2)
  rw [Nat.add_assoc] at this
  exact this

theorem lone_dots_tail (c : Nat) (r : List Nat) (h : lone_dots (c :: r)) : lone_dots r :=
  lone_dots_drop (c :: r) 1 h

theorem lone_dots_head (r : List Nat) (h : lone_dots (47 :: r)) (h1 : rd r 0 = 46) :
    rd r 1 = 0 ∨ rd r 1 = 47 := by
  have := h 0 (by simp) (rd_cons_zero 47 r) (by rw [rd_cons_succ]; exact h1)
  rwa [rd_cons_succ] at this

/-- Right after a written `/`, the next written byte is not a `/` when every dot
segment of the input is a lone dot (no percent escapes). -/
theorem norm_after_slash_ne_slash (last : Nat) (rest : List Nat) :
    last = 47 → 37 ∉ rest → lone_dots rest → rd (norm last rest).1 0 ≠ 47 := by
  induction last, rest using norm.induct with
  | case1 last => intro _ _ _; simp [norm, rd_nil]
  | case2 last c r h ih => intro _ hp; exact absurd (by simp [h.1]) hp
  | case3 last r h ih =>
    intro _ _ _
    rw [norm.eq_2, if_neg h, if_pos rfl]
    simp [emit, rd_cons_zero]
  | case4 last r h1 h2 h3 h4 ih =>
    intro hl hp hd
    rw [norm.eq_2, if_neg h3, if_neg h4, if_pos rfl, if_pos h1, if_pos h2]
    exact ih hl (fun hm => hp (List.mem_cons_of_mem _ (List.mem_of_mem_drop hm)))
      (lone_dots_drop r 1 (lone_dots_tail 47 r hd))
  | case5 last r h1 h2 h3 h4 ih =>
    intro _ _ hd
    exact absurd (lone_dots_head r hd h1) h2
  | case6 r h1 h3 h4 ih =>
    intro hl hp hd
    rw [norm.eq_2, if_neg h3, if_neg h4, if_pos rfl, if_neg h1, if_pos rfl]
    exact ih hl (fun hm => hp (List.mem_cons_of_mem _ hm)) (lone_dots_tail 47 r hd)
  | case7 last r h1 h2 h3 h4 ih =>
    intro hl _ _
    exact absurd hl h2
  | case8 last r h1 h2 h3 =>
    intro _ _ _
    rw [norm.eq_2, if_neg h1, if_neg h2, if_neg h3, if_pos rfl]
    simp [rd_nil]
  | case9 last c r h1 h2 h3 h4 ih =>
    intro _ _ _
    rw [norm.eq_2, if_neg h1, if_neg h2, if_neg h3, if_neg h4]
    simpa [emit, rd_cons_zero] using h3

/-- Without percent escapes, and when every dot segment of the input is a lone dot, the
written bytes contain neither `//` nor `/.`. -/
theorem norm_no_double_slash (last : Nat) (rest : List Nat) :
    37 ∉ rest → lone_dots rest →
      ¬ [47, 47] <:+: (norm last rest).1 ∧ ¬ [47, 46] <:+: (norm last rest).1 := by
  induction last, rest using norm.induct with
  | case1 last => intro _ _; simp [norm]
  | case2 last c r h ih => intro hp; exact absurd (by simp [h.1]) hp
  | case3 last r h ih =>
    intro hp hd
    have := ih (fun hm => hp (List.mem_cons_of_mem _ hm)) (lone_dots_tail 43 r hd)
    rw [norm.eq_2, if_neg h, if_pos rfl]
    simp only [emit]
    rw [infix_two_cons _ _ (by decide), infix_two_cons _ _ (by decide)]
    refine ⟨?_, ?_⟩
    · rintro (⟨h, -⟩ | h)
      · omega
      · exact this.1 h
    · rintro (⟨h, -⟩ | h)
      · omega
      · exact this.2 h
  | case4 last r h1 h2 h3 h4 ih =>
    intro hp hd
    rw [norm.eq_2, if_neg h3, if_neg h4, if_pos rfl, if_pos h1, if_pos h2]
    exact ih (fun hm => hp (List.mem_cons_of_mem _ (List.mem_of_mem_drop hm)))
      (lone_dots_drop r 1 (lone_dots_tail 47 r hd))
  | case5 last r h1 h2 h3 h4 ih =>
    intro _ hd
    exact absurd (lone_dots_head r hd h1) h2
  | case6 r h1 h3 h4 ih =>
    intro hp hd
    rw [norm.eq_2, if_neg h3, if_neg h4, if_pos rfl, if_neg h1, if_pos rfl]
    exact ih (fun hm => hp (List.mem_cons_of_mem _ hm)) (lone_dots_tail 47 r hd)
  | case7 last r h1 h2 h3 h4 ih =>
    intro hp hd
    have hp1 : 37 ∉ r := fun hm => hp (List.mem_cons_of_mem _ hm)
    have hd1 := lone_dots_tail 47 r hd
    have := ih hp1 hd1
    rw [norm.eq_2, if_neg h3, if_neg h4, if_pos rfl, if_neg h1, if_neg h2]
    simp only [emit]
    rw [infix_two_cons _ _ (by decide), infix_two_cons _ _ (by decide)]
    refine ⟨?_, ?_⟩
    · rintro (⟨-, h⟩ | h)
      · exact norm_after_slash_ne_slash 47 r rfl hp1 hd1 h
      · exact this.1 h
    · rintro (⟨-, h⟩ | h)
      · exact norm_head_ne_dot 47 r hp1 h1 h
      · exact this.2 h
  | case8 last r h1 h2 h3 =>
    intro _ _
    rw [norm.eq_2, if_neg h1, if_neg h2, if_neg h3, if_pos rfl]
    simp
  | case9 last c r h1 h2 h3 h4 ih =>
    intro hp hd
    have := ih (fun hm => hp (List.mem_cons_of_mem _ hm)) (lone_dots_tail c r hd)
    rw [norm.eq_2, if_neg h1, if_neg h2, if_neg h3, if_neg h4]
    simp only [emit]
    rw [infix_two_cons _ _ (by decide), infix_two_cons _ _ (by decide)]
    refine ⟨?_, ?_⟩
    · rintro (⟨h, -⟩ | h)
      · exact h3 h
      · exact this.1 h
    · rintro (⟨h, -⟩ | h)
      · exact h3 h
      · exact this.2 h

theorem hexval_eq_hex (c : Nat) (h : isxdigit c = true) : hexval c = hex c ∧ hex c < 16 := by
  simp only [isxdigit, isdigit, Bool.or_eq_true, Bool.and_eq_true, decide_eq_true_eq] at h
  unfold hexval hex toupper isdigit
  simp only [Bool.and_eq_true, decide_eq_true_eq]
  split_ifs <;> omega

theorem shift_or (a b : Nat) (ha : a < 16) (hb : b < 16) :
    (((a <<< 4) % 256) ||| b) % 256 = 16 * a + b := by
  have h : ∀ a, a < 16 → ∀ b, b < 16 → (((a <<< 4) % 256) ||| b) % 256 = 16 * a + b := by
    decide
  exact h a ha b hb

theorem pctbyte_eq (h1 h2 : Nat) (hx1 : isxdigit h1 = true) (hx2 : isxdigit h2 = true) :
    pctbyte h1 h2 = 16 * hex h1 + hex h2 := by
  unfold pctbyte
  rw [(hexval_eq_hex h1 hx1).1, (hexval_eq_hex h2 hx2).1]
  exact shift_or _ _ (hexval_eq_hex h1 hx1).2 (hexval_eq_hex h2 hx2).2

theorem rd_append_left (l t : List Nat) (k : Nat) (h : k < l.length) :
    rd (l ++ t) k = rd l k := by
  simp [rd, List.getElem?_append_left h]

theorem rd_append_right (l t : List Nat) (k : Nat) :
    rd (l ++ t) (l.length + k) = rd t k := by
  simp [rd, List.getElem?_append_right]

/-- The loop reaches every `%` that precedes the first `?` as the current byte: what it
writes for the bytes `pre` before the `%` does not depend on what follows the `%`. -/
theorem norm_reach (n : Nat) : ∀ (pre : List Nat) (last : Nat), pre.length ≤ n → 63 ∉ pre →
    ∃ o last1, ∀ rest, rd rest 0 = 37 →
      norm last (pre ++ rest) = (o ++ (norm last1 rest).1, (norm last1 rest).2) := by
  induction n with
  | zero =>
    intro pre last hn _
    have : pre = [] := List.eq_nil_of_length_eq_zero (by omega)
    subst this
    exact ⟨[], last, fun rest _ => rfl⟩
  | succ n ih =>
    intro pre last hn hq
    cases pre with
    | nil => exact ⟨[], last, fun rest _ => rfl⟩
    | cons c r =>
      have hq1 : 63 ∉ r := fun hm => hq (List.mem_cons_of_mem _ hm)
      have hc63 : c ≠ 63 := fun e => hq (by simp [e])
      have hn1 : r.length ≤ n := by simpa using hn
      have hx37 : isxdigit 37 = false := by decide
      -- the result of one step that writes `b` and goes on with `r.drop k`
      have hemit : ∀ (b k : Nat), k ≤ r.length → ∃ o last1, ∀ rest, rd rest 0 = 37 →
          emit b (norm b (r.drop k ++ rest)) = (o ++ (norm last1 rest).1, (norm last1 rest).2) := by
        intro b k _
        obtain ⟨o, l1, h⟩ := ih (r.drop k) b (by simp; omega)
          (fun hm => hq1 (List.mem_of_mem_drop hm))
        exact ⟨b :: o, l1, fun rest hr => by rw [h rest hr]; rfl⟩
      have hskip : ∀ (k : Nat), k ≤ r.length → ∃ o last1, ∀ rest, rd rest 0 = 37 →
          norm last (r.drop k ++ rest) = (o ++ (norm last1 rest).1, (norm last1 rest).2) := by
        intro k _
        exact ih (r.drop k) last (by simp; omega) (fun hm => hq1 (List.mem_of_mem_drop hm))
      -- the two bytes of lookahead, when a `%` follows `r`
      have ha : ∀ rest, rd rest 0 = 37 → rd (r ++ rest) 0 = rd (r ++ [37]) 0 := by
        intro rest hr
        cases r with
        | nil => simpa [rd] using hr
        | cons x r2 => simp [rd]
      have hb : ∀ rest, rd rest 0 = 37 → r ≠ [] → rd (r ++ rest) 1 = rd (r ++ [37]) 1 := by
        intro rest hr hne
        match r, hne with
        | [x], _ => simpa [rd] using hr
        | x :: y :: r2, _ => simp [rd]
      have ha37 : r = [] → rd (r ++ [37]) 0 = 37 := by rintro rfl; rfl
      have hb37 : r.length ≤ 1 → r ≠ [] → rd (r ++ [37]) 1 = 37 := by
        intro h hne
        match r, h, hne with
        | [x], _, _ => rfl
      have hne_of : rd (r ++ [37]) 0 ≠ 37 → r ≠ [] := fun h e => h (ha37 e)
      have hdrop0 : r.drop 0 = r := rfl
      by_cases hpct : c = 37 ∧ isxdigit (rd (r ++ [37]) 0) = true ∧
          isxdigit (rd (r ++ [37]) 1) = true
      · have hne : r ≠ [] := hne_of (by intro e; rw [e, hx37] at hpct; exact absurd hpct.2.1 (by decide))
        have hr2 : 2 ≤ r.length := by
          by_contra hlt
          have := hb37 (by omega) hne
          rw [this, hx37] at hpct
          exact absurd hpct.2.2 (by decide)
        obtain ⟨o, l1, h⟩ := hemit (pctbyte (rd (r ++ [37]) 0) (rd (r ++ [37]) 1)) 2 hr2
        refine ⟨o, l1, fun rest hr => ?_⟩
        rw [List.cons_append, norm.eq_2, ha rest hr, hb rest hr hne, if_pos hpct,
          List.drop_append_of_le_length hr2]
        exact h rest hr
      · have hpct1 : ∀ rest, rd rest 0 = 37 →
            ¬ (c = 37 ∧ isxdigit (rd (r ++ rest) 0) = true ∧ isxdigit (rd (r ++ rest) 1) = true) := by
          intro rest hr ⟨a, b, d⟩
          rw [ha rest hr] at b
          have hne : r ≠ [] := hne_of (by intro e; rw [e, hx37] at b; cases b)
          rw [hb rest hr hne] at d
          exact hpct ⟨a, b, d⟩
        by_cases h43 : c = 43
        · obtain ⟨o, l1, h⟩ := hemit 32 0 (by omega)
          refine ⟨o, l1, fun rest hr => ?_⟩
          rw [List.cons_append, norm.eq_2, if_neg (hpct1 rest hr), if_pos h43]
          exact h rest hr
        by_cases h47 : c = 47
        · by_cases hdot : rd (r ++ [37]) 0 = 46
          · have hne : r ≠ [] := hne_of (by omega)
            by_cases hseg : rd (r ++ [37]) 1 = 0 ∨ rd (r ++ [37]) 1 = 47
            · have hr2 : 2 ≤ r.length := by
                by_contra hlt
                have := hb37 (by omega) hne
                omega
              obtain ⟨o, l1, h⟩ := hskip 1 (by omega)
              refine ⟨o, l1, fun rest hr => ?_⟩
              rw [List.cons_append, norm.eq_2, if_neg (hpct1 rest hr), if_neg h43, if_pos h47,
                ha rest hr, hb rest hr hne, if_pos hdot, if_pos hseg,
                List.drop_append_of_le_length (by omega)]
              exact h rest hr
            · obtain ⟨o, l1, h⟩ := hemit 47 0 (by omega)
              refine ⟨o, l1, fun rest hr => ?_⟩
              rw [List.cons_append, norm.eq_2, if_neg (hpct1 rest hr), if_neg h43, if_pos h47,
                ha rest hr, hb rest hr hne, if_pos hdot, if_neg hseg]
              exact h rest hr
          · by_cases hl : last = 47
            · obtain ⟨o, l1, h⟩ := hskip 0 (by omega)
              refine ⟨o, l1, fun rest hr => ?_⟩
              rw [List.cons_append, norm.eq_2, if_neg (hpct1 rest hr), if_neg h43, if_pos h47,
                ha rest hr, if_neg hdot, if_pos hl]
              exact h rest hr
            · obtain ⟨o, l1, h⟩ := hemit 47 0 (by omega)
              refine ⟨o, l1, fun rest hr => ?_⟩
              rw [List.cons_append, norm.eq_2, if_neg (hpct1 rest hr), if_neg h43, if_pos h47,
                ha rest hr, if_neg hdot, if_neg hl]
              exact h rest hr
        · obtain ⟨o, l1, h⟩ := hemit c 0 (by omega)
          refine ⟨o, l1, fun rest hr => ?_⟩
          rw [List.cons_append, norm.eq_2, if_neg (hpct1 rest hr), if_neg h43, if_neg h47,
            if_neg hc63]
          exact h rest hr

/-- Only whether the last written byte is a `/` matters to the loop. -/
theorem norm_last_irrelevant (last : Nat) (rest : List Nat) :
    last ≠ 47 → norm last rest = norm 0 rest := by
  induction last, rest using norm.induct with
  | case1 last => intro _; simp [norm]
  | case2 last c r h ih =>
    intro _; rw [norm.eq_2, if_pos h, norm.eq_2, if_pos h]
  | case3 last r h ih =>
    intro _; rw [norm.eq_2, if_neg h, if_pos rfl, norm.eq_2, if_neg h, if_pos rfl]
  | case4 last r h1 h2 h3 h4 ih =>
    intro hl
    rw [norm.eq_2, if_neg h3, if_neg h4, if_pos rfl, if_pos h1, if_pos h2, ih hl,
      norm.eq_2 0, if_neg h3, if_neg h4, if_pos rfl, if_pos h1, if_pos h2]
  | case5 last r h1 h2 h3 h4 ih =>
    intro _
    rw [norm.eq_2, if_neg h3, if_neg h4, if_pos rfl, if_pos h1, if_neg h2,
      norm.eq_2 0, if_neg h3, if_neg h4, if_pos rfl, if_pos h1, if_neg h2]
  | case6 r h1 h3 h4 ih => intro hl; exact absurd rfl hl
  | case7 last r h1 h2 h3 h4 ih =>
    intro _
    rw [norm.eq_2, if_neg h3, if_neg h4, if_pos rfl, if_neg h1, if_neg h2,
      norm.eq_2 0, if_neg h3, if_neg h4, if_pos rfl, if_neg h1, if_neg (by decide)]
  | case8 last r h1 h2 h3 =>
    intro _
    rw [norm.eq_2, if_neg h1, if_neg h2, if_neg h3, if_pos rfl,
      norm.eq_2 0, if_neg h1, if_neg h2, if_neg h3, if_pos rfl]
  | case9 last c r h1 h2 h3 h4 ih =>
    intro _
    rw [norm.eq_2, if_neg h1, if_neg h2, if_neg h3, if_neg h4,
      norm.eq_2 0, if_neg h1, if_neg h2, if_neg h3, if_neg h4]

theorem isxdigit_ne_zero (c : Nat) (h : isxdigit c = true) : c ≠ 0 := by
  rintro rfl; exact absurd h (by decide)

/-- C6: in a path token, a `%` that precedes the first `?` and is followed by two
hexadecimal digits (either case) contributes exactly one byte, 16 times the value of the
first digit plus the value of the second, in place of its three bytes; a `%` that is not
followed by two hexadecimal digits is kept as it is.  `o` is what is written for the
bytes before the `%`, `t` what is written for the bytes after the escape (equal to the
path of those bytes alone unless the decoded byte is a `/`).  In particular `/%48%69`
gives the three bytes `/Hi` and `%2F%2e` the two bytes `/.`. -/
theorem parse_path_percent (pre : List Nat) (hnz : ∀ b ∈ pre, b ≠ 0) (hq : 63 ∉ pre) :
    ∃ o, parsed_path (pre ++ [37]) = some (o ++ [37]) ∧
      (∀ h1 h2 suf, isxdigit h1 = true → isxdigit h2 = true → (∀ b ∈ suf, b ≠ 0) →
        ∃ t, parsed_path (pre ++ 37 :: h1 :: h2 :: suf) =
            some (o ++ (16 * hex h1 + hex h2) :: t) ∧
          (16 * hex h1 + hex h2 ≠ 47 → parsed_path suf = some t)) ∧
      (∀ suf, ¬ (isxdigit (rd suf 0) = true ∧ isxdigit (rd suf 1) = true) →
        (∀ b ∈ suf, b ≠ 0) →
        ∃ t, parsed_path (pre ++ 37 :: suf) = some (o ++ 37 :: t) ∧
          parsed_path suf = some t) ∧
      parsed_path (bytes "/%48%69") = some (bytes "/Hi") ∧
      parsed_path (bytes "%2F%2e") = some (bytes "/.") := by
  obtain ⟨o, l1, h⟩ := norm_reach pre.length pre 0 (Nat.le_refl _) hq
  refine ⟨o, ?_, ?_, ?_, by decide, by decide⟩
  · rw [parsed_path_eq _ (by
      intro b hb; rcases List.mem_append.mp hb with hb | hb
      · exact hnz b hb
      · simp at hb; omega), h [37] rfl]
    simp [norm, emit, rd_nil]
    decide
  · intro h1 h2 suf hx1 hx2 hs
    refine ⟨(norm (16 * hex h1 + hex h2) suf).1, ?_, ?_⟩
    · rw [parsed_path_eq _ (by
        intro b hb; rcases List.mem_append.mp hb with hb | hb
        · exact hnz b hb
        · simp at hb
          rcases hb with rfl | rfl | rfl | hb
          · omega
          · exact isxdigit_ne_zero _ hx1
          · exact isxdigit_ne_zero _ hx2
          · exact hs b hb), h (37 :: h1 :: h2 :: suf) rfl, norm.eq_2,
        if_pos ⟨rfl, by simpa [rd] using hx1, by simpa [rd] using hx2⟩]
      simp only [rd_cons_zero, rd_cons_succ, emit, List.drop_succ_cons, List.drop_zero]
      rw [pctbyte_eq h1 h2 hx1 hx2]
    · intro hb
      rw [parsed_path_eq _ hs, norm_last_irrelevant _ _ hb]
  · intro suf hx hs
    refine ⟨(norm 37 suf).1, ?_, ?_⟩
    · rw [parsed_path_eq _ (by
        intro b hb; rcases List.mem_append.mp hb with hb | hb
        · exact hnz b hb
        · simp at hb
          rcases hb with rfl | hb
          · omega
          · exact hs b hb), h (37 :: suf) rfl, norm.eq_2,
        if_neg (fun hc => hx hc.2), if_neg (by decide), if_neg (by decide), if_neg (by decide)]
      rfl
    · rw [parsed_path_eq _ hs, norm_last_irrelevant 37 suf (by decide)]

theorem parse_path_percent_witness :
    ∃ o, parsed_path (bytes "/a" ++ [37]) = some (o ++ [37]) ∧
      (∀ h1 h2 suf, isxdigit h1 = true → isxdigit h2 = true → (∀ b ∈ suf, b ≠ 0) →
        ∃ t, parsed_path (bytes "/a" ++ 37 :: h1 :: h2 :: suf) =
            some (o ++ (16 * hex h1 + hex h2) :: t) ∧
          (16 * hex h1 + hex h2 ≠ 47 → parsed_path suf = some t)) ∧
      (∀ suf, ¬ (isxdigit (rd suf 0) = true ∧ isxdigit (rd suf 1) = true) →
        (∀ b ∈ suf, b ≠ 0) →
        ∃ t, parsed_path (bytes "/a" ++ 37 :: suf) = some (o ++ 37 :: t) ∧
          parsed_path suf = some t) ∧
      parsed_path (bytes "/%48%69") = some (bytes "/Hi") ∧
      parsed_path (bytes "%2F%2e") = some (bytes "/.") :=
  parse_path_percent (bytes "/a") (by decide) (by decide)

theorem settled_cons_cons (a b : Nat) (t : List Nat) :
    settled (a :: b :: t) ↔
      (a = 47 → b = 46 → rd t 0 ≠ 0 ∧ rd t 0 ≠ 47) ∧ (a = 47 → b = 47 → rd t 0 = 46) ∧
        settled (b :: t) := by
  rw [settled]

theorem settled_tail (a : Nat) (l : List Nat) (h : settled (a :: l)) : settled l := by
  cases l with
  | nil => simp [settled]
  | cons b t =>
    rw [settled_cons_cons] at h
    cases t with
    | nil => simp [settled]
    | cons c t2 =>
      exact h.2.2

/-- On a settled string of plain bytes the loop copies every byte. -/
theorem norm_settled (q : List Nat) : ∀ last, plain q → settled (last :: q) →
    norm last q = (q, none) := by
  induction q with
  | nil => intro last _ _; simp [norm]
  | cons c r ih =>
    intro last hp hs
    have hc := hp c (by simp)
    have hp1 : plain r := fun x hx => hp x (List.mem_cons_of_mem _ hx)
    rw [settled_cons_cons] at hs
    have hrec : norm c r = (r, none) := ih c hp1 hs.2.2
    rw [norm.eq_2, if_neg (fun h => hc.2.1 h.1), if_neg hc.2.2.1]
    by_cases h47 : c = 47
    · rw [if_pos h47]
      subst h47
      by_cases hdot : rd r 0 = 46
      · rw [if_pos hdot]
        have hseg : ¬ (rd r 1 = 0 ∨ rd r 1 = 47) := by
          match r, hdot, hs.2.2 with
          | [], hdot, _ => simp [rd_nil] at hdot
          | d :: t, hdot, h =>
            rw [rd_cons_zero] at hdot
            rw [settled_cons_cons] at h
            have := h.1 rfl hdot
            rw [rd_cons_succ]
            omega
        rw [if_neg hseg, hrec]; rfl
      · rw [if_neg hdot]
        have hl : last ≠ 47 := fun e => hdot (hs.2.1 e rfl)
        rw [if_neg hl, hrec]; rfl
    · rw [if_neg h47, if_neg hc.2.2.2, hrec]; rfl

theorem settled_cons (last b : Nat) (l : List Nat) (h : settled (b :: l))
    (h1 : last = 47 → b = 46 → rd l 0 ≠ 0 ∧ rd l 0 ≠ 47)
    (h2 : last = 47 → b = 47 → rd l 0 = 46) : settled (last :: b :: l) := by
  rw [settled_cons_cons]; exact ⟨h1, h2, h⟩

theorem plain_cons (b : Nat) (l : List Nat) (hb : b ≠ 0 ∧ b ≠ 37 ∧ b ≠ 43 ∧ b ≠ 63)
    (h : plain l) : plain (b :: l) := by
  intro x hx
  rcases List.mem_cons.mp hx with rfl | hx
  · exact hb
  · exact h x hx

/-- The first byte written for an input that begins with a byte other than NUL, `/`, `%`
and `?` is neither NUL nor `/`. -/
theorem norm_head_plain (last x : Nat) (r : List Nat) (h0 : x ≠ 0) (h47 : x ≠ 47)
    (h37 : x ≠ 37) (h63 : x ≠ 63) :
    rd (norm last (x :: r)).1 0 ≠ 0 ∧ rd (norm last (x :: r)).1 0 ≠ 47 := by
  rw [norm.eq_2, if_neg (fun h => h37 h.1), if_neg h47, if_neg h63]
  by_cases h43 : x = 43
  · rw [if_pos h43]; simp [emit, rd_cons_zero]
  · rw [if_neg h43]; simp only [emit, rd_cons_zero]; exact ⟨h0, h47⟩

/-- What the loop writes for an input without `%` and `?` is a settled string of plain
bytes, and the loop runs to the end of the input. -/
theorem norm_output_settled (last : Nat) (rest : List Nat) :
    37 ∉ rest → 63 ∉ rest → (∀ b ∈ rest, b ≠ 0) →
    (last = 47 → rd rest 0 = 46 → rd rest 1 ≠ 0 ∧ rd rest 1 ≠ 47) →
      settled (last :: (norm last rest).1) ∧ plain (norm last rest).1 ∧
        (norm last rest).2 = none := by
  induction last, rest using norm.induct with
  | case1 last => intro _ _ _ _; simp [norm, settled, plain]
  | case2 last c r h ih => intro hp; exact absurd (by simp [h.1]) hp
  | case3 last r h ih =>
    intro hp hq hz _
    obtain ⟨i1, i2, i3⟩ := ih (fun hm => hp (List.mem_cons_of_mem _ hm))
      (fun hm => hq (List.mem_cons_of_mem _ hm)) (fun b hb => hz b (List.mem_cons_of_mem _ hb))
      (fun e => absurd e (by decide))
    rw [norm.eq_2, if_neg h, if_pos rfl]
    exact ⟨settled_cons _ _ _ i1 (fun _ e => absurd e (by decide)) (fun _ e => absurd e (by decide)),
      plain_cons _ _ (by decide) i2, i3⟩
  | case4 last r h1 h2 h3 h4 ih =>
    intro hp hq hz _
    rw [norm.eq_2, if_neg h3, if_neg h4, if_pos rfl, if_pos h1, if_pos h2]
    exact ih (fun hm => hp (List.mem_cons_of_mem _ (List.mem_of_mem_drop hm)))
      (fun hm => hq (List.mem_cons_of_mem _ (List.mem_of_mem_drop hm)))
      (fun b hb => hz b (List.mem_cons_of_mem _ (List.mem_of_mem_drop hb)))
      (fun _ e => by
        rw [rd_drop'] at e
        have e' : rd r 1 = 46 := e
        omega)
  | case5 last r h1 h2 h3 h4 ih =>
    intro hp hq hz _
    have hp1 : 37 ∉ r := fun hm => hp (List.mem_cons_of_mem _ hm)
    obtain ⟨i1, i2, i3⟩ := ih hp1
      (fun hm => hq (List.mem_cons_of_mem _ hm)) (fun b hb => hz b (List.mem_cons_of_mem _ hb))
      (fun _ _ => by omega)
    rw [norm.eq_2, if_neg h3, if_neg h4, if_pos rfl, if_pos h1, if_neg h2]
    refine ⟨settled_cons _ _ _ i1 (fun _ e => absurd e (by decide)) (fun _ _ => ?_),
      plain_cons _ _ (by decide) i2, i3⟩
    -- the input goes on with `.`, which is copied
    match r, h1 with
    | [], h1 => simp [rd_nil] at h1
    | d :: t, h1 =>
      rw [rd_cons_zero] at h1
      subst h1
      rw [norm.eq_2, if_neg (by omega), if_neg (by omega), if_neg (by omega), if_neg (by omega)]
      simp [emit, rd_cons_zero]
  | case6 r h1 h3 h4 ih =>
    intro hp hq hz _
    rw [norm.eq_2, if_neg h3, if_neg h4, if_pos rfl, if_neg h1, if_pos rfl]
    exact ih (fun hm => hp (List.mem_cons_of_mem _ hm))
      (fun hm => hq (List.mem_cons_of_mem _ hm)) (fun b hb => hz b (List.mem_cons_of_mem _ hb))
      (fun _ e => absurd e h1)
  | case7 last r h1 h2 h3 h4 ih =>
    intro hp hq hz _
    obtain ⟨i1, i2, i3⟩ := ih (fun hm => hp (List.mem_cons_of_mem _ hm))
      (fun hm => hq (List.mem_cons_of_mem _ hm)) (fun b hb => hz b (List.mem_cons_of_mem _ hb))
      (fun _ e => absurd e h1)
    rw [norm.eq_2, if_neg h3, if_neg h4, if_pos rfl, if_neg h1, if_neg h2]
    exact ⟨settled_cons _ _ _ i1 (fun e => absurd e h2) (fun e => absurd e h2),
      plain_cons _ _ (by decide) i2, i3⟩
  | case8 last r h1 h2 h3 => intro _ hq; exact absurd (by simp) hq
  | case9 last c r h1 h2 h3 h4 ih =>
    intro hp hq hz hpre
    have hp1 : 37 ∉ r := fun hm => hp (List.mem_cons_of_mem _ hm)
    have hq1 : 63 ∉ r := fun hm => hq (List.mem_cons_of_mem _ hm)
    have hc0 : c ≠ 0 := hz c (by simp)
    have hc37 : c ≠ 37 := fun e => hp (by simp [e])
    obtain ⟨i1, i2, i3⟩ := ih hp1 hq1 (fun b hb => hz b (List.mem_cons_of_mem _ hb))
      (fun e => absurd e h3)
    rw [norm.eq_2, if_neg h1, if_neg h2, if_neg h3, if_neg h4]
    refine ⟨settled_cons _ _ _ i1 (fun hl hc => ?_) (fun _ e => absurd e h3),
      plain_cons _ _ ⟨hc0, hc37, h2, h4⟩ i2, i3⟩
    -- a copied `.` right after a `/`: the next input byte is neither the end nor `/`
    have := hpre hl (by rw [rd_cons_zero]; exact hc)
    rw [rd_cons_succ] at this
    match r, this, hp1, hq1 with
    | [], this, _, _ => simp [rd_nil] at this
    | x :: t, this, hp1, hq1 =>
      rw [rd_cons_zero] at this
      exact norm_head_plain c x t this.1 this.2 (fun e => hp1 (by simp [e]))
        (fun e => hq1 (by simp [e]))

/-- C7 (amended): for a path token without `%` and without `?`, normalising the output of
`parse_path` again, as a fresh token, gives the same bytes (and so the same `path_len`). -/
theorem parse_path_idempotent (p : List Nat) (hnz : ∀ b ∈ p, b ≠ 0) (hpct : 37 ∉ p)
    (hq : 63 ∉ p) : ∃ q, parsed_path p = some q ∧ parsed_path q = some q := by
  obtain ⟨h1, h2, _⟩ := norm_output_settled 0 p hpct hq hnz (fun e => absurd e (by decide))
  refine ⟨(norm 0 p).1, parsed_path_eq p hnz, ?_⟩
  rw [parsed_path_eq _ (fun b hb => (h2 b hb).1), norm_settled _ 0 h2 h1]

theorem parse_path_idempotent_witness :
    ∃ q, parsed_path (bytes "/a//b/./c+d") = some q ∧ parsed_path q = some q :=
  parse_path_idempotent (bytes "/a//b/./c+d") (by decide) (by decide) (by decide)

/-- C7: normalisation is not idempotent on percent escapes: `%2541` gives `%41`, and
`%41` gives `A`. -/
theorem parse_path_not_idempotent :
    parsed_path (bytes "%2541") = some (bytes "%41") ∧
    parsed_path (bytes "%41") = some (bytes "A") ∧ bytes "%41" ≠ bytes "A" := by
  refine ⟨by decide, by decide, by decide⟩

/-! ## Theorems: the session engine at `REQUEST_BEGIN` -/

theorem same_but_sock_refl (e : engine) : same_but_sock e e :=
  ⟨rfl, rfl, rfl, rfl, rfl, rfl, rfl, rfl, rfl⟩

theorem same_but_sock_trans {a b c : engine} (h1 : same_but_sock a b) (h2 : same_but_sock b c) :
    same_but_sock a c := by
  obtain ⟨a1, a2, a3, a4, a5, a6, a7, a8, a9⟩ := h1
  obtain ⟨b1, b2, b3, b4, b5, b6, b7, b8, b9⟩ := h2
  exact ⟨b1.trans a1, b2.trans a2, b3.trans a3, b4.trans a4, b5.trans a5, b6.trans a6,
    b7.trans a7, b8.trans a8, b9.trans a9⟩

theorem same_but_sock_set (e : engine) (s : ews_sock) : same_but_sock e { e with sock := s } :=
  ⟨rfl, rfl, rfl, rfl, rfl, rfl, rfl, rfl, rfl⟩

/-- At `REQUEST_BEGIN`, `finalize` does nothing, whatever the fuel. -/
theorem finalize_request_begin (fuel : Nat) (e : engine)
    (h : e.block.state = EWS_SESS_REQUEST_BEGIN) : finalize fuel e = some e := by
  cases fuel <;> simp [finalize, h]

theorem http_raw_send_begin (fuel : Nat) (e : engine) (buf : List Nat)
    (h : e.block.state = EWS_SESS_REQUEST_BEGIN) :
    ∃ e1 n, http_raw_send (finalize fuel) e buf = some (e1, n) ∧ same_but_sock e e1 := by
  unfold http_raw_send
  dsimp only
  split
  · rw [finalize_request_begin fuel _ (by exact h)]
    exact ⟨_, _, rfl, same_but_sock_set e _⟩
  · exact ⟨_, _, rfl, same_but_sock_set e _⟩

theorem http_status_begin (fuel : Nat) (e : engine) (code : Int) (msg : List Nat)
    (h : e.block.state = EWS_SESS_REQUEST_BEGIN) :
    ∃ e1, http_status (finalize fuel) e code msg = some e1 ∧ same_but_sock e e1 := by
  unfold http_status
  split
  · exact ⟨e, rfl, same_but_sock_refl e⟩
  · rw [if_neg (by rw [h]; decide)]
    obtain ⟨e1, n, h1, h2⟩ := http_raw_send_begin fuel e
      (status_line e.block.version code msg) h
    rw [h1]
    exact ⟨e1, rfl, h2⟩

theorem http_error_begin (fuel : Nat) (e : engine) (code : Int) (msg : List Nat)
    (h : e.block.state = EWS_SESS_REQUEST_BEGIN) :
    ∃ e1, http_error (finalize fuel) e code msg = some e1 ∧ same_but_sock e e1 := by
  unfold http_error
  split
  · obtain ⟨e1, h1, s1⟩ := http_status_begin fuel e code msg h
    have hs1 : e1.block.state = EWS_SESS_REQUEST_BEGIN := by rw [s1.2.2.2.2.2.2.1]; exact h
    obtain ⟨e2, n2, h2, s2⟩ := http_raw_send_begin fuel e1
      (bytes "Content-Type: text/html\r\nContent-Length: " ++ dec (9 + msg.length) ++
        [13, 10, 13, 10]) hs1
    have hs2 : e2.block.state = EWS_SESS_REQUEST_BEGIN := by rw [s2.2.2.2.2.2.2.1]; exact hs1
    obtain ⟨e3, n3, h3, s3⟩ := http_raw_send_begin fuel e2
      (bytes "<h1>" ++ msg ++ bytes "</h1>") hs2
    have hs3 : e3.block.state = EWS_SESS_REQUEST_BEGIN := by rw [s3.2.2.2.2.2.2.1]; exact hs2
    rw [h1]
    simp only [Option.some_bind, h2, h3]
    rw [finalize_request_begin fuel e3 hs3]
    exact ⟨e3, rfl, same_but_sock_trans (same_but_sock_trans s1 s2) s3⟩
  · rw [finalize_request_begin fuel e h]
    exact ⟨e, rfl, same_but_sock_refl e⟩

theorem http_header_begin (fuel : Nat) (e : engine) (name value : List Nat)
    (h : e.block.state = EWS_SESS_REQUEST_BEGIN) :
    ∃ e1, http_header (finalize fuel) e name value = some e1 ∧ same_but_sock e e1 := by
  unfold http_header
  rw [if_pos (by rw [h]; decide)]
  exact http_error_begin fuel e _ _ h

theorem http_send_begin (fuel : Nat) (e : engine) (buf : List Nat)
    (h : e.block.state = EWS_SESS_REQUEST_BEGIN) :
    ∃ e1 n, http_send (finalize fuel) e buf = some (e1, n) ∧ same_but_sock e e1 := by
  unfold http_send
  rw [if_pos (by rw [h]; decide)]
  obtain ⟨e1, h1, s1⟩ := http_error_begin fuel e 500 (bytes "Internal Server Error") h
  rw [h1]
  exact ⟨e1, -1, rfl, s1⟩

/-- At `REQUEST_BEGIN` whatever a handler does returns, and leaves everything but the
socket as it was. -/
theorem run_prog_begin (fuel : Nat) (prog : hprog) : ∀ (e : engine),
    e.block.state = EWS_SESS_REQUEST_BEGIN →
    ∃ e1 st u, run_prog (finalize fuel) prog e = some (e1, st, u) ∧ same_but_sock e e1 := by
  induction prog with
  | ret st u => intro e _; exact ⟨e, st, u, rfl, same_but_sock_refl e⟩
  | recv len k ih => intro e h; rw [run_prog]; exact ih (-1) e h
  | send buf k ih =>
    intro e h
    obtain ⟨e1, n, h1, s1⟩ := http_send_begin fuel e buf h
    obtain ⟨e2, st, u, h2, s2⟩ := ih n e1 (by rw [s1.2.2.2.2.2.2.1]; exact h)
    rw [run_prog, h1]
    exact ⟨e2, st, u, h2, same_but_sock_trans s1 s2⟩
  | sendf buf k ih =>
    intro e h
    obtain ⟨e1, n, h1, s1⟩ := http_send_begin fuel e buf h
    obtain ⟨e2, st, u, h2, s2⟩ := ih e1 (by rw [s1.2.2.2.2.2.2.1]; exact h)
    rw [run_prog, h1]
    exact ⟨e2, st, u, h2, same_but_sock_trans s1 s2⟩
  | status code msg k ih =>
    intro e h
    obtain ⟨e1, h1, s1⟩ := http_status_begin fuel e code msg h
    obtain ⟨e2, st, u, h2, s2⟩ := ih e1 (by rw [s1.2.2.2.2.2.2.1]; exact h)
    rw [run_prog, h1]
    exact ⟨e2, st, u, h2, same_but_sock_trans s1 s2⟩
  | error code msg k ih =>
    intro e h
    obtain ⟨e1, h1, s1⟩ := http_error_begin fuel e code msg h
    obtain ⟨e2, st, u, h2, s2⟩ := ih e1 (by rw [s1.2.2.2.2.2.2.1]; exact h)
    rw [run_prog, h1]
    exact ⟨e2, st, u, h2, same_but_sock_trans s1 s2⟩
  | header name value k ih =>
    intro e h
    obtain ⟨e1, h1, s1⟩ := http_header_begin fuel e name value h
    obtain ⟨e2, st, u, h2, s2⟩ := ih e1 (by rw [s1.2.2.2.2.2.2.1]; exact h)
    rw [run_prog, h1]
    exact ⟨e2, st, u, h2, same_but_sock_trans s1 s2⟩

theorem route_handler_congr (e e1 : engine) (h : e1.routes = e.routes) (r : route_ptr) :
    route_handler e1 r = route_handler e r := by
  cases r <;> simp [route_handler, h]

/-- At `REQUEST_BEGIN`, `call_handler` invokes the handler of the current route once,
returns the status the handler returned, and leaves the request as it was. -/
theorem call_handler_begin (fuel : Nat) (e : engine) (h : handler)
    (hs : e.block.state = EWS_SESS_REQUEST_BEGIN)
    (hr : route_handler e e.block.route = some h) :
    ∃ e1 st c, call_handler fuel e = some (e1, st) ∧ same_request e e1 ∧
      e1.events = e.events ++ [event.call e.block.route EWS_SESS_REQUEST_BEGIN c, event.ret st] ∧
      (∀ st0 u0, h e.user e.buf e.sess e.block.state = hprog.ret st0 u0 → st = st0) := by
  -- the state count is updated first; the rest of the engine is the same
  obtain ⟨c, hc⟩ : ∃ c, (if e.block.state ≠ e.block.prev_state then
      ({ e with block := { e.block with state_count := 0 } } : engine)
    else { e with block := { e.block with state_count := e.block.state_count + 1 } }) =
      { e with block := { e.block with state_count := c } } := by
    split
    · exact ⟨_, rfl⟩
    · exact ⟨_, rfl⟩
  unfold call_handler
  simp only [hc]
  unfold invoke
  simp only []
  rw [show route_handler { e with block := { e.block with state_count := c } } e.block.route =
    some h from hr]
  simp only [Option.some_bind]
  obtain ⟨e1, st, u, h1, s1⟩ := run_prog_begin fuel
    (h e.user e.buf e.sess e.block.state)
    { e with block := { e.block with state_count := c },
             events := e.events ++ [event.call e.block.route e.block.state c] } hs
  rw [h1]
  simp only [Option.map_some', Option.some_bind]
  obtain ⟨a1, a2, a3, a4, a5, a6, a7, a8, a9⟩ := s1
  simp only at a1 a2 a3 a4 a5 a6 a7 a8 a9
  have hst : e1.block.state = 0 := by rw [a7]; exact hs
  have hfin : ∀ x : engine, x.block.state = 0 → finalize fuel x = some x :=
    fun x hx => finalize_request_begin fuel x hx
  simp only [pend_close, hst, gt_iff_lt, Nat.lt_irrefl, if_false, ne_eq, not_true_eq_false,
    EWS_SESS_REQUEST_BEGIN, EWS_SESS_RESPONSE_BEGIN, EWS_SESS_RESPONSE_HEADER,
    EWS_SESS_RESPONSE_BODY, OfNat.zero_ne_ofNat, false_or, or_self]
  have hsame : ∀ (sk : ews_sock) (cnt : Nat) (ev : List event),
      same_request e
        { routes := e1.routes, rare_methods := e1.rare_methods, sock := sk, buf := e1.buf,
          bufpos := e1.bufpos, buflen := e1.buflen, sess := e1.sess,
          block :=
            { version := e1.block.version, route := e1.block.route, state := 0, prev_state := 0,
              flags := e1.block.flags, state_count := cnt,
              request_buf := e1.block.request_buf, request_buflen := e1.block.request_buflen,
              response_length := e1.block.response_length },
          user := u, events := ev } := by
    intro sk cnt ev
    refine ⟨a1, a2, a3, a4, a5, a6, hs.symm, ?_, ?_, ?_⟩
    · simp only [a7]
    · simp only [a7]
    · simp only [a7]
  have hev : e1.events ++ [event.ret st] =
      e.events ++ [event.call e.block.route EWS_SESS_REQUEST_BEGIN c, event.ret st] := by
    rw [a9, hs]; simp
  have hret : ∀ st0 u0, h e.user e.buf e.sess e.block.state = hprog.ret st0 u0 → st = st0 := by
    intro st0 u0 hp
    rw [hp, run_prog] at h1
    simp only [Option.some.injEq, Prod.mk.injEq] at h1
    exact h1.2.1.symm
  split_ifs
  · exact ⟨_, st, c, rfl, hsame _ _ _, hev, hret⟩
  · exact ⟨_, st, c, rfl, hsame _ _ _, hev, hret⟩
  · exact ⟨_, st, c, rfl, hsame _ _ _, hev, hret⟩
  · rw [hfin _ rfl]
    exact ⟨_, st, c, rfl, hsame _ _ _, hev, hret⟩
  · exact ⟨_, st, c, rfl, hsame _ _ _, hev, hret⟩
  · exact ⟨_, st, c, rfl, hsame _ _ _, hev, hret⟩

theorem calls_of_append (a b : List event) : calls_of (a ++ b) = calls_of a ++ calls_of b := by
  induction a with
  | nil => rfl
  | cons x t ih => cases x <;> simp [calls_of, ih]

theorem rets_of_append (a b : List event) : rets_of (a ++ b) = rets_of a ++ rets_of b := by
  induction a with
  | nil => rfl
  | cons x t ih => cases x <;> simp [rets_of, ih]

/-- The route loop of `request_begin`, started at the `i`-th route in state
`REQUEST_BEGIN`: it invokes, in order, the handlers of the matching routes from `i` up to
a route `n - 1` that returns a status other than `NOT_FOUND`, or up to the end of the
list. -/
theorem route_walk_spec (fuel : Nat) : ∀ (k i : Nat) (e : engine) (p : Nat),
    e.block.state = EWS_SESS_REQUEST_BEGIN → e.sess.path = some p → i ≤ e.routes.length →
    e.block.route = (if i < e.routes.length then route_ptr.user i else route_ptr.null) →
    e.routes.length - i < k →
    ∃ r flag n T, route_walk fuel k e = some (r, flag) ∧ i ≤ n ∧ n ≤ e.routes.length ∧
      same_request { e with block := { e.block with route := r.block.route } } r ∧
      r.events = e.events ++ T ∧
      calls_of T = ((List.range' i (n - i)).filter (route_matches e.routes (cstring e.buf p))).map
        (fun j => (route_ptr.user j, EWS_SESS_REQUEST_BEGIN)) ∧
      (rets_of T).length = (calls_of T).length ∧ T.length = 2 * (calls_of T).length ∧
      ((n = e.routes.length ∧ r.block.route = route_ptr.null ∧ flag = false ∧
          ∀ st ∈ rets_of T, st = EWS_ROUTE_STATUS_NOT_FOUND) ∨
        (∃ st, i < n ∧ route_matches e.routes (cstring e.buf p) (n - 1) = true ∧
          rets_of T = List.replicate ((calls_of T).length - 1) EWS_ROUTE_STATUS_NOT_FOUND ++ [st] ∧
          st ≠ EWS_ROUTE_STATUS_NOT_FOUND ∧ r.block.route = route_ptr.user (n - 1) ∧
          flag = decide (st ≠ EWS_ROUTE_STATUS_FOUND))) := by
  intro k
  induction k with
  | zero => intro i e p _ _ _ _ h; omega
  | succ k ih =>
    intro i e p hs hp hi hr hk
    by_cases hlt : i < e.routes.length
    · rw [if_pos hlt] at hr
      obtain ⟨rt, hrt⟩ : ∃ rt, e.routes.get? i = some rt := by
        rw [List.get?_eq_get hlt]; exact ⟨_, rfl⟩
      have hrt' : e.routes[i]? = some rt := by simpa using hrt
      have hnext : ∀ x : engine, x.routes = e.routes →
          route_next x (route_ptr.user i) =
            some (if i + 1 < e.routes.length then route_ptr.user (i + 1) else route_ptr.null) := by
        intro x hx
        simp only [route_next, hx]
        split <;> rfl
      have hrange : ∀ n, i + 1 ≤ n → List.range' i (n - i) = i :: List.range' (i + 1) (n - (i + 1)) := by
        intro n hn
        rw [show n - i = (n - (i + 1)) + 1 by omega, List.range'_succ]
      rw [route_walk]
      simp only [hr, hrt, hp]
      by_cases hm : fnmatch rt.pattern (cstring e.buf p) = true
      · have hmi : route_matches e.routes (cstring e.buf p) i = true := by
          simp [route_matches, hrt', hm]
        rw [if_pos hm]
        obtain ⟨e1, st, c, h1, s1, ev1, -⟩ := call_handler_begin fuel e rt.handler hs
          (by rw [hr]; simp [route_handler, hrt'])
        rw [h1]
        simp only [Option.some_bind]
        obtain ⟨q1, q2, q3, q4, q5, q6, q7, q8, q9, q10⟩ := s1
        rw [hr] at ev1 q8
        by_cases hf : st = EWS_ROUTE_STATUS_FOUND
        · rw [if_pos hf]
          refine ⟨e1, false, i + 1, _, rfl, by omega, by omega,
            ⟨q1, q2, q3, q4, q5, q6, q7, rfl, q9, q10⟩, ev1, ?_, ?_, ?_, Or.inr ⟨st, ?_⟩⟩
          · simp [calls_of, hmi]
          · simp [calls_of, rets_of]
          · simp [calls_of]
          · refine ⟨by omega, by simpa using hmi, by simp [calls_of, rets_of], ?_, by simpa using q8, ?_⟩
            · rw [hf]; decide
            · simp [hf]
        · rw [if_neg hf]
          by_cases hn : st = EWS_ROUTE_STATUS_NOT_FOUND
          · rw [if_neg (by simp [hn])]
            rw [q8, hnext e1 q1]
            simp only [Option.some_bind]
            obtain ⟨r, flag, n, T, w1, w2, w3, w4, w5, w6, w7, w8, w9⟩ := ih (i + 1)
              { e1 with block := { e1.block with route :=
                (if i + 1 < e.routes.length then route_ptr.user (i + 1) else route_ptr.null) } }
              p (by simpa using q7.trans hs) (by simpa [q6] using hp) (by simpa [q1] using hlt)
              (by simp [q1]) (by simp [q1]; omega)
            simp only [q1, q3] at w3 w6 w9
            refine ⟨r, flag, n, [event.call (route_ptr.user i) EWS_SESS_REQUEST_BEGIN c, event.ret st] ++ T,
              w1, by omega, w3, ?_, ?_, ?_, ?_, ?_, ?_⟩
            · obtain ⟨x1, x2, x3, x4, x5, x6, x7, x8, x9, x10⟩ := w4
              exact ⟨x1.trans q1, x2.trans q2, x3.trans q3, x4.trans q4, x5.trans q5, x6.trans q6,
                x7.trans q7, rfl, x9.trans q9, x10.trans q10⟩
            · rw [w5]; simp only [ev1]; simp
            · rw [calls_of_append, w6, hrange n w2]
              simp [calls_of, hmi]
            · rw [calls_of_append, rets_of_append]
              simp [calls_of, rets_of, w7]
            · rw [calls_of_append]
              simp [calls_of, w8]; omega
            · rcases w9 with ⟨z1, z2, z3, z4⟩ | ⟨st2, z1, z2, z3, z4, z5, z6⟩
              · left
                refine ⟨z1, z2, z3, ?_⟩
                intro x hx
                rw [rets_of_append] at hx
                simp only [rets_of, List.cons_append, List.nil_append, List.mem_cons] at hx
                rcases hx with hx | hx
                · rw [hx, hn]
                · exact z4 x hx
              · right
                refine ⟨st2, by omega, z2, ?_, z4, z5, z6⟩
                have hpos : 1 ≤ (calls_of T).length := by
                  rw [← w7, z3]; simp
                rw [rets_of_append, calls_of_append, z3]
                simp only [rets_of, calls_of, List.cons_append, List.nil_append, List.length_cons,
                  hn]
                rw [show (calls_of T).length + 1 - 1 = ((calls_of T).length - 1) + 1 by omega,
                  List.replicate_succ]
                rfl
          · rw [if_pos hn]
            refine ⟨e1, true, i + 1, _, rfl, by omega, by omega,
              ⟨q1, q2, q3, q4, q5, q6, q7, rfl, q9, q10⟩, ev1, ?_, ?_, ?_, Or.inr ⟨st, ?_⟩⟩
            · simp [calls_of, hmi]
            · simp [calls_of, rets_of]
            · simp [calls_of]
            · refine ⟨by omega, by simpa using hmi, by simp [calls_of, rets_of], hn,
                by simpa using q8, ?_⟩
              simp [hf]
      · have hmi : route_matches e.routes (cstring e.buf p) i = false := by
          simp [route_matches, hrt', hm]
        rw [if_neg hm, hnext e rfl]
        simp only [Option.some_bind]
        obtain ⟨r, flag, n, T, w1, w2, w3, w4, w5, w6, w7, w8, w9⟩ := ih (i + 1)
          { e with block := { e.block with route :=
            (if i + 1 < e.routes.length then route_ptr.user (i + 1) else route_ptr.null) } }
          p hs hp hlt rfl (by simp; omega)
        simp only at w3 w6 w9
        refine ⟨r, flag, n, T, w1, by omega, w3, w4, w5, ?_, w7, w8, ?_⟩
        · rw [w6, hrange n w2]
          simp [hmi]
        · rcases w9 with z | ⟨st2, z1, z2, z3, z4, z5, z6⟩
          · exact Or.inl z
          · exact Or.inr ⟨st2, by omega, z2, z3, z4, z5, z6⟩
    · rw [if_neg hlt] at hr
      have hil : i = e.routes.length := by omega
      rw [route_walk]
      simp only [hr]
      refine ⟨e, false, i, [], rfl, Nat.le_refl _, hi, ?_, by simp, ?_, rfl, rfl,
        Or.inl ⟨hil, hr, rfl, ?_⟩⟩
      · exact ⟨rfl, rfl, rfl, rfl, rfl, rfl, rfl, rfl, rfl, rfl⟩
      · simp [calls_of]
      · intro st hst; simp [rets_of] at hst

/-- The loop of `parse_path` leaves `path` and `method` as they are. -/
theorem parse_path_loop_path (fuel : Nat) : ∀ (mem : List Nat) (pi po : Nat)
    (data : ews_sess_data) (r : List Nat × ews_sess_data),
    parse_path_loop fuel mem pi po data = some r →
      r.2.path = data.path ∧ r.2.method = data.method := by
  induction fuel with
  | zero => intro mem pi po data r h; simp [parse_path_loop] at h
  | succ fuel ih =>
    intro mem pi po data r h
    rw [parse_path_loop] at h
    dsimp only at h
    split_ifs at h
    · cases hq : data.query with
      | none => rw [hq] at h; simp at h; subst h; exact ⟨rfl, rfl⟩
      | some q => rw [hq] at h; simp at h; subst h; exact ⟨rfl, rfl⟩
    all_goals first
      | exact ih _ _ _ _ _ h
      | (have h2 := ih _ _ _ _ _ h; exact h2)
      | (simp only [Option.some.injEq] at h; subst h; exact ⟨rfl, rfl⟩)

theorem parse_path_path (mem : List Nat) (data : ews_sess_data) (r : List Nat × ews_sess_data)
    (h : parse_path mem data = some r) : r.2.path = data.path ∧ r.2.method = data.method := by
  unfold parse_path at h
  cases hp : data.path with
  | none => rw [hp] at h; simp at h
  | some p => rw [hp] at h; simp only at h; rw [← hp]; exact parse_path_loop_path _ _ _ _ _ _ h

/-- When `request_line` goes on to the routes, the path pointer is set, and routes,
state and the record of handler invocations are as before. -/
theorem request_line_continue (fuel : Nat) (e e1 : engine)
    (h : request_line fuel e = some (e1, false)) :
    e1.routes = e.routes ∧ e1.block.state = e.block.state ∧ e1.events = e.events ∧
      e1.sock = e.sock ∧ e1.user = e.user ∧ e1.block.route = e.block.route ∧
      ∃ p, e1.sess.path = some p := by
  unfold request_line at h
  cases hf : find e.buf e.bufpos e.buflen [13, 10] with
  | none => rw [hf] at h; simp at h
  | some n =>
    rw [hf] at h
    simp only [Option.some_bind] at h
    split_ifs at h with h1 h2
    · simp at h
    · simp at h
    · cases ht : split_tokens ((wr e.buf (e.bufpos + n.toNat) 0).length + 1)
          (wr e.buf (e.bufpos + n.toNat) 0) e.bufpos none none with
      | none => rw [ht] at h; simp at h
      | some t =>
        rw [ht] at h
        simp only [Option.some_bind] at h
        obtain ⟨m, pth, ver⟩ := t
        cases pth with
        | none => simp at h
        | some path =>
          simp only at h
          cases hpp : parse_path (upcase m e.bufpos)
              { path := some path, path_len := e.sess.path_len, query := e.sess.query,
                query_len := e.sess.query_len,
                method := method_of e.rare_methods (cstring (upcase m e.bufpos) e.bufpos) } with
          | none => rw [hpp] at h; simp at h
          | some pp =>
            rw [hpp] at h
            have hpath := (parse_path_path _ _ _ hpp).1
            simp only [Option.some_bind] at h
            cases ver with
            | none =>
              simp only [Option.some.injEq, Prod.mk.injEq, and_true] at h
              subst h
              exact ⟨rfl, rfl, rfl, rfl, rfl, rfl, path, hpath⟩
            | some v =>
              simp only at h
              split_ifs at h
              · simp only [Option.some.injEq, Prod.mk.injEq, and_true] at h
                subst h
                exact ⟨rfl, rfl, rfl, rfl, rfl, rfl, path, hpath⟩
              · simp only [Option.some.injEq, Prod.mk.injEq, and_true] at h
                subst h
                exact ⟨rfl, rfl, rfl, rfl, rfl, rfl, path, hpath⟩
              · simp at h

/-- The route dispatch of `request_begin`, entered in state `REQUEST_BEGIN` with the path
at offset `p`.  `n` is the number of routes looked at, the matching ones among them are
invoked in order; either the last of them returns a status `st` other than `NOT_FOUND`,
or all return `NOT_FOUND` and the 404 route is invoked and becomes the route. -/
theorem request_dispatch_spec (fuel : Nat) (e : engine) (p : Nat)
    (hs : e.block.state = EWS_SESS_REQUEST_BEGIN) (hp : e.sess.path = some p) :
    ∃ r flag n T, request_dispatch fuel e = some (r, flag) ∧ n ≤ e.routes.length ∧
      r.events = e.events ++ T ∧ r.routes = e.routes ∧ r.buf = e.buf ∧ r.sess = e.sess ∧
      r.block.version = e.block.version ∧ r.block.flags = e.block.flags ∧
      T.length = 2 * (calls_of T).length ∧ (rets_of T).length = (calls_of T).length ∧
      (flag = false → r.block.state =
        if e.block.version = EWS_HTTP_VERSION_09 then EWS_SESS_RESPONSE_BEGIN
        else EWS_SESS_REQUEST_HEADER) ∧
      ((∃ st, 0 < n ∧ route_matches e.routes (cstring e.buf p) (n - 1) = true ∧
          st ≠ EWS_ROUTE_STATUS_NOT_FOUND ∧
          calls_of T = ((List.range n).filter (route_matches e.routes (cstring e.buf p))).map
            (fun j => (route_ptr.user j, EWS_SESS_REQUEST_BEGIN)) ∧
          rets_of T = List.replicate ((calls_of T).length - 1) EWS_ROUTE_STATUS_NOT_FOUND ++ [st] ∧
          r.block.route = route_ptr.user (n - 1) ∧
          flag = decide (st ≠ EWS_ROUTE_STATUS_FOUND)) ∨
        (n = e.routes.length ∧
          calls_of T = ((List.range n).filter (route_matches e.routes (cstring e.buf p))).map
            (fun j => (route_ptr.user j, EWS_SESS_REQUEST_BEGIN)) ++
              [(route_ptr.r404, EWS_SESS_REQUEST_BEGIN)] ∧
          rets_of T = List.replicate ((calls_of T).length - 1) EWS_ROUTE_STATUS_NOT_FOUND ++
            [EWS_ROUTE_STATUS_FOUND] ∧
          r.block.route = route_ptr.r404 ∧ flag = false)) := by
  obtain ⟨w, flag, n, T, w1, w2, w3, w4, w5, w6, w7, w8, w9⟩ :=
    route_walk_spec fuel (e.routes.length + 1) 0
      { e with block := { e.block with route := route_first e } } p hs hp (Nat.zero_le _)
      (by simp only [route_first]; split_ifs <;> first | rfl | omega) (by simp)
  simp only [Nat.sub_zero, ← List.range_eq_range'] at w6 w9
  obtain ⟨x1, x2, x3, x4, x5, x6, x7, x8, x9, x10⟩ := w4
  simp only at x1 x2 x3 x4 x5 x6 x7 x9 x10 w3 w5
  have hfinal : ∀ x : engine,
      (if x.block.version = EWS_HTTP_VERSION_09 then
        (({ x with block := { x.block with state := EWS_SESS_RESPONSE_BEGIN } } : engine), false)
      else ({ x with block := { x.block with state := EWS_SESS_REQUEST_HEADER } }, false)) =
      ({ x with block := { x.block with state :=
        if x.block.version = EWS_HTTP_VERSION_09 then EWS_SESS_RESPONSE_BEGIN
        else EWS_SESS_REQUEST_HEADER } }, false) := by
    intro x; split_ifs <;> rfl
  unfold request_dispatch
  rw [w1]
  simp only [Option.some_bind, hfinal]
  rcases w9 with ⟨z1, z2, z3, z4⟩ | ⟨st, z1, z2, z3, z4, z5, z6⟩
  · -- every matching handler declined: the 404 route
    subst z3
    simp only [Bool.false_eq_true, if_false, z2, if_true]
    obtain ⟨e1, st, c, h1, s1, ev1, hret⟩ := call_handler_begin fuel
      { w with block := { w.block with route := route_ptr.r404 } } ews_route_404_handler
      (by simpa using x7.trans hs) rfl
    have hst : st = EWS_ROUTE_STATUS_FOUND := hret _ w.user (by
      simp only [ews_route_404_handler]
      rw [if_pos (by simpa using x7.trans hs)])
    subst hst
    obtain ⟨q1, q2, q3, q4, q5, q6, q7, q8, q9, q10⟩ := s1
    simp only at q1 q2 q3 q4 q5 q6 q7 q8 q9 q10 ev1
    rw [h1]
    simp only [Option.map_some']
    have hrep : rets_of T = List.replicate (calls_of T).length EWS_ROUTE_STATUS_NOT_FOUND := by
      rw [← w7]
      exact List.eq_replicate_iff.mpr ⟨rfl, z4⟩
    have hver : e1.block.version = e.block.version := q9.trans x9
    refine ⟨_, false, n,
      T ++ [event.call route_ptr.r404 EWS_SESS_REQUEST_BEGIN c, event.ret EWS_ROUTE_STATUS_FOUND],
      rfl, w3, ?_, q1.trans x1, q3.trans x3, q6.trans x6, hver, q10.trans x10, ?_, ?_, ?_,
      Or.inr ⟨z1, ?_, ?_, q8, rfl⟩⟩
    · simp [ev1, w5]
    · rw [calls_of_append]; simp [calls_of, w8]; omega
    · rw [calls_of_append, rets_of_append]; simp [calls_of, rets_of, w7]
    · intro _
      simp only [hver]
    · rw [calls_of_append, w6]; simp [calls_of]
    · rw [calls_of_append, rets_of_append, hrep]; simp [calls_of, rets_of]
  · -- a handler answered
    by_cases hf : st = EWS_ROUTE_STATUS_FOUND
    · subst hf
      have hfl : flag = false := by rw [z6]; decide
      subst hfl
      simp only [Bool.false_eq_true, if_false, z5, route_ptr.user.injEq, reduceCtorEq,
        Option.map_some']
      refine ⟨_, false, n, T, rfl, w3, w5, x1, x3, x6, x9, x10, w8, w7, ?_,
        Or.inl ⟨EWS_ROUTE_STATUS_FOUND, z1, z2, z4, w6, z3, rfl, by decide⟩⟩
      intro _
      simp only [x9]
    · have hfl : flag = true := by rw [z6]; simp [hf]
      subst hfl
      simp only [if_true]
      exact ⟨w, true, n, T, rfl, w3, w5, x1, x3, x6, x9, x10, w8, w7, by simp,
        Or.inl ⟨st, z1, z2, z4, w6, z3, z5, by simp [hf]⟩⟩

theorem rd_append_at (A R : List Nat) (k : Nat) : rd (A ++ R) (A.length + k) = rd R k :=
  rd_append_right A R k

theorem rd_append_at_zero (A R : List Nat) : rd (A ++ R) A.length = rd R 0 := by
  have := rd_append_right A R 0
  simpa using this

theorem wr_append_at (A : List Nat) (c : Nat) (R : List Nat) (v : Nat) :
    wr (A ++ c :: R) A.length v = A ++ v :: R := by
  simp [wr]

/-- Scanning over the bytes of a token: none of them is NUL or white space. -/
theorem split_tokens_token (X : List Nat) : ∀ (A R : List Nat) (fuel : Nat)
    (path version : Option Nat), (∀ b ∈ X, b ≠ 0 ∧ isspace b = false) →
    split_tokens (fuel + X.length) (A ++ X ++ R) A.length path version =
      split_tokens fuel (A ++ X ++ R) (A.length + X.length) path version := by
  induction X with
  | nil => intro A R fuel path version _; simp
  | cons c X ih =>
    intro A R fuel path version h
    have hc := h c (by simp)
    have hrd : rd (A ++ c :: X ++ R) A.length = c := by
      rw [List.append_assoc, rd_append_at_zero]; simp [rd]
    rw [show fuel + (c :: X).length = (fuel + X.length) + 1 by simp; omega, split_tokens, hrd,
      if_neg hc.1, if_neg (by simp [hc.2])]
    have := ih (A ++ [c]) R fuel path version (fun b hb => h b (List.mem_cons_of_mem _ hb))
    simp only [List.append_assoc, List.singleton_append, List.length_append, List.length_singleton,
      List.length_cons, List.length_nil, Nat.zero_add, List.cons_append, List.nil_append] at this ⊢
    rw [this]
    congr 1
    omega

theorem skip_space_run (A W R : List Nat) (hw : ∀ b ∈ W, isspace b = true)
    (hr : isspace (rd R 0) = false) : skip_space (A ++ W ++ R) A.length = A.length + W.length := by
  unfold skip_space
  rw [List.append_assoc, List.drop_left]
  congr 1
  induction W with
  | nil =>
    cases R with
    | nil => rfl
    | cons x R =>
      simp only [rd_cons_zero] at hr
      simp [List.takeWhile, hr]
  | cons w W ih =>
    have := hw w (by simp)
    have ih' := ih (fun b hb => hw b (List.mem_cons_of_mem _ hb))
    simp only [List.cons_append, List.takeWhile, this, List.length_cons]
    exact congrArg (· + 1) ih'

/-- Scanning over a run of white space that is followed by a byte that is not white
space: the first byte of the run becomes NUL, `p1` is the offset after the run. -/
theorem split_tokens_space (A : List Nat) (w : Nat) (W R : List Nat) (fuel : Nat)
    (path version : Option Nat) (hw0 : isspace w = true) (hw : ∀ b ∈ W, isspace b = true)
    (hr : isspace (rd R 0) = false) :
    split_tokens (fuel + 1) (A ++ w :: W ++ R) A.length path version =
      split_tokens fuel (A ++ 0 :: W ++ R) (A.length + W.length + 1 + 1)
        (if path = none then some (A.length + W.length + 1) else path)
        (if path = none then version
          else if version = none then some (A.length + W.length + 1) else version) := by
  have hrd : rd (A ++ w :: W ++ R) A.length = w := by
    rw [List.append_assoc, rd_append_at_zero]; simp [rd]
  have hw0' : w ≠ 0 := by rintro rfl; exact absurd hw0 (by decide)
  have hwr : wr (A ++ w :: W ++ R) A.length 0 = A ++ 0 :: W ++ R := by
    rw [List.append_assoc, List.cons_append, wr_append_at]; simp
  have hsk : skip_space (A ++ 0 :: W ++ R) (A.length + 1) = A.length + W.length + 1 := by
    have := skip_space_run (A ++ [0]) W R hw hr
    simp only [List.append_assoc, List.singleton_append, List.length_append,
      List.length_singleton] at this
    simp only [List.append_assoc, List.cons_append] at this ⊢
    rw [this]; omega
  rw [split_tokens, hrd, if_neg hw0', if_pos hw0]
  simp only [hwr, hsk]
  split_ifs <;> rfl

theorem find_loop_crlf (A R : List Nat) (hlen : Nat) (L2 : List Nat) : ∀ (L1 : List Nat) (fuel : Nat),
    13 ∉ L2 → L1.length + L2.length + 2 ≤ hlen → L2.length + 2 ≤ fuel →
    find_loop (A ++ (L1 ++ L2) ++ 13 :: 10 :: R) A.length hlen [13, 10] fuel L1.length 0 =
      some ((L1.length + L2.length : Nat) : Int) := by
  induction L2 with
  | nil =>
    intro L1 fuel _ hh hf
    obtain ⟨f, rfl⟩ : ∃ f, fuel = f + 2 := ⟨fuel - 2, by simp at hf; omega⟩
    simp only [List.length_nil, Nat.add_zero, List.append_nil] at hh ⊢
    have h0 : rd (A ++ L1 ++ 13 :: 10 :: R) (A.length + (L1.length + 0)) = 13 := by
      have := rd_append_at (A ++ L1) (13 :: 10 :: R) 0
      simp only [List.length_append, Nat.add_zero] at this
      simpa [rd_cons_zero] using this
    have h1 : rd (A ++ L1 ++ 13 :: 10 :: R) (A.length + (L1.length + 1)) = 10 := by
      have := rd_append_at (A ++ L1) (13 :: 10 :: R) 1
      simp only [List.length_append] at this
      rw [← Nat.add_assoc, this]; rfl
    rw [find_loop, if_pos (by simp; omega), h0]
    simp only [rd_cons_zero, if_true]
    rw [if_neg (by decide), find_loop, if_pos (by simp; omega), h1]
    simp only [rd_cons_succ, rd_cons_zero, if_true]
    rw [if_pos (by decide)]
  | cons c L2 ih =>
    intro L1 fuel hc hh hf
    obtain ⟨f, rfl⟩ : ∃ f, fuel = f + 1 := ⟨fuel - 1, by simp at hf; omega⟩
    have hc13 : c ≠ 13 := fun e => hc (by simp [e])
    have h0 : rd (A ++ (L1 ++ c :: L2) ++ 13 :: 10 :: R) (A.length + (L1.length + 0)) = c := by
      have := rd_append_at (A ++ L1) (c :: L2 ++ 13 :: 10 :: R) 0
      simp only [List.length_append, Nat.add_zero] at this
      simp only [List.append_assoc, Nat.add_zero] at this ⊢
      rw [this]; simp [rd]
    simp only [List.length_cons] at hh hf
    rw [find_loop, if_pos (by simp; omega), h0]
    simp only [rd_cons_zero]
    rw [if_neg hc13]
    have := ih (L1 ++ [c]) f (fun hm => hc (List.mem_cons_of_mem _ hm))
      (by simp; omega) (by omega)
    simp only [List.append_assoc, List.singleton_append, List.length_append,
      List.length_singleton, List.cons_append, List.nil_append] at this ⊢
    rw [this]
    simp only [List.length_cons]
    congr 1
    push_cast
    omega

/-- In a buffer that holds, from offset `base`, a line without CR followed by CRLF,
`find` returns the length of the line. -/
theorem find_crlf (A L R : List Nat) (hlen : Nat) (h13 : 13 ∉ L) (hh : L.length + 2 ≤ hlen) :
    find (A ++ L ++ 13 :: 10 :: R) A.length hlen [13, 10] = some (L.length : Int) := by
  unfold find
  rw [if_neg (by simp; omega)]
  have := find_loop_crlf A R hlen L [] ((hlen + 1) * ([13, 10].length + 1) + 1) h13
    (by simpa using hh) (by simp; omega)
  simpa using this

theorem takeWhile_nonzero (X R : List Nat) (h : ∀ b ∈ X, b ≠ 0) :
    (X ++ 0 :: R).takeWhile (fun b => b ≠ 0) = X := by
  induction X with
  | nil => simp [List.takeWhile]
  | cons c X ih =>
    have hc := h c (by simp)
    have ih' := ih (fun b hb => h b (List.mem_cons_of_mem _ hb))
    simp only [List.cons_append, List.takeWhile, ne_eq, hc, not_false_eq_true, decide_True]
    exact congrArg (c :: ·) ih'

theorem cstring_of_drop (mem : List Nat) (v : Nat) (X R : List Nat)
    (hd : mem.drop v = X ++ 0 :: R) (h : ∀ b ∈ X, b ≠ 0) : cstring mem v = X := by
  unfold cstring
  rw [hd]
  exact takeWhile_nonzero X R h

theorem cstring_at (A X R : List Nat) (h : ∀ b ∈ X, b ≠ 0) :
    cstring (A ++ X ++ 0 :: R) A.length = X :=
  cstring_of_drop _ _ X R (by simp) h

theorem toupper_ne_zero (c : Nat) (h : c ≠ 0) : toupper c ≠ 0 := by
  unfold toupper
  split_ifs <;> omega

theorem upcase_at (A X R : List Nat) (h : ∀ b ∈ X, b ≠ 0) :
    upcase (A ++ X ++ 0 :: R) A.length = A ++ X.map toupper ++ 0 :: R := by
  unfold upcase strlen
  rw [cstring_at A X R h]
  simp [List.take_append_eq_append_take]

theorem cstring_upcase (mem : List Nat) (v : Nat) (X R : List Nat)
    (hd : mem.drop v = X ++ 0 :: R) (h : ∀ b ∈ X, b ≠ 0) :
    cstring (upcase mem v) v = X.map toupper := by
  have hv : v ≤ mem.length := by
    by_contra hlt
    rw [List.drop_eq_nil_of_le (by omega)] at hd
    simp at hd
  have hm : mem = mem.take v ++ X ++ 0 :: R := by
    rw [List.append_assoc, ← hd, List.take_append_drop]
  have hl : (mem.take v).length = v := by simp [hv]
  have := upcase_at (mem.take v) X R h
  rw [← hm, hl] at this
  rw [this]
  have h2 := cstring_at (mem.take v) (X.map toupper) R (by
    intro b hb
    obtain ⟨c, hc, rfl⟩ := List.mem_map.mp hb
    exact toupper_ne_zero c (h c hc))
  rwa [hl] at h2

theorem drop_writes (bs : List Nat) : ∀ (mem : List Nat) (po k : Nat), po + bs.length ≤ k →
    (writes mem po bs).drop k = mem.drop k := by
  induction bs with
  | nil => intro mem po k _; rfl
  | cons b bs ih =>
    intro mem po k h
    simp only [List.length_cons] at h
    rw [writes, ih _ _ _ (by omega), drop_wr _ _ _ _ (by omega)]

theorem or_pend_close (f : Nat) : (f ||| EWS_SOCK_FLAG_PEND_CLOSE) &&& EWS_SOCK_FLAG_PEND_CLOSE ≠ 0 := by
  intro h
  have := congrArg (fun x => x.testBit 12) h
  have h12 : EWS_SOCK_FLAG_PEND_CLOSE.testBit 12 = true := by decide
  simp [Nat.testBit_and, Nat.testBit_or, h12] at this

theorem split_tokens_end (fuel : Nat) (mem : List Nat) (p : Nat) (path version : Option Nat)
    (h : rd mem p = 0) : split_tokens (fuel + 1) mem p path version = some (mem, path, version) := by
  rw [split_tokens, if_pos h]

/-- The tokenizer on a line of a method, white space and a path. -/
theorem split_tokens_two (pre M W1 P R : List Nat) (fuel : Nat) (hM : is_token M)
    (hW : is_blank W1) (hP : is_token P) (hF : M.length + W1.length + P.length + 2 ≤ fuel) :
    split_tokens fuel (pre ++ M ++ W1 ++ P ++ 0 :: R) pre.length none none =
      some (pre ++ M ++ 0 :: W1.tail ++ P ++ 0 :: R,
        some (pre.length + M.length + W1.length), none) := by
  obtain ⟨w, W, rfl⟩ : ∃ w W, W1 = w :: W := by
    cases W1 with
    | nil => exact absurd rfl hW.1
    | cons w W => exact ⟨w, W, rfl⟩
  obtain ⟨c, P1, rfl⟩ : ∃ c P1, P = c :: P1 := by
    cases P with
    | nil => exact absurd rfl hP.1
    | cons c P1 => exact ⟨c, P1, rfl⟩
  simp only [List.length_cons] at hF
  obtain ⟨f, rfl⟩ : ∃ f, fuel = f + 1 + P1.length + 1 + M.length :=
    ⟨fuel - (1 + P1.length + 1 + M.length), by omega⟩
  have hc := hP.2 c (by simp)
  have s1 := split_tokens_token M pre (w :: W ++ c :: P1 ++ 0 :: R) (f + 1 + P1.length + 1)
    none none hM.2
  have s2 := split_tokens_space (pre ++ M) w W (c :: P1 ++ 0 :: R) (f + 1 + P1.length)
    none none (hW.2 w (by simp)).1 (fun b hb => (hW.2 b (List.mem_cons_of_mem _ hb)).1)
    (by simpa [rd] using hc.2)
  have s3 := split_tokens_token P1 (pre ++ M ++ 0 :: W ++ [c]) (0 :: R) (f + 1)
    (some ((pre ++ M).length + W.length + 1)) none
    (fun b hb => hP.2 b (List.mem_cons_of_mem _ hb))
  have s4 := split_tokens_end f (pre ++ M ++ 0 :: W ++ [c] ++ P1 ++ 0 :: R)
    ((pre ++ M ++ 0 :: W ++ [c]).length + P1.length)
    (some ((pre ++ M).length + W.length + 1)) none (by
      have := rd_append_at_zero (pre ++ M ++ 0 :: W ++ [c] ++ P1) (0 :: R)
      simp only [List.length_append] at this ⊢
      rw [this]; rfl)
  simp only [List.append_assoc, List.cons_append, List.nil_append, List.length_append,
    List.length_cons, List.length_nil, if_true, List.singleton_append, List.tail_cons,
    Nat.add_assoc, Nat.zero_add] at s1 s2 s3 s4 ⊢
  rw [s1, s2, s3, s4]

/-- The tokenizer on a line of a method, a path and a third token, separated by white
space. -/
theorem split_tokens_three (pre M W1 P W2 V R : List Nat) (fuel : Nat) (hM : is_token M)
    (hW : is_blank W1) (hP : is_token P) (hW2 : is_blank W2) (hV : is_token V)
    (hF : M.length + W1.length + P.length + W2.length + V.length + 2 ≤ fuel) :
    split_tokens fuel (pre ++ M ++ W1 ++ P ++ W2 ++ V ++ 0 :: R) pre.length none none =
      some (pre ++ M ++ 0 :: W1.tail ++ P ++ 0 :: W2.tail ++ V ++ 0 :: R,
        some (pre.length + M.length + W1.length),
        some (pre.length + M.length + W1.length + P.length + W2.length)) := by
  obtain ⟨w, W, rfl⟩ : ∃ w W, W1 = w :: W := by
    cases W1 with
    | nil => exact absurd rfl hW.1
    | cons w W => exact ⟨w, W, rfl⟩
  obtain ⟨c, P1, rfl⟩ : ∃ c P1, P = c :: P1 := by
    cases P with
    | nil => exact absurd rfl hP.1
    | cons c P1 => exact ⟨c, P1, rfl⟩
  obtain ⟨x, X, rfl⟩ : ∃ x X, W2 = x :: X := by
    cases W2 with
    | nil => exact absurd rfl hW2.1
    | cons x X => exact ⟨x, X, rfl⟩
  obtain ⟨v, V1, rfl⟩ : ∃ v V1, V = v :: V1 := by
    cases V with
    | nil => exact absurd rfl hV.1
    | cons v V1 => exact ⟨v, V1, rfl⟩
  simp only [List.length_cons] at hF
  obtain ⟨f, rfl⟩ : ∃ f, fuel = f + 1 + V1.length + 1 + P1.length + 1 + M.length :=
    ⟨fuel - (1 + V1.length + 1 + P1.length + 1 + M.length), by omega⟩
  have hc := hP.2 c (by simp)
  have hv := hV.2 v (by simp)
  have s1 := split_tokens_token M pre (w :: W ++ c :: P1 ++ x :: X ++ v :: V1 ++ 0 :: R)
    (f + 1 + V1.length + 1 + P1.length + 1) none none hM.2
  have s2 := split_tokens_space (pre ++ M) w W (c :: P1 ++ x :: X ++ v :: V1 ++ 0 :: R)
    (f + 1 + V1.length + 1 + P1.length)
    none none (hW.2 w (by simp)).1 (fun b hb => (hW.2 b (List.mem_cons_of_mem _ hb)).1)
    (by simpa [rd] using hc.2)
  have s3 := split_tokens_token P1 (pre ++ M ++ 0 :: W ++ [c]) (x :: X ++ v :: V1 ++ 0 :: R)
    (f + 1 + V1.length + 1)
    (some ((pre ++ M).length + W.length + 1)) none
    (fun b hb => hP.2 b (List.mem_cons_of_mem _ hb))
  have s4 := split_tokens_space (pre ++ M ++ 0 :: W ++ c :: P1) x X (v :: V1 ++ 0 :: R)
    (f + 1 + V1.length)
    (some ((pre ++ M).length + W.length + 1)) none
    (hW2.2 x (by simp)).1 (fun b hb => (hW2.2 b (List.mem_cons_of_mem _ hb)).1)
    (by simpa [rd] using hv.2)
  have s5 := split_tokens_token V1 (pre ++ M ++ 0 :: W ++ c :: P1 ++ 0 :: X ++ [v]) (0 :: R)
    (f + 1)
    (some ((pre ++ M).length + W.length + 1))
    (some ((pre ++ M ++ 0 :: W ++ c :: P1).length + X.length + 1))
    (fun b hb => hV.2 b (List.mem_cons_of_mem _ hb))
  have s6 := split_tokens_end f (pre ++ M ++ 0 :: W ++ c :: P1 ++ 0 :: X ++ [v] ++ V1 ++ 0 :: R)
    ((pre ++ M ++ 0 :: W ++ c :: P1 ++ 0 :: X ++ [v]).length + V1.length)
    (some ((pre ++ M).length + W.length + 1))
    (some ((pre ++ M ++ 0 :: W ++ c :: P1).length + X.length + 1)) (by
      have := rd_append_at_zero (pre ++ M ++ 0 :: W ++ c :: P1 ++ 0 :: X ++ [v] ++ V1) (0 :: R)
      simp only [List.length_append] at this ⊢
      rw [this]; rfl)
  simp only [List.append_assoc, List.cons_append, List.nil_append, List.length_append,
    List.length_cons, List.length_nil, if_true, List.singleton_append, List.tail_cons,
    Nat.add_assoc, Nat.zero_add, reduceCtorEq, if_false, Nat.add_comm,
    Nat.add_left_comm] at s1 s2 s3 s4 s5 s6 ⊢
  rw [s1, s2, s3, s4, s5, s6]

theorem token_no_cr (x : List Nat) (h : is_token x) : 13 ∉ x := by
  intro hm
  have := (h.2 13 hm).2
  revert this; decide

theorem blank_no_cr (w : List Nat) (h : is_blank w) : 13 ∉ w := fun hm => (h.2 13 hm).2 rfl

theorem token_nonzero (x : List Nat) (h : is_token x) : ∀ b ∈ x, b ≠ 0 := fun b hb => (h.2 b hb).1

/-- A request line `M W1 P` without a third token: `request_line` goes on to the routes
and leaves version and flags as they are. -/
theorem request_line_two (fuel : Nat) (e : engine) (pre M W1 P post : List Nat)
    (hM : is_token M) (hW : is_blank W1) (hP : is_token P)
    (hbuf : e.buf = pre ++ M ++ W1 ++ P ++ 13 :: 10 :: post) (hpos : e.bufpos = pre.length)
    (hlen : M.length + W1.length + P.length + 2 ≤ e.buflen) :
    ∃ e1, request_line fuel e = some (e1, false) ∧ e1.block.version = e.block.version ∧
      e1.block.flags = e.block.flags := by
  have hfind : find e.buf e.bufpos e.buflen [13, 10] =
      some ((M.length + W1.length + P.length : Nat) : Int) := by
    have := find_crlf pre (M ++ W1 ++ P) post e.buflen (by
      simp only [List.mem_append, not_or]
      exact ⟨⟨token_no_cr M hM, blank_no_cr W1 hW⟩, token_no_cr P hP⟩)
      (by simp only [List.length_append]; omega)
    rw [hbuf, hpos]
    simp only [List.append_assoc, List.length_append] at this ⊢
    rw [this, Nat.add_assoc]
  have hwr : wr e.buf (pre.length + (M.length + W1.length + P.length)) 0 =
      pre ++ M ++ W1 ++ P ++ 0 :: 10 :: post := by
    have := wr_append_at (pre ++ M ++ W1 ++ P) 13 (10 :: post) 0
    rw [hbuf]
    simp only [List.length_append, Nat.add_assoc] at this ⊢
    exact this
  have htok := split_tokens_two pre M W1 P (10 :: post)
    ((pre ++ M ++ W1 ++ P ++ 0 :: 10 :: post).length + 1) hM hW hP (by simp; omega)
  unfold request_line
  rw [hfind]
  simp only [Option.some_bind, Int.toNat_ofNat, hpos]
  rw [if_neg (by omega), hwr, htok]
  simp only [Option.some_bind]
  obtain ⟨pp, hpp⟩ := Option.isSome_iff_exists.mp (parse_path_isSome
    (upcase (pre ++ M ++ 0 :: W1.tail ++ P ++ 0 :: 10 :: post) pre.length)
    { path := some (pre.length + M.length + W1.length), path_len := e.sess.path_len,
      query := e.sess.query, query_len := e.sess.query_len,
      method := method_of e.rare_methods
        (cstring (upcase (pre ++ M ++ 0 :: W1.tail ++ P ++ 0 :: 10 :: post) pre.length)
          pre.length) } (pre.length + M.length + W1.length) rfl)
  rw [hpp]
  exact ⟨_, rfl, rfl, rfl⟩

/-- The loop of `parse_path` writes only inside the token: memory from the terminating
NUL of the token on is left as it was. -/
theorem parse_path_keeps_after (pre tok post : List Nat) (data : ews_sess_data) (k : Nat)
    (hnz : ∀ b ∈ tok, b ≠ 0) (hpath : data.path = some pre.length)
    (hlast : data.path_len = 0 ∨ rd (pre ++ tok ++ 0 :: post) (pre.length - 1) ≠ 47)
    (hk : pre.length + tok.length ≤ k) :
    ∃ pp, parse_path (pre ++ tok ++ 0 :: post) data = some pp ∧
      pp.1.drop k = (pre ++ tok ++ 0 :: post).drop k := by
  refine ⟨_, parse_path_eq_norm pre tok post data hnz hpath hlast, ?_⟩
  have hl := norm_length 0 tok
  unfold norm_result
  cases hq : (norm 0 tok).2 with
  | none =>
    rw [hq] at hl
    simp only
    exact drop_writes _ _ _ _ (by omega)
  | some q =>
    rw [hq] at hl
    have hl2 : (norm 0 tok).1.length + (q.length + 1) ≤ tok.length := hl
    simp only
    exact drop_writes _ _ _ _ (by simp only [List.length_append, List.length_singleton]; omega)

theorem rd_mem_of_lt (Z : List Nat) (k : Nat) (h : k < Z.length) : rd Z k ∈ Z := by
  have : rd Z k = Z[k] := by simp [rd, h]
  rw [this]
  exact List.getElem_mem h

theorem rd_last_of_append (B Z X : List Nat) (hZ : Z ≠ []) :
    rd (B ++ Z ++ X) ((B ++ Z).length - 1) ∈ Z := by
  have hpos : 0 < Z.length := List.length_pos.mpr hZ
  have h1 : (B ++ Z).length - 1 = B.length + (Z.length - 1) := by
    simp only [List.length_append]; omega
  rw [h1, List.append_assoc, rd_append_at, rd_append_left _ _ _ (by omega)]
  exact rd_mem_of_lt Z _ (by omega)

theorem tail_length_succ (W : List Nat) (h : W ≠ []) : W.tail.length + 1 = W.length := by
  cases W with
  | nil => exact absurd rfl h
  | cons w W => simp

/-- A request line `M W1 P W2 V` with a third token `V`: `HTTP/1.1` in any case sets
version 1.1 and keepalive, `HTTP/1.0` sets version 1.0, and anything else makes
`request_begin` return with pend-close set, without any handler invoked. -/
theorem request_line_three (fuel : Nat) (e : engine) (pre M W1 P W2 V post : List Nat)
    (hM : is_token M) (hW : is_blank W1) (hP : is_token P) (hW2 : is_blank W2)
    (hV : is_token V) (hs : e.block.state = EWS_SESS_REQUEST_BEGIN)
    (hbuf : e.buf = pre ++ M ++ W1 ++ P ++ W2 ++ V ++ 13 :: 10 :: post)
    (hpos : e.bufpos = pre.length)
    (hlen : M.length + W1.length + P.length + W2.length + V.length + 2 ≤ e.buflen) :
    (V.map toupper = bytes "HTTP/1.1" →
      ∃ e1, request_line fuel e = some (e1, false) ∧ e1.block.version = EWS_HTTP_VERSION_11 ∧
        e1.block.flags = e.block.flags ||| EWS_HTTP_FLAGS_KEEPALIVE) ∧
    (V.map toupper = bytes "HTTP/1.0" →
      ∃ e1, request_line fuel e = some (e1, false) ∧ e1.block.version = EWS_HTTP_VERSION_10 ∧
        e1.block.flags = e.block.flags) ∧
    (V.map toupper ≠ bytes "HTTP/1.1" → V.map toupper ≠ bytes "HTTP/1.0" →
      ∃ e1, request_line fuel e = some (e1, true) ∧
        e1.sock.flags &&& EWS_SOCK_FLAG_PEND_CLOSE ≠ 0 ∧ e1.events = e.events) := by
  have hfind : find e.buf e.bufpos e.buflen [13, 10] =
      some ((M.length + W1.length + P.length + W2.length + V.length : Nat) : Int) := by
    have := find_crlf pre (M ++ W1 ++ P ++ W2 ++ V) post e.buflen (by
      simp only [List.mem_append, not_or]
      exact ⟨⟨⟨⟨token_no_cr M hM, blank_no_cr W1 hW⟩, token_no_cr P hP⟩, blank_no_cr W2 hW2⟩,
        token_no_cr V hV⟩)
      (by simp only [List.length_append]; omega)
    rw [hbuf, hpos]
    simp only [List.append_assoc, List.length_append] at this ⊢
    rw [this]
    simp only [Nat.add_assoc]
  have hwr : wr e.buf (pre.length + (M.length + W1.length + P.length + W2.length + V.length)) 0 =
      pre ++ M ++ W1 ++ P ++ W2 ++ V ++ 0 :: 10 :: post := by
    have := wr_append_at (pre ++ M ++ W1 ++ P ++ W2 ++ V) 13 (10 :: post) 0
    rw [hbuf]
    simp only [List.length_append, Nat.add_assoc] at this ⊢
    exact this
  have htok := split_tokens_three pre M W1 P W2 V (10 :: post)
    ((pre ++ M ++ W1 ++ P ++ W2 ++ V ++ 0 :: 10 :: post).length + 1) hM hW hP hW2 hV
    (by simp; omega)
  have hup : upcase (pre ++ M ++ 0 :: W1.tail ++ P ++ 0 :: W2.tail ++ V ++ 0 :: 10 :: post)
      pre.length =
      (pre ++ M.map toupper ++ 0 :: W1.tail) ++ P ++ 0 :: (W2.tail ++ V ++ 0 :: 10 :: post) := by
    have := upcase_at pre M (W1.tail ++ P ++ 0 :: W2.tail ++ V ++ 0 :: 10 :: post)
      (token_nonzero M hM)
    simp only [List.append_assoc, List.cons_append] at this ⊢
    exact this
  have hpl : (pre ++ M.map toupper ++ 0 :: W1.tail).length = pre.length + M.length + W1.length := by
    simp only [List.length_append, List.length_map, List.length_cons]
    have := tail_length_succ W1 hW.1
    omega
  have h47 : rd ((pre ++ M.map toupper ++ 0 :: W1.tail) ++ P ++
      0 :: (W2.tail ++ V ++ 0 :: 10 :: post))
      ((pre ++ M.map toupper ++ 0 :: W1.tail).length - 1) ≠ 47 := by
    have := rd_last_of_append (pre ++ M.map toupper) (0 :: W1.tail)
      (P ++ 0 :: (W2.tail ++ V ++ 0 :: 10 :: post)) (by simp)
    simp only [List.append_assoc] at this ⊢
    intro h
    rw [h] at this
    rcases List.mem_cons.mp this with h0 | hm
    · omega
    · have := (hW.2 47 (List.mem_of_mem_tail hm)).1
      revert this; decide
  unfold request_line
  rw [hfind]
  simp only [Option.some_bind, Int.toNat_ofNat, hpos]
  rw [if_neg (by omega), hwr, htok]
  simp only [Option.some_bind]
  rw [hup]
  obtain ⟨pp, hpp, hdrop⟩ := parse_path_keeps_after (pre ++ M.map toupper ++ 0 :: W1.tail) P
    (W2.tail ++ V ++ 0 :: 10 :: post)
    { path := some (pre.length + M.length + W1.length), path_len := e.sess.path_len,
      query := e.sess.query, query_len := e.sess.query_len,
      method := method_of e.rare_methods
        (cstring ((pre ++ M.map toupper ++ 0 :: W1.tail) ++ P ++
          0 :: (W2.tail ++ V ++ 0 :: 10 :: post)) pre.length) }
    (pre.length + M.length + W1.length + P.length + W2.length)
    (token_nonzero P hP) (by rw [hpl]) (Or.inr h47) (by rw [hpl]; omega)
  rw [hpp]
  simp only [Option.some_bind]
  have hcs : cstring (upcase pp.1 (pre.length + M.length + W1.length + P.length + W2.length))
      (pre.length + M.length + W1.length + P.length + W2.length) = V.map toupper := by
    apply cstring_upcase _ _ V (10 :: post) _ (token_nonzero V hV)
    rw [hdrop]
    have h2 := tail_length_succ W2 hW2.1
    have : pre.length + M.length + W1.length + P.length + W2.length =
        ((pre ++ M.map toupper ++ 0 :: W1.tail) ++ P ++ 0 :: W2.tail).length := by
      simp only [List.length_append, List.length_cons, hpl]
      omega
    rw [this]
    have h3 := List.drop_left ((pre ++ M.map toupper ++ 0 :: W1.tail) ++ P ++ 0 :: W2.tail)
      (V ++ 0 :: 10 :: post)
    simp only [List.append_assoc, List.cons_append] at h3 ⊢
    exact h3
  rw [hcs]
  refine ⟨fun h11 => ?_, fun h10 => ?_, fun n11 n10 => ?_⟩
  · rw [if_pos h11]
    exact ⟨_, rfl, rfl, rfl⟩
  · rw [if_neg (by rw [h10]; decide), if_pos h10]
    exact ⟨_, rfl, rfl, rfl⟩
  · rw [if_neg n11, if_neg n10]
    obtain ⟨e6, h6, s6⟩ := http_error_begin fuel
      { routes := e.routes, rare_methods := e.rare_methods, sock := e.sock,
        buf := upcase pp.1 (pre.length + M.length + W1.length + P.length + W2.length),
        bufpos := pre.length + (M.length + W1.length + P.length + W2.length + V.length + 2),
        buflen := e.buflen - (M.length + W1.length + P.length + W2.length + V.length + 2),
        sess := pp.2,
        block := { e.block with request_buf := pre.length,
                                request_buflen := ((M.length + W1.length + P.length + W2.length + V.length : Nat) : Int) },
        user := e.user, events := e.events }
      505 (bytes "HTTP Version Not Supported") hs
    rw [h6]
    exact ⟨pend_close e6, rfl, or_pend_close _, s6.2.2.2.2.2.2.2.2⟩

/-- The route walk of `request_begin`: for every route list and every request line that
parses successfully on a session in state `REQUEST_BEGIN`, `request_begin` invokes at
`REQUEST_BEGIN` exactly the handlers of the routes that `fnmatch` accepts for the C
string at `path` (which need not be the routes whose pattern matches the path), in
registration order, up to and including the first one (route `n - 1`) that returns a
status `st` other than `NOT_FOUND`; that route is the request's route; when `st` is
`FOUND` the request goes on (`flag = false`), otherwise `request_begin` returns.  If no
route matches or every matching handler returns `NOT_FOUND`, the built-in 404 handler is
invoked after them and becomes the request's route.  `T` is the record of the handler
invocations made: one call and one returned status per invocation. -/
theorem request_begin_routes (fuel : Nat) (e : engine)
    (hs : e.block.state = EWS_SESS_REQUEST_BEGIN)
    (hline : (request_line fuel e).map Prod.snd = some false) :
    ∃ e1 p r flag n T, request_line fuel e = some (e1, false) ∧ e1.sess.path = some p ∧
      request_begin fuel e = some (r, flag) ∧ n ≤ e.routes.length ∧
      r.events = e.events ++ T ∧ T.length = 2 * (calls_of T).length ∧
      (rets_of T).length = (calls_of T).length ∧
      ((∃ st, 0 < n ∧ route_matches e.routes (cstring e1.buf p) (n - 1) = true ∧
          st ≠ EWS_ROUTE_STATUS_NOT_FOUND ∧
          calls_of T = ((List.range n).filter (route_matches e.routes (cstring e1.buf p))).map
            (fun j => (route_ptr.user j, EWS_SESS_REQUEST_BEGIN)) ∧
          rets_of T = List.replicate ((calls_of T).length - 1) EWS_ROUTE_STATUS_NOT_FOUND ++ [st] ∧
          r.block.route = route_ptr.user (n - 1) ∧
          flag = decide (st ≠ EWS_ROUTE_STATUS_FOUND)) ∨
        (n = e.routes.length ∧
          calls_of T = ((List.range n).filter (route_matches e.routes (cstring e1.buf p))).map
            (fun j => (route_ptr.user j, EWS_SESS_REQUEST_BEGIN)) ++
              [(route_ptr.r404, EWS_SESS_REQUEST_BEGIN)] ∧
          rets_of T = List.replicate ((calls_of T).length - 1) EWS_ROUTE_STATUS_NOT_FOUND ++
            [EWS_ROUTE_STATUS_FOUND] ∧
          r.block.route = route_ptr.r404 ∧ flag = false)) := by
  obtain ⟨⟨e1, b⟩, h1⟩ : ∃ x, request_line fuel e = some x := by
    cases h : request_line fuel e with
    | none => rw [h] at hline; simp at hline
    | some x => exact ⟨x, rfl⟩
  have hb : b = false := by rw [h1] at hline; simpa using hline
  subst hb
  obtain ⟨c1, c2, c3, c4, c5, c6, p, hp⟩ := request_line_continue fuel e e1 h1
  obtain ⟨r, flag, n, T, d1, d2, d3, d4, d5, d6, d7, d8, d9, d10, d11, d12⟩ :=
    request_dispatch_spec fuel e1 p (c2.trans hs) hp
  refine ⟨e1, p, r, flag, n, T, h1, hp, ?_, by rw [← c1]; exact d2, by rw [← c3]; exact d3,
    d9, d10, ?_⟩
  · unfold request_begin
    rw [h1]
    simpa using d1
  · rw [← c1]; exact d12

theorem request_begin_routes_witness :
    ∃ e1 p r flag n T,
      request_line 1 (fresh_engine example_routes 64 (bytes "GET /a/b HTTP/1.1\r\n")) =
        some (e1, false) ∧ e1.sess.path = some p ∧
      request_begin 1 (fresh_engine example_routes 64 (bytes "GET /a/b HTTP/1.1\r\n")) =
        some (r, flag) ∧
      n ≤ (fresh_engine example_routes 64 (bytes "GET /a/b HTTP/1.1\r\n")).routes.length ∧
      r.events = (fresh_engine example_routes 64 (bytes "GET /a/b HTTP/1.1\r\n")).events ++ T ∧
      T.length = 2 * (calls_of T).length ∧
      (rets_of T).length = (calls_of T).length ∧
      ((∃ st, 0 < n ∧ route_matches
            (fresh_engine example_routes 64 (bytes "GET /a/b HTTP/1.1\r\n")).routes
            (cstring e1.buf p) (n - 1) = true ∧
          st ≠ EWS_ROUTE_STATUS_NOT_FOUND ∧
          calls_of T = ((List.range n).filter (route_matches
            (fresh_engine example_routes 64 (bytes "GET /a/b HTTP/1.1\r\n")).routes
            (cstring e1.buf p))).map (fun j => (route_ptr.user j, EWS_SESS_REQUEST_BEGIN)) ∧
          rets_of T = List.replicate ((calls_of T).length - 1) EWS_ROUTE_STATUS_NOT_FOUND ++ [st] ∧
          r.block.route = route_ptr.user (n - 1) ∧
          flag = decide (st ≠ EWS_ROUTE_STATUS_FOUND)) ∨
        (n = (fresh_engine example_routes 64 (bytes "GET /a/b HTTP/1.1\r\n")).routes.length ∧
          calls_of T = ((List.range n).filter (route_matches
            (fresh_engine example_routes 64 (bytes "GET /a/b HTTP/1.1\r\n")).routes
            (cstring e1.buf p))).map (fun j => (route_ptr.user j, EWS_SESS_REQUEST_BEGIN)) ++
              [(route_ptr.r404, EWS_SESS_REQUEST_BEGIN)] ∧
          rets_of T = List.replicate ((calls_of T).length - 1) EWS_ROUTE_STATUS_NOT_FOUND ++
            [EWS_ROUTE_STATUS_FOUND] ∧
          r.block.route = route_ptr.r404 ∧ flag = false)) :=
  request_begin_routes 1 (fresh_engine example_routes 64 (bytes "GET /a/b HTTP/1.1\r\n"))
    rfl (by decide)

/-- After a request line that parsed, in state `REQUEST_BEGIN`: `request_begin` returns,
version and flags are those set by the request line, and once a handler has returned
`FOUND` the state is `RESPONSE_BEGIN` for version 0.9 and `REQUEST_HEADER` otherwise. -/
theorem request_begin_after_line (fuel : Nat) (e e1 : engine)
    (hs : e.block.state = EWS_SESS_REQUEST_BEGIN)
    (h1 : request_line fuel e = some (e1, false)) :
    ∃ r flag T, request_begin fuel e = some (r, flag) ∧ r.events = e.events ++ T ∧
      r.block.version = e1.block.version ∧ r.block.flags = e1.block.flags ∧
      (EWS_ROUTE_STATUS_FOUND ∈ rets_of T → r.block.state =
        if e1.block.version = EWS_HTTP_VERSION_09 then EWS_SESS_RESPONSE_BEGIN
        else EWS_SESS_REQUEST_HEADER) := by
  obtain ⟨c1, c2, c3, c4, c5, c6, p, hp⟩ := request_line_continue fuel e e1 h1
  obtain ⟨r, flag, n, T, d1, d2, d3, d4, d5, d6, d7, d8, d9, d10, d11, d12⟩ :=
    request_dispatch_spec fuel e1 p (c2.trans hs) hp
  refine ⟨r, flag, T, ?_, by rw [← c3]; exact d3, d7, d8, fun hf => d11 ?_⟩
  · unfold request_begin
    rw [h1]
    simpa using d1
  · rcases d12 with ⟨st, -, -, -, -, z5, -, z7⟩ | ⟨-, -, -, -, z⟩
    · rw [z5] at hf
      rcases List.mem_append.mp hf with hm | hm
      · have := (List.mem_replicate.mp hm).2
        exact absurd this (by decide)
      · have hst : st = EWS_ROUTE_STATUS_FOUND := by
          simp only [List.mem_singleton] at hm
          exact hm.symm
        rw [z7, hst]; decide
    · exact z

/-- C4: the `/..` branch of `parse_path` is never taken, because its guard tests
`*pi + 3` (the byte `/` plus three) instead of the byte at `pi + 3`.  For the token
`/..//a/./b` the path is `/../a/b` with `path_len` 7, not `/a/b` with `path_len` 4,
and `/a/../b` is left as it is; the same is what `request_begin` leaves in the session for
the request line `GET /..//a/./b HTTP/1.1`. -/
theorem parse_path_keeps_dotdot :
    parsed_path (bytes "/..//a/./b") = some (bytes "/../a/b") ∧
    (parse_path (bytes "/..//a/./b" ++ [0]) (fresh_data 0)).map (fun r => r.2.path_len) = some 7 ∧
    parsed_path (bytes "/a/../b") = some (bytes "/a/../b") ∧
    parsed_path (bytes "/..//a/./b") ≠ some (bytes "/a/b") ∧
    parsed_path (bytes "/a/../b") ≠ some (bytes "/b") ∧
    (request_line 1 (fresh_engine [] 64 (bytes "GET /..//a/./b HTTP/1.1\r\n"))).map
        (fun r => (r.2, r.1.sess.path_len,
          r.1.sess.path.map (fun p => (r.1.buf.drop p).take r.1.sess.path_len))) =
      some (false, 7, some (bytes "/../a/b")) := by
  refine ⟨by decide, by decide, by decide, by decide, by decide, by decide⟩

/-- C8: the `?` branch of `parse_path` returns before `query_len` is computed.  For the
token `/foo?bar=1` on a fresh session the path is `/foo` (NUL-terminated, `path_len` 4)
and `query` points at `bar=1`, but `query_len` is still 0 instead of 5; the same is what
`request_begin` leaves in the session for the request line `GET /foo?bar=1 HTTP/1.1`. -/
theorem parse_path_query_len_not_set :
    (parse_path (bytes "/foo?bar=1" ++ [0]) (fresh_data 0)).map
        (fun r => (cstring r.1 0, r.2.path_len, r.2.query.map (cstring r.1), r.2.query_len)) =
      some (bytes "/foo", 4, some (bytes "bar=1"), 0) ∧
    (request_line 1 (fresh_engine [] 64 (bytes "GET /foo?bar=1 HTTP/1.1\r\n"))).map
        (fun r => (r.2, r.1.sess.path.map (cstring r.1.buf), r.1.sess.path_len,
          r.1.sess.query.map (cstring r.1.buf), r.1.sess.query_len)) =
      some (false, some (bytes "/foo"), 4, some (bytes "bar=1"), 0) := by
  refine ⟨by decide, by decide⟩

/-- C9: `parse_path` does not terminate the shortened path.  After the token `/a//b` the
`path_len` bytes are `/a/b`, but the C string at `path`, which is what `fnmatch` and the
handler read, is `/a/bb`; after `/%48%69` the bytes are `/Hi` and the C string is
`/Hi8%69`.  So for the request line `GET /a//b HTTP/1.1` a route with the pattern `/a/b`
is not matched and the 404 route takes the request. -/
theorem parse_path_not_terminated :
    parsed_path (bytes "/a//b") = some (bytes "/a/b") ∧
    parsed_cstring (bytes "/a//b") = some (bytes "/a/bb") ∧
    parsed_path (bytes "/%48%69") = some (bytes "/Hi") ∧
    parsed_cstring (bytes "/%48%69") = some (bytes "/Hi8%69") ∧
    (request_begin 1 (fresh_engine [⟨bytes "/a/b", const_handler EWS_ROUTE_STATUS_FOUND⟩] 64
        (bytes "GET /a//b HTTP/1.1\r\n"))).map
        (fun r => (calls_of r.1.events, r.1.block.route, r.1.sess.path_len,
          r.1.sess.path.map (cstring r.1.buf))) =
      some ([(route_ptr.r404, EWS_SESS_REQUEST_BEGIN)], route_ptr.r404, 4,
        some (bytes "/a/bb")) := by
  refine ⟨by decide, by decide, by decide, by decide, by decide⟩

/-! ## Theorems: the read and write paths on concrete requests -/

/-- C12: the state `REQUEST_BODY` is never entered.  For the request
`POST /x HTTP/1.0`, `Content-Length: 5`, blank line, `hello`, received in one piece by a
session whose route `/x` has the demo handler of src/route.c, `do_read` invokes the handler
at `REQUEST_BEGIN` and once at `REQUEST_HEADER`; the blank line moves the state to
`RESPONSE_BEGIN`, and the five body bytes stay in the buffer.  The three `do_write` steps
that follow send the response and finalize: the handler has been invoked at every state
but `REQUEST_BODY`, and `hello` is still in the buffer, in front of the next request. -/
theorem do_read_never_enters_request_body :
    (do_read 1 (fresh_engine [⟨bytes "/x", ews_route_test_handler⟩] 48 [])
        (received "POST /x HTTP/1.0\r\nContent-Length: 5\r\n\r\nhello")).map
        (fun e => (calls_of e.events, e.block.state, e.buflen, want_read e, want_write e)) =
      some ([(route_ptr.user 0, EWS_SESS_REQUEST_BEGIN), (route_ptr.user 0, EWS_SESS_REQUEST_HEADER)],
        EWS_SESS_RESPONSE_BEGIN, 5, false, true) ∧
    ((((do_read 1 (fresh_engine [⟨bytes "/x", ews_route_test_handler⟩] 48 [])
        (received "POST /x HTTP/1.0\r\nContent-Length: 5\r\n\r\nhello")).bind
        (do_write 1)).bind (do_write 1)).bind (do_write 1)).map
        (fun e => (calls_of e.events, e.block, e.buflen, (e.buf.drop e.bufpos).take e.buflen)) =
      some ([(route_ptr.user 0, EWS_SESS_REQUEST_BEGIN), (route_ptr.user 0, EWS_SESS_REQUEST_HEADER),
          (route_ptr.user 0, EWS_SESS_RESPONSE_BEGIN), (route_ptr.user 0, EWS_SESS_RESPONSE_HEADER),
          (route_ptr.user 0, EWS_SESS_RESPONSE_BODY), (route_ptr.user 0, EWS_HTTP_FINALIZE)],
        zero_block, 5, bytes "hello") := by
  refine ⟨by decide, by decide⟩

/-- C13: the loop of `do_read` picks the parser by the low four bits of the state, so the
request-line parser also runs in state `RESPONSE_BEGIN`.  After `GET /a HTTP/1.1` and the
blank line the state is `RESPONSE_BEGIN` and nothing has been sent.  When the same read
also holds `GET /b HTTP/1.1`, that line is parsed as a request line in state
`RESPONSE_BEGIN`: the handler is invoked at `RESPONSE_BEGIN` from the read path and sends
its status line, before any `do_write`.  When a request with a body ends in `CRLF`, the
body is parsed as a request line and answered with `400 Bad Request`; the request is
finalized without the handler having been invoked in a response state. -/
theorem do_read_parses_request_line_in_response_phase :
    (do_read 1 (fresh_engine [⟨bytes "/*", ews_route_test_handler⟩] 48 [])
        (received "GET /a HTTP/1.1\r\n\r\n")).map
        (fun e => (calls_of e.events, e.block.state, e.sock.wire)) =
      some ([(route_ptr.user 0, EWS_SESS_REQUEST_BEGIN)], EWS_SESS_RESPONSE_BEGIN, []) ∧
    (do_read 1 (fresh_engine [⟨bytes "/*", ews_route_test_handler⟩] 48 [])
        (received "GET /a HTTP/1.1\r\n\r\nGET /b HTTP/1.1\r\n")).map
        (fun e => (calls_of e.events, e.block.state, text e.sock.wire)) =
      some ([(route_ptr.user 0, EWS_SESS_REQUEST_BEGIN), (route_ptr.user 0, EWS_SESS_RESPONSE_BEGIN)],
        EWS_SESS_RESPONSE_HEADER, "HTTP/1.1 200 OK\r\n") ∧
    (do_read 1 (fresh_engine [⟨bytes "/x", ews_route_test_handler⟩] 48 [])
        (received "POST /x HTTP/1.0\r\nContent-Length: 7\r\n\r\nhello\r\n")).map
        (fun e => (calls_of e.events, e.block.state, text e.sock.wire)) =
      some ([(route_ptr.user 0, EWS_SESS_REQUEST_BEGIN), (route_ptr.user 0, EWS_SESS_REQUEST_HEADER),
          (route_ptr.user 0, EWS_HTTP_FINALIZE)], EWS_SESS_REQUEST_BEGIN,
        "HTTP/1.0 400 Bad Request\r\nContent-Type: text/html\r\nContent-Length: 20\r\n\r\n<h1>Bad Request</h1>") := by
  refine ⟨by decide, by decide, by decide⟩

/-- C14: on a zeroed per-request block `prev_state` is 0, which is `REQUEST_BEGIN`, so the
first invocation of a request is counted as a repeat.  For `GET /a/b HTTP/1.1` with the
routes `/x*`, `/a*`, `/a/?` the two matching handlers are invoked at `REQUEST_BEGIN` with
`state_count` 1 and 2, not 0 and 1.  In `REQUEST_HEADER`, entered from another state, the
two header lines are counted 0 and 1. -/
theorem call_handler_state_count_starts_at_one :
    (request_begin 1 (fresh_engine example_routes 64 (bytes "GET /a/b HTTP/1.1\r\n"))).map
        (fun r => r.1.events) =
      some [event.call (route_ptr.user 1) EWS_SESS_REQUEST_BEGIN 1,
        event.ret EWS_ROUTE_STATUS_NOT_FOUND,
        event.call (route_ptr.user 2) EWS_SESS_REQUEST_BEGIN 2,
        event.ret EWS_ROUTE_STATUS_FOUND] ∧
    (do_read 1 (fresh_engine [⟨bytes "/*", ews_route_test_handler⟩] 48 [])
        (received "GET /a HTTP/1.1\r\nA: 1\r\nB: 2\r\n")).map (fun e => e.events) =
      some [event.call (route_ptr.user 0) EWS_SESS_REQUEST_BEGIN 1,
        event.ret EWS_ROUTE_STATUS_FOUND,
        event.call (route_ptr.user 0) EWS_SESS_REQUEST_HEADER 0,
        event.ret EWS_ROUTE_STATUS_NEXT,
        event.call (route_ptr.user 0) EWS_SESS_REQUEST_HEADER 1,
        event.ret EWS_ROUTE_STATUS_NEXT] := by
  refine ⟨by decide, by decide⟩

/-- C16: the branch of `call_handler` for `NOT_FOUND` and `FOUND` in a state other than
`REQUEST_BEGIN` sends the 500 response and finalizes, but does not set pend-close.  For
`GET /a HTTP/1.1` and one header line with a handler that returns `FOUND` in every state,
the handler returns `FOUND` at `REQUEST_HEADER`; afterwards the 500 response is on the
wire and the request is finalized, but the socket flags are what they were: pend-close
is clear, and as keepalive was set the transport is not shut down either.  The session
is back at `REQUEST_BEGIN` and wants to read. -/
theorem call_handler_found_late_keeps_connection :
    (do_read 1 (fresh_engine [⟨bytes "/a", const_handler EWS_ROUTE_STATUS_FOUND⟩] 48 [])
        (received "GET /a HTTP/1.1\r\nHost: x\r\n")).map
        (fun e => (e.events, e.block, want_read e, text e.sock.wire)) =
      some ([event.call (route_ptr.user 0) EWS_SESS_REQUEST_BEGIN 1,
          event.ret EWS_ROUTE_STATUS_FOUND,
          event.call (route_ptr.user 0) EWS_SESS_REQUEST_HEADER 0,
          event.ret EWS_ROUTE_STATUS_FOUND,
          event.call (route_ptr.user 0) EWS_HTTP_FINALIZE 0,
          event.ret EWS_ROUTE_STATUS_FOUND],
        zero_block, true,
        "HTTP/1.1 500 Internal Server Error\r\nContent-Type: text/html\r\nContent-Length: 30\r\n\r\n<h1>Internal Server Error</h1>") ∧
    (do_read 1 (fresh_engine [⟨bytes "/a", const_handler EWS_ROUTE_STATUS_FOUND⟩] 48 [])
        (received "GET /a HTTP/1.1\r\nHost: x\r\n")).map
        (fun e => (e.sock.flags &&& EWS_SOCK_FLAG_PEND_CLOSE,
          e.sock.flags &&& EWS_SOCK_FLAG_SHUTDOWN, e.sock.shutdowns,
          decide (e.sock.flags = (fresh_engine [] 48 []).sock.flags))) =
      some (0, 0, 0, true) := by
  refine ⟨by decide, by decide⟩

/-- C18: for `NEXT` in `RESPONSE_BODY`, `call_handler` only stores the state `FINALIZE`;
`finalize` is not called.  For `GET / HTTP/1.0` and a handler that returns `NEXT` in every
response state, after the three `do_write` steps the handler has been invoked at
`RESPONSE_BEGIN`, `RESPONSE_HEADER` and `RESPONSE_BODY` but not at `FINALIZE`, the
transport is not shut down although keepalive is clear, the block is not reset (state
`FINALIZE`, route still set), and the session wants neither to read nor to write. -/
theorem call_handler_next_at_body_does_not_finalize :
    ((((do_read 1 (fresh_engine [⟨bytes "/", next_handler⟩] 48 [])
        (received "GET / HTTP/1.0\r\n\r\n")).bind (do_write 1)).bind (do_write 1)).bind
        (do_write 1)).map
        (fun e => (calls_of e.events, e.block.state, e.block.route, text e.sock.wire)) =
      some ([(route_ptr.user 0, EWS_SESS_REQUEST_BEGIN), (route_ptr.user 0, EWS_SESS_RESPONSE_BEGIN),
          (route_ptr.user 0, EWS_SESS_RESPONSE_HEADER), (route_ptr.user 0, EWS_SESS_RESPONSE_BODY)],
        EWS_HTTP_FINALIZE, route_ptr.user 0, "HTTP/1.0 200 OK\r\n\r\nHi") ∧
    ((((do_read 1 (fresh_engine [⟨bytes "/", next_handler⟩] 48 [])
        (received "GET / HTTP/1.0\r\n\r\n")).bind (do_write 1)).bind (do_write 1)).bind
        (do_write 1)).map
        (fun e => (e.block.flags &&& EWS_HTTP_FLAGS_KEEPALIVE, e.sock.shutdowns,
          e.sock.flags &&& EWS_SOCK_FLAG_SHUTDOWN, want_read e, want_write e)) =
      some (0, 0, 0, false, false) := by
  refine ⟨by decide, by decide⟩

/-- C20: in a state after `RESPONSE_BEGIN`, `http_status` finalizes and then ors the
socket flag pend-close (bit 12) into the per-request `flags` byte, where it is lost; the
socket flags are not touched.  For `GET / HTTP/1.1` (and `GET / HTTP/1.0`) and a handler
that calls `status` again at `RESPONSE_HEADER`: no second status line is written and the
request is finalized, but pend-close is clear on the socket; for 1.1 the socket flags
are unchanged and the session wants to read the next request. -/
theorem http_status_late_no_pend_close :
    (((do_read 1 (fresh_engine [⟨bytes "/", late_status_handler⟩] 48 [])
        (received "GET / HTTP/1.1\r\n\r\n")).bind (do_write 1)).bind (do_write 1)).map
        (fun e => (calls_of e.events, e.block, text e.sock.wire)) =
      some ([(route_ptr.user 0, EWS_SESS_REQUEST_BEGIN), (route_ptr.user 0, EWS_SESS_RESPONSE_BEGIN),
          (route_ptr.user 0, EWS_SESS_RESPONSE_HEADER), (route_ptr.user 0, EWS_HTTP_FINALIZE)],
        zero_block, "HTTP/1.1 200 OK\r\n") ∧
    (((do_read 1 (fresh_engine [⟨bytes "/", late_status_handler⟩] 48 [])
        (received "GET / HTTP/1.1\r\n\r\n")).bind (do_write 1)).bind (do_write 1)).map
        (fun e => (e.sock.flags &&& EWS_SOCK_FLAG_PEND_CLOSE,
          decide (e.sock.flags = (fresh_engine [] 48 []).sock.flags), want_read e)) =
      some (0, true, true) ∧
    (((do_read 1 (fresh_engine [⟨bytes "/", late_status_handler⟩] 48 [])
        (received "GET / HTTP/1.0\r\n\r\n")).bind (do_write 1)).bind (do_write 1)).map
        (fun e => (calls_of e.events, e.block, e.sock.flags &&& EWS_SOCK_FLAG_PEND_CLOSE,
          e.sock.shutdowns, text e.sock.wire)) =
      some ([(route_ptr.user 0, EWS_SESS_REQUEST_BEGIN), (route_ptr.user 0, EWS_SESS_RESPONSE_BEGIN),
          (route_ptr.user 0, EWS_SESS_RESPONSE_HEADER), (route_ptr.user 0, EWS_HTTP_FINALIZE)],
        zero_block, 0, 1, "HTTP/1.0 200 OK\r\n") := by
  refine ⟨by decide, by decide, by decide⟩

/-! ## Theorems: session operations over a transport that accepts every write -/

theorem sock_send_accepts (s : ews_sock) (buf : List Nat) (ha : accepts s)
    (hl : buf.length ≤ 2 ^ 64) :
    sock_send s buf = (sent s buf, (buf.length : Int)) := by
  obtain ⟨h1, h2⟩ := ha
  obtain ⟨n, hn, hle⟩ := h2 s.sends
  unfold sock_send
  rw [if_neg (by rw [h1]; exact fun h => h rfl), hn]
  simp only [sent]
  rw [List.take_of_length_le (by omega), Nat.min_eq_right (by omega)]

theorem accepts_sent (s : ews_sock) (buf : List Nat) (ha : accepts s) : accepts (sent s buf) :=
  ⟨ha.1, ha.2⟩

theorem http_raw_send_accepts (fin : engine → Option engine) (e : engine) (buf : List Nat)
    (ha : accepts e.sock) (hl : buf.length ≤ 2 ^ 64) :
    http_raw_send fin e buf = some ({ e with sock := sent e.sock buf }, (buf.length : Int)) := by
  unfold http_raw_send
  simp only [sock_send_accepts e.sock buf ha hl]
  rw [if_neg (by omega)]

/-- C19: at `RESPONSE_BEGIN`, over a transport that accepts every write, `status(code, msg)`
writes exactly `HTTP/1.1 <code> <msg>` and `CRLF` in one write when the version is 1.1, and
`HTTP/1.0 <code> <msg>` and `CRLF` when it is 1.0, and changes nothing else; when the
version is 0.9 the session and the socket are left exactly as they were.  The line is
shorter than 2^64 bytes. -/
theorem http_status_response_begin (fuel : Nat) (e : engine) (code : Int) (msg : List Nat)
    (hs : e.block.state = EWS_SESS_RESPONSE_BEGIN) (ha : accepts e.sock)
    (hl : (dec_int code).length + msg.length + 12 ≤ 2 ^ 64) :
    (e.block.version = EWS_HTTP_VERSION_11 →
      http_status (finalize fuel) e code msg =
        some { e with sock := { e.sock with
          sends := e.sock.sends + 1
          wire := e.sock.wire ++ (bytes "HTTP/1.1 " ++ dec_int code ++ [32] ++ msg ++ [13, 10]) } }) ∧
    (e.block.version = EWS_HTTP_VERSION_10 →
      http_status (finalize fuel) e code msg =
        some { e with sock := { e.sock with
          sends := e.sock.sends + 1
          wire := e.sock.wire ++ (bytes "HTTP/1.0 " ++ dec_int code ++ [32] ++ msg ++ [13, 10]) } }) ∧
    (e.block.version = EWS_HTTP_VERSION_09 → http_status (finalize fuel) e code msg = some e) := by
  have hb : (bytes "HTTP/1.1").length = 8 ∧ (bytes "HTTP/1.0").length = 8 := ⟨by decide, by decide⟩
  refine ⟨fun hv => ?_, fun hv => ?_, fun hv => ?_⟩
  · unfold http_status
    rw [if_neg (by rw [hv]; decide), if_neg (by rw [hs]; decide),
      http_raw_send_accepts _ _ _ ha (by
        simp only [status_line, hv, if_true, List.length_append, hb.1, List.length_cons,
          List.length_nil]; omega)]
    simp only [Option.map_some', status_line, hv, if_true, sent]
    rfl
  · unfold http_status
    rw [if_neg (by rw [hv]; decide), if_neg (by rw [hs]; decide),
      http_raw_send_accepts _ _ _ ha (by
        simp only [status_line, hv, List.length_append, List.length_cons,
          List.length_nil]
        rw [if_neg (by decide)]
        rw [hb.2]; omega)]
    simp only [Option.map_some', status_line, hv, sent]
    rfl
  · unfold http_status
    rw [if_pos hv]

theorem http_status_response_begin_witness :
    accepts ({ fresh_engine [] 64 [] with
        block := { zero_block with state := EWS_SESS_RESPONSE_BEGIN, version := EWS_HTTP_VERSION_11 } }).sock ∧
    http_status (finalize 1)
        { fresh_engine [] 64 [] with
          block := { zero_block with state := EWS_SESS_RESPONSE_BEGIN, version := EWS_HTTP_VERSION_11 } }
        200 (bytes "OK") =
      some { fresh_engine [] 64 [] with
        block := { zero_block with state := EWS_SESS_RESPONSE_BEGIN, version := EWS_HTTP_VERSION_11 }
        sock := { (fresh_engine [] 64 []).sock with
          sends := 1
          wire := bytes "HTTP/1.1 200 OK\r\n" } } :=
  ⟨⟨by decide, fun _ => ⟨2 ^ 64, rfl, le_refl _⟩⟩,
    (http_status_response_begin 1
      { fresh_engine [] 64 [] with
        block := { zero_block with state := EWS_SESS_RESPONSE_BEGIN, version := EWS_HTTP_VERSION_11 } }
      200 (bytes "OK") rfl ⟨by decide, fun _ => ⟨2 ^ 64, rfl, le_refl _⟩⟩ (by decide)).1 rfl⟩

/-! ## Theorems: session operations in any state -/

theorem pend_iff_testBit (f : Nat) : f &&& EWS_SOCK_FLAG_PEND_CLOSE ≠ 0 ↔ f.testBit 12 = true := by
  have h12 : EWS_SOCK_FLAG_PEND_CLOSE = 2 ^ 12 := rfl
  constructor
  · intro h
    by_contra hb
    apply h
    apply Nat.eq_of_testBit_eq
    intro i
    rw [Nat.testBit_and, h12, Nat.testBit_two_pow, Nat.zero_testBit]
    by_cases hi : 12 = i
    · subst hi; simp at hb; simp [hb]
    · simp [hi]
  · intro h h0
    have := congrArg (fun x => x.testBit 12) h0
    simp only [Nat.testBit_and, h, h12, Nat.testBit_two_pow, Nat.zero_testBit] at this
    simp at this

theorem pend_or (f a : Nat) (h : f &&& EWS_SOCK_FLAG_PEND_CLOSE ≠ 0) :
    (f ||| a) &&& EWS_SOCK_FLAG_PEND_CLOSE ≠ 0 := by
  rw [pend_iff_testBit] at h ⊢
  rw [Nat.testBit_or, h]
  rfl

theorem pend_sock_send (s : ews_sock) (buf : List Nat) (h : pend s) : pend (sock_send s buf).1 := by
  unfold sock_send
  unfold pend at h ⊢
  split
  · exact h
  · split
    · exact h
    · split
      · exact pend_or _ _ h
      · exact h
    · exact pend_or _ _ h

theorem pend_sock_shutdown (s : ews_sock) (h : pend s) : pend (sock_shutdown s) :=
  pend_or _ _ h

theorem pend_pend_close (e : engine) : pend (pend_close e).sock := or_pend_close _

theorem same_session_refl (e : engine) : same_session e e :=
  ⟨rfl, rfl, rfl, rfl, rfl, rfl, id⟩

theorem same_session_trans {a b c : engine} (h1 : same_session a b) (h2 : same_session b c) :
    same_session a c := by
  obtain ⟨a1, a2, a3, a4, a5, a6, a7⟩ := h1
  obtain ⟨b1, b2, b3, b4, b5, b6, b7⟩ := h2
  exact ⟨b1.trans a1, b2.trans a2, b3.trans a3, b4.trans a4, b5.trans a5, b6.trans a6,
    fun h => b7 (a7 h)⟩

theorem live_refl (e : engine) : live e e := ⟨rfl, rfl, rfl, fun _ => rfl⟩

theorem outcome_refl (e : engine) : outcome e e := ⟨same_session_refl e, Or.inl (live_refl e)⟩

theorem live_state {a b : engine} (h : live a b) : b.block.state = a.block.state := by
  rw [h.2.2.1]

theorem live_route {a b : engine} (h : live a b) : b.block.route = a.block.route := by
  rw [h.2.2.1]

theorem live_version {a b : engine} (h : live a b) : b.block.version = a.block.version := by
  rw [h.2.2.1]

theorem outcome_trans {a b c : engine} (h1 : outcome a b) (h2 : outcome b c) : outcome a c := by
  refine ⟨same_session_trans h1.1 h2.1, ?_⟩
  rcases h1.2 with l1 | f1
  · rcases h2.2 with l2 | f2
    · left
      refine ⟨l2.1.trans l1.1, l2.2.1.trans l1.2.1, ?_, fun h0 => ?_⟩
      · rw [l2.2.2.1]
        conv => lhs; rw [l1.2.2.1]
      · have hb := l1.2.2.2 h0
        rw [l2.2.2.2 (by rw [hb]; exact h0), hb]
    · right
      obtain ⟨f1, f2, h, st, u1, f3, f4, f5, f6⟩ := f2
      refine ⟨by rw [← live_state l1]; exact f1, f2, h, st, u1, ?_, ?_, f5, ?_⟩
      · rw [← live_route l1, ← route_handler_congr a b h1.1.1]; exact f3
      · rw [← l1.1, ← h1.1.2.2.1, ← h1.1.2.2.2.2.2.1]; exact f4
      · rw [f6, l1.2.1, live_route l1]
  · obtain ⟨f1, f2, h, st, u1, f3, f4, f5, f6⟩ := f1
    rcases h2.2 with l2 | g
    · right
      have hb : c.block = b.block := l2.2.2.2 (by rw [f2]; rfl)
      exact ⟨f1, by rw [hb, f2], h, st, u1, f3, f4, by rw [l2.1, f5], by rw [l2.2.1, f6]⟩
    · exact absurd (by rw [f2]; rfl) g.1

theorem safe_of_outcome {a b : engine} (h : outcome a b) (hs : safe a) : safe b := by
  intro hb
  rcases h.2 with l | f
  · obtain ⟨x, hx, hq⟩ := hs (by rw [← live_state l]; exact hb)
    exact ⟨x, by rw [live_route l, route_handler_congr a b h.1.1]; exact hx, hq⟩
  · exact absurd (by rw [f.2.1]; rfl) hb

/-- Past `REQUEST_BEGIN`, with a handler that performs no operation at `FINALIZE`:
`finalize` invokes the handler once, shuts the transport down unless keepalive is set,
and zeroes the block. -/
theorem finalize_quiet (fuel : Nat) (e : engine) (h : handler) (st : Int) (u1 : List Nat)
    (h0 : e.block.state ≠ EWS_SESS_REQUEST_BEGIN)
    (hr : route_handler e e.block.route = some h)
    (hh : h e.user e.buf e.sess EWS_HTTP_FINALIZE = hprog.ret st u1) :
    finalize (fuel + 1) e =
      some { e with
        sock := if e.block.flags &&& EWS_HTTP_FLAGS_KEEPALIVE = 0 then sock_shutdown e.sock
          else e.sock
        block := zero_block
        user := u1
        events := e.events ++ [event.call e.block.route EWS_HTTP_FINALIZE 0, event.ret st] } := by
  have hnull : e.block.route ≠ route_ptr.null := by
    intro hn
    rw [hn] at hr
    simp [route_handler] at hr
  have hr2 : route_handler
      { e with block := { e.block with state := EWS_HTTP_FINALIZE, state_count := 0 } }
      e.block.route = some h := hr
  simp only [finalize, if_neg h0, if_neg hnull, invoke, hr2, Option.some_bind, hh, run_prog,
    Option.map_some', finalize_end]
  split <;> simp [List.append_assoc]

theorem finalize_safe (fuel : Nat) (e : engine) (hs : safe e) :
    ∃ e1, finalize (fuel + 1) e = some e1 ∧ outcome e e1 ∧
      e1.block.state = EWS_SESS_REQUEST_BEGIN := by
  by_cases h0 : e.block.state = EWS_SESS_REQUEST_BEGIN
  · exact ⟨e, finalize_request_begin _ e h0, outcome_refl e, h0⟩
  · obtain ⟨h, hr, hq⟩ := hs h0
    obtain ⟨st, u1, hh⟩ := hq e.user e.buf e.sess
    refine ⟨_, finalize_quiet fuel e h st u1 h0 hr hh, ⟨⟨rfl, rfl, rfl, rfl, rfl, rfl, ?_⟩, ?_⟩, rfl⟩
    · intro hp
      show pend (if e.block.flags &&& EWS_HTTP_FLAGS_KEEPALIVE = 0 then sock_shutdown e.sock
          else e.sock)
      split
      · exact pend_sock_shutdown _ hp
      · exact hp
    · exact Or.inr ⟨h0, rfl, h, st, u1, hr, hh, rfl, rfl⟩

/-- Replacing the socket by one that keeps pend-close is an outcome. -/
theorem outcome_set_sock (e : engine) (s : ews_sock) (hp : pend e.sock → pend s) :
    outcome e { e with sock := s } :=
  ⟨⟨rfl, rfl, rfl, rfl, rfl, rfl, hp⟩, Or.inl ⟨rfl, rfl, rfl, fun _ => rfl⟩⟩

theorem safe_set_sock (e : engine) (s : ews_sock) (hs : safe e) : safe { e with sock := s } :=
  fun hb => hs hb

theorem http_raw_send_safe (fuel : Nat) (e : engine) (buf : List Nat) (hs : safe e) :
    ∃ e1 n, http_raw_send (finalize (fuel + 1)) e buf = some (e1, n) ∧ outcome e e1 := by
  unfold http_raw_send
  dsimp only
  have ho := outcome_set_sock e (sock_send e.sock buf).1 (pend_sock_send e.sock buf)
  split
  · obtain ⟨e1, h1, o1, -⟩ := finalize_safe fuel _ (safe_set_sock e (sock_send e.sock buf).1 hs)
    rw [h1]
    exact ⟨e1, -1, rfl, outcome_trans ho o1⟩
  · exact ⟨_, _, rfl, ho⟩

theorem http_status_safe (fuel : Nat) (e : engine) (code : Int) (msg : List Nat) (hs : safe e) :
    ∃ e1, http_status (finalize (fuel + 1)) e code msg = some e1 ∧ outcome e e1 := by
  unfold http_status
  split
  · exact ⟨e, rfl, outcome_refl e⟩
  · split
    · rename_i hv hlate
      obtain ⟨e1, h1, o1, s1⟩ := finalize_safe fuel e hs
      rw [h1]
      refine ⟨_, rfl, outcome_trans o1 ⟨⟨rfl, rfl, rfl, rfl, rfl, rfl, id⟩, Or.inl ⟨rfl, rfl, rfl, ?_⟩⟩⟩
      intro _
      -- the request was past `RESPONSE_BEGIN`, so the block is zeroed; the flag is truncated away
      rcases o1.2 with l | f
      · have hst := live_state l
        rw [s1] at hst
        rw [← hst] at hlate
        exact absurd hlate (by decide)
      · show ({ e1.block with flags := (e1.block.flags ||| EWS_SOCK_FLAG_PEND_CLOSE) % 256 } :
            http_block) = e1.block
        rw [f.2.1]
        rfl
    · obtain ⟨e1, n, h1, o1⟩ := http_raw_send_safe fuel e (status_line e.block.version code msg) hs
      rw [h1]
      exact ⟨e1, rfl, o1⟩

theorem http_error_safe (fuel : Nat) (e : engine) (code : Int) (msg : List Nat) (hs : safe e) :
    ∃ e1, http_error (finalize (fuel + 1)) e code msg = some e1 ∧ outcome e e1 ∧
      e1.block.state = EWS_SESS_REQUEST_BEGIN := by
  unfold http_error
  split
  · obtain ⟨e1, h1, o1⟩ := http_status_safe fuel e code msg hs
    have s1 := safe_of_outcome o1 hs
    obtain ⟨e2, n2, h2, o2⟩ := http_raw_send_safe fuel e1
      (bytes "Content-Type: text/html\r\nContent-Length: " ++ dec (9 + msg.length) ++
        [13, 10, 13, 10]) s1
    have s2 := safe_of_outcome o2 s1
    obtain ⟨e3, n3, h3, o3⟩ := http_raw_send_safe fuel e2 (bytes "<h1>" ++ msg ++ bytes "</h1>") s2
    have s3 := safe_of_outcome o3 s2
    obtain ⟨e4, h4, o4, z4⟩ := finalize_safe fuel e3 s3
    rw [h1]
    simp only [Option.some_bind, h2, h3, h4]
    exact ⟨e4, rfl, outcome_trans (outcome_trans (outcome_trans o1 o2) o3) o4, z4⟩
  · obtain ⟨e1, h1, o1, z1⟩ := finalize_safe fuel e hs
    exact ⟨e1, h1, o1, z1⟩

/-- After `http_error` a request that was past `REQUEST_BEGIN` is finalized. -/
theorem finalized_of_outcome {a b : engine} (h : outcome a b)
    (ha : a.block.state ≠ EWS_SESS_REQUEST_BEGIN) (hb : b.block.state = EWS_SESS_REQUEST_BEGIN) :
    finalized a b := by
  rcases h.2 with l | f
  · exact absurd (by rw [← live_state l]; exact hb) ha
  · exact f

theorem http_header_safe (fuel : Nat) (e : engine) (name value : List Nat) (hs : safe e) :
    ∃ e1, http_header (finalize (fuel + 1)) e name value = some e1 ∧ outcome e e1 := by
  unfold http_header
  split
  · obtain ⟨e1, h1, o1, -⟩ := http_error_safe fuel e 500 (bytes "Internal Server Error") hs
    exact ⟨e1, h1, o1⟩
  · rename_i hst
    have hst' : e.block.state = EWS_SESS_RESPONSE_HEADER := by
      by_contra hn; exact hst hn
    dsimp only
    generalize hb1 : (if strcaseeq name (bytes "Connection") = true then
        if contains_sub value (bytes "close") = true then
          ({ e.block with flags := e.block.flags &&& (255 - EWS_HTTP_FLAGS_KEEPALIVE) } : http_block)
        else if contains_sub value (bytes "keep-alive") = true then
          { e.block with flags := e.block.flags ||| EWS_HTTP_FLAGS_KEEPALIVE }
        else e.block
      else if strcaseeq name (bytes "Content-Length") = true then
        { e.block with response_length := to_size_t (strtol10 value) }
      else if strcaseeq name (bytes "Transfer-Encoding") = true then
        if contains_sub value (bytes "chunked") = true then
          { e.block with flags := e.block.flags ||| EWS_HTTP_FLAGS_RESPONSE_CHUNKED }
        else e.block
      else e.block) = b1
    have hb : b1 = { e.block with flags := b1.flags, response_length := b1.response_length } := by
      rw [← hb1]
      split_ifs <;> rfl
    have o0 : outcome e { e with block := b1 } :=
      ⟨⟨rfl, rfl, rfl, rfl, rfl, rfl, id⟩, Or.inl ⟨rfl, rfl, hb, fun h0 => by
        rw [hst'] at h0; exact absurd h0 (by decide)⟩⟩
    obtain ⟨e1, n, h1, o1⟩ := http_raw_send_safe fuel { e with block := b1 }
      (name ++ bytes ": " ++ value ++ [13, 10]) (safe_of_outcome o0 hs)
    rw [h1]
    exact ⟨e1, rfl, outcome_trans o0 o1⟩

theorem http_send_body_safe (fuel : Nat) (e : engine) (buf : List Nat) (total : Int)
    (hs : safe e) (h0 : e.block.state ≠ EWS_SESS_REQUEST_BEGIN) :
    ∃ e1 n, http_send_body (finalize (fuel + 1)) e buf total = some (e1, n) ∧ outcome e e1 := by
  unfold http_send_body
  dsimp only
  have ho := outcome_set_sock e (sock_send e.sock buf).1 (pend_sock_send e.sock buf)
  have hs1 := safe_set_sock e (sock_send e.sock buf).1 hs
  split
  · obtain ⟨e1, h1, o1, -⟩ := finalize_safe fuel _ hs1
    rw [h1]
    exact ⟨e1, -1, rfl, outcome_trans ho o1⟩
  · split
    · have ho2 := outcome_set_sock { e with sock := (sock_send e.sock buf).1 }
        (sock_send (sock_send e.sock buf).1 [13, 10]).1 (pend_sock_send _ _)
      split
      · obtain ⟨e1, h1, o1, -⟩ := finalize_safe fuel _
          (safe_set_sock _ (sock_send (sock_send e.sock buf).1 [13, 10]).1 hs1)
        rw [h1]
        exact ⟨e1, -1, rfl, outcome_trans ho (outcome_trans ho2 o1)⟩
      · exact ⟨_, _, rfl, outcome_trans ho ho2⟩
    · split
      · refine ⟨_, _, rfl, outcome_trans ho
          ⟨⟨rfl, rfl, rfl, rfl, rfl, rfl, id⟩, Or.inl ⟨rfl, rfl, rfl, fun hz => absurd hz h0⟩⟩⟩
      · exact ⟨_, _, rfl, ho⟩

theorem http_send_safe (fuel : Nat) (e : engine) (buf : List Nat) (hs : safe e)
    (hl : buf.length < 2 ^ 32) :
    ∃ e1 n, http_send (finalize (fuel + 1)) e buf = some (e1, n) ∧ outcome e e1 := by
  unfold http_send
  split
  · obtain ⟨e1, h1, o1, -⟩ := http_error_safe fuel e 500 (bytes "Internal Server Error") hs
    rw [h1]
    exact ⟨e1, -1, rfl, o1⟩
  · rename_i hst
    have h0 : e.block.state ≠ EWS_SESS_REQUEST_BEGIN := by
      intro hz
      apply hst
      rw [hz]
      decide
    split
    · try rw [if_pos hl]
      dsimp only
      have ho := outcome_set_sock e (sock_send e.sock (hex_upper buf.length ++ [13, 10])).1
        (pend_sock_send e.sock _)
      have hs1 := safe_set_sock e (sock_send e.sock (hex_upper buf.length ++ [13, 10])).1 hs
      split
      · obtain ⟨e1, h1, o1, -⟩ := finalize_safe fuel _ hs1
        rw [h1]
        exact ⟨e1, -1, rfl, outcome_trans ho o1⟩
      · obtain ⟨e1, n, h1, o1⟩ := http_send_body_safe fuel _ buf
          (sock_send e.sock (hex_upper buf.length ++ [13, 10])).2 hs1 h0
        exact ⟨e1, n, h1, outcome_trans ho o1⟩
    · split
      · exact http_send_body_safe fuel e _ 0 hs h0
      · exact http_send_body_safe fuel e _ 0 hs h0

/-- Whatever a handler does returns, when the handler of the request's route performs no
operation at `FINALIZE` and the sends are short; the request is then still open or was
finalized once. -/
theorem run_prog_safe (fuel : Nat) (prog : hprog) : ∀ (e : engine), safe e → short_sends prog →
    ∃ e1 st u, run_prog (finalize (fuel + 1)) prog e = some (e1, st, u) ∧ outcome e e1 := by
  induction prog with
  | ret st u => intro e _ _; exact ⟨e, st, u, rfl, outcome_refl e⟩
  | recv len k ih => intro e hs hp; rw [run_prog]; exact ih (-1) e hs (hp (-1))
  | send buf k ih =>
    intro e hs hp
    obtain ⟨e1, n, h1, o1⟩ := http_send_safe fuel e buf hs hp.1
    obtain ⟨e2, st, u, h2, o2⟩ := ih n e1 (safe_of_outcome o1 hs) (hp.2 n)
    rw [run_prog, h1]
    exact ⟨e2, st, u, h2, outcome_trans o1 o2⟩
  | sendf buf k ih =>
    intro e hs hp
    obtain ⟨e1, n, h1, o1⟩ := http_send_safe fuel e buf hs hp.1
    obtain ⟨e2, st, u, h2, o2⟩ := ih e1 (safe_of_outcome o1 hs) hp.2
    rw [run_prog, h1]
    exact ⟨e2, st, u, h2, outcome_trans o1 o2⟩
  | status code msg k ih =>
    intro e hs hp
    obtain ⟨e1, h1, o1⟩ := http_status_safe fuel e code msg hs
    obtain ⟨e2, st, u, h2, o2⟩ := ih e1 (safe_of_outcome o1 hs) hp
    rw [run_prog, h1]
    exact ⟨e2, st, u, h2, outcome_trans o1 o2⟩
  | error code msg k ih =>
    intro e hs hp
    obtain ⟨e1, h1, o1, -⟩ := http_error_safe fuel e code msg hs
    obtain ⟨e2, st, u, h2, o2⟩ := ih e1 (safe_of_outcome o1 hs) hp
    rw [run_prog, h1]
    exact ⟨e2, st, u, h2, outcome_trans o1 o2⟩
  | header name value k ih =>
    intro e hs hp
    obtain ⟨e1, h1, o1⟩ := http_header_safe fuel e name value hs
    obtain ⟨e2, st, u, h2, o2⟩ := ih e1 (safe_of_outcome o1 hs) hp
    rw [run_prog, h1]
    exact ⟨e2, st, u, h2, outcome_trans o1 o2⟩

/-- The function `call_handler` is: update the count, invoke the handler, store `prev_state`, then
the `switch` on the returned status. -/
theorem call_handler_eq (fuel : Nat) (e : engine) :
    call_handler fuel e =
      (invoke (finalize fuel)
        { e with block := { e.block with state_count := next_count e.block } }).bind fun r =>
        call_handler_switch fuel
          { r.1 with block := { r.1.block with prev_state := r.1.block.state } } r.2 := by
  unfold call_handler call_handler_switch next_count
  by_cases h : e.block.state ≠ e.block.prev_state
  · rw [if_pos h, if_pos h]
  · rw [if_neg h, if_neg h]

/-- The invocation of a tame handler returns; the request is then still open or was
finalized once while the handler ran. -/
theorem invoke_safe (fuel : Nat) (e : engine) (h : handler)
    (hr : route_handler e e.block.route = some h) (ht : tame h) :
    ∃ e1 st, invoke (finalize (fuel + 1)) e = some (e1, st) ∧ same_session e e1 ∧
      ((e1.events = e.events ++
            [event.call e.block.route e.block.state e.block.state_count, event.ret st] ∧
          e1.block = { e.block with flags := e1.block.flags,
                                    response_length := e1.block.response_length } ∧
          (e.block.state = EWS_SESS_REQUEST_BEGIN → e1.block = e.block)) ∨
        (e.block.state ≠ EWS_SESS_REQUEST_BEGIN ∧ e1.block = zero_block ∧
          ∃ stF, e1.events = e.events ++
            [event.call e.block.route e.block.state e.block.state_count,
              event.call e.block.route EWS_HTTP_FINALIZE 0, event.ret stF, event.ret st])) ∧
      (∀ st0 u0, h e.user e.buf e.sess e.block.state = hprog.ret st0 u0 →
        st = st0 ∧ e1 = { e with user := u0, events := e.events ++
          [event.call e.block.route e.block.state e.block.state_count, event.ret st] }) := by
  have hsafe : safe { e with events := e.events ++
      [event.call e.block.route e.block.state e.block.state_count] } :=
    fun _ => ⟨h, hr, ht.1⟩
  obtain ⟨e1, st, u, h1, o1⟩ := run_prog_safe fuel (h e.user e.buf e.sess e.block.state)
    { e with events := e.events ++
      [event.call e.block.route e.block.state e.block.state_count] } hsafe (ht.2 _ _ _ _)
  unfold invoke
  simp only [hr, Option.some_bind, h1, Option.map_some']
  refine ⟨_, st, rfl, ?_, ?_, ?_⟩
  · exact ⟨o1.1.1, o1.1.2.1, o1.1.2.2.1, o1.1.2.2.2.1, o1.1.2.2.2.2.1, o1.1.2.2.2.2.2.1,
      o1.1.2.2.2.2.2.2⟩
  · rcases o1.2 with l | f
    · left
      refine ⟨?_, l.2.2.1, l.2.2.2⟩
      show e1.events ++ [event.ret st] = _
      rw [l.2.1]
      simp
    · right
      obtain ⟨f1, f2, h', stF, u1, f3, f4, f5, f6⟩ := f
      refine ⟨f1, f2, stF, ?_⟩
      show e1.events ++ [event.ret st] = _
      rw [f6]
      simp
  · intro st0 u0 hp
    rw [hp, run_prog] at h1
    simp only [Option.some.injEq, Prod.mk.injEq] at h1
    obtain ⟨a1, a2, a3⟩ := h1
    subst a1 a2 a3
    refine ⟨rfl, ?_⟩
    simp

theorem safe_pend_close (e : engine) (hs : safe e) : safe (pend_close e) := fun hb => hs hb

theorem same_session_pend_close (e : engine) : same_session e (pend_close e) :=
  ⟨rfl, rfl, rfl, rfl, rfl, rfl, fun _ => pend_pend_close e⟩

/-- The `switch` of `call_handler` for the statuses `ERROR` and `CLOSE`: pend-close is
set; in `REQUEST_BEGIN` nothing else happens, in any other state the request is
finalized. -/
theorem call_handler_switch_error_close (fuel : Nat) (e1 : engine) (status : Int)
    (hs : safe e1) (hst : status = EWS_ROUTE_STATUS_ERROR ∨ status = EWS_ROUTE_STATUS_CLOSE) :
    ∃ e2 st2, call_handler_switch (fuel + 1) e1 status = some (e2, st2) ∧ pend e2.sock ∧
      same_session e1 e2 ∧
      (e1.block.state = EWS_SESS_REQUEST_BEGIN → e2 = pend_close e1) ∧
      (e1.block.state ≠ EWS_SESS_REQUEST_BEGIN → finalized e1 e2) := by
  have hp := pend_pend_close e1
  have hss := same_session_pend_close e1
  have hfin : ∀ e2, outcome (pend_close e1) e2 → e2.block.state = EWS_SESS_REQUEST_BEGIN →
      pend e2.sock ∧ same_session e1 e2 ∧
      (e1.block.state ≠ EWS_SESS_REQUEST_BEGIN → finalized e1 e2) := by
    intro e2 o z
    refine ⟨o.1.2.2.2.2.2.2 hp, same_session_trans hss o.1, fun hn => ?_⟩
    have f : finalized (pend_close e1) e2 := finalized_of_outcome o hn z
    exact f
  rcases hst with hE | hC
  · subst hE
    unfold call_handler_switch
    rw [if_neg (by decide), if_neg (by decide), if_neg (by decide), if_neg (by decide),
      if_neg (by decide)]
    dsimp only
    by_cases h0 : e1.block.state = EWS_SESS_REQUEST_BEGIN
    · rw [if_neg (by show ¬ e1.block.state > 0; rw [h0]; decide)]
      exact ⟨_, _, rfl, hp, hss, fun _ => rfl, fun hn => absurd h0 hn⟩
    · rw [if_pos (by show e1.block.state > 0; exact Nat.pos_of_ne_zero h0)]
      obtain ⟨e2, h2, o2, z2⟩ := http_error_safe fuel (pend_close e1) 500
        (bytes "Internal Server Error") (safe_pend_close e1 hs)
      rw [h2]
      obtain ⟨c1, c2, c4⟩ := hfin e2 o2 z2
      exact ⟨e2, _, rfl, c1, c2, fun hz => absurd hz h0, c4⟩
  · subst hC
    unfold call_handler_switch
    rw [if_pos rfl]
    dsimp only
    by_cases h0 : e1.block.state = EWS_SESS_REQUEST_BEGIN
    · rw [if_neg (by show ¬ e1.block.state > 0; rw [h0]; decide)]
      exact ⟨_, _, rfl, hp, hss, fun _ => rfl, fun hn => absurd h0 hn⟩
    · rw [if_pos (by show e1.block.state > 0; exact Nat.pos_of_ne_zero h0)]
      obtain ⟨e2, h2, o2, z2⟩ := finalize_safe fuel (pend_close e1) (safe_pend_close e1 hs)
      rw [h2]
      obtain ⟨c1, c2, c4⟩ := hfin e2 o2 z2
      exact ⟨e2, _, rfl, c1, c2, fun hz => absurd hz h0, c4⟩

theorem step_of_outcome {a b : engine} (h : outcome a b) : step_of a b := by
  refine ⟨h.1, ?_, fun h0 => ?_⟩
  · rcases h.2 with l | f
    · exact Or.inl l.2.1
    · obtain ⟨f1, f2, h', stF, u1, f3, f4, f5, f6⟩ := f
      exact Or.inr ⟨f1, stF, f6⟩
  · rcases h.2 with l | f
    · exact ⟨l.2.1, l.2.2.2 h0, l.1⟩
    · exact absurd h0 f.1

theorem step_of_pend_close {a b : engine} (h : step_of (pend_close a) b) : step_of a b :=
  ⟨same_session_trans (same_session_pend_close a) h.1, h.2.1, h.2.2⟩

theorem step_of_refl (a : engine) : step_of a a :=
  ⟨same_session_refl a, Or.inl rfl, fun _ => ⟨rfl, rfl, rfl⟩⟩

/-- The `switch` of `call_handler` returns for every status, when `finalize` can run. -/
theorem call_handler_switch_safe (fuel : Nat) (e1 : engine) (status : Int) (hs : safe e1) :
    ∃ e2 st2, call_handler_switch (fuel + 1) e1 status = some (e2, st2) ∧ step_of e1 e2 := by
  have hpc : step_of e1 (pend_close e1) :=
    ⟨same_session_pend_close e1, Or.inl rfl, fun _ => ⟨rfl, rfl, rfl⟩⟩
  have herr : ∃ e2, http_error (finalize (fuel + 1)) e1 500 (bytes "Internal Server Error") =
      some e2 ∧ step_of e1 e2 := by
    obtain ⟨e2, h2, o2, -⟩ := http_error_safe fuel e1 500 (bytes "Internal Server Error") hs
    exact ⟨e2, h2, step_of_outcome o2⟩
  have herrp : ∃ e2, http_error (finalize (fuel + 1)) (pend_close e1) 500
      (bytes "Internal Server Error") = some e2 ∧ step_of e1 e2 := by
    obtain ⟨e2, h2, o2, -⟩ := http_error_safe fuel (pend_close e1) 500
      (bytes "Internal Server Error") (safe_pend_close e1 hs)
    exact ⟨e2, h2, step_of_pend_close (step_of_outcome o2)⟩
  have hfin : ∃ e2, finalize (fuel + 1) e1 = some e2 ∧ step_of e1 e2 := by
    obtain ⟨e2, h2, o2, -⟩ := finalize_safe fuel e1 hs
    exact ⟨e2, h2, step_of_outcome o2⟩
  have hfinp : ∃ e2, finalize (fuel + 1) (pend_close e1) = some e2 ∧ step_of e1 e2 := by
    obtain ⟨e2, h2, o2, -⟩ := finalize_safe fuel (pend_close e1) (safe_pend_close e1 hs)
    exact ⟨e2, h2, step_of_pend_close (step_of_outcome o2)⟩
  unfold call_handler_switch
  dsimp only
  split_ifs with c1 c2 c3 c4 c5 c6 c7 c8 c9 c10 c11 c12 c13
  all_goals first
    | exact ⟨_, _, rfl, step_of_refl e1⟩
    | exact ⟨_, _, rfl, hpc⟩
    | (obtain ⟨e2, h2, s2⟩ := herr; rw [h2]; exact ⟨_, _, rfl, s2⟩)
    | (obtain ⟨e2, h2, s2⟩ := herrp; rw [h2]; exact ⟨_, _, rfl, s2⟩)
    | (obtain ⟨e2, h2, s2⟩ := hfin; rw [h2]; exact ⟨_, _, rfl, s2⟩)
    | (obtain ⟨e2, h2, s2⟩ := hfinp; rw [h2]; exact ⟨_, _, rfl, s2⟩)
    | (refine ⟨_, _, rfl, ⟨rfl, rfl, rfl, rfl, rfl, rfl, id⟩, Or.inl rfl, fun h0 => ?_⟩
       simp_all)
    | (obtain ⟨r, n, h2, o2⟩ := http_raw_send_safe fuel e1 [13, 10] hs
       rw [h2]
       have s2 := step_of_outcome o2
       refine ⟨_, _, rfl, s2.1, s2.2.1, fun h0 => ?_⟩
       simp_all)

/-- What `call_handler` does with a tame handler, in any state: it returns; the handler is
invoked once at the current state with the count `next_count`, and at most once more, at
`FINALIZE` (the events `X` while it runs, `Y` after it has returned `stH`); for `ERROR` and
`CLOSE` pend-close is set and, past `REQUEST_BEGIN`, the request is finalized. -/
theorem call_handler_safe (fuel : Nat) (e : engine) (h : handler)
    (hr : route_handler e e.block.route = some h) (ht : tame h) :
    ∃ e2 st2 stH X Y, call_handler (fuel + 1) e = some (e2, st2) ∧ same_session e e2 ∧
      e2.events = e.events ++
        event.call e.block.route e.block.state (next_count e.block) :: (X ++ event.ret stH :: Y) ∧
      (X ++ Y = [] ∨ (e.block.state ≠ EWS_SESS_REQUEST_BEGIN ∧
        ∃ stF, X ++ Y = [event.call e.block.route EWS_HTTP_FINALIZE 0, event.ret stF])) ∧
      (∀ st0 u0, h e.user e.buf e.sess e.block.state = hprog.ret st0 u0 → stH = st0 ∧ X = []) ∧
      (e.block.state = EWS_SESS_REQUEST_BEGIN → same_request e e2) ∧
      ((stH = EWS_ROUTE_STATUS_ERROR ∨ stH = EWS_ROUTE_STATUS_CLOSE) →
        pend e2.sock ∧ (e.block.state ≠ EWS_SESS_REQUEST_BEGIN →
          e2.block = zero_block ∧ X ++ Y ≠ [])) := by
  have hr0 : route_handler { e with block := { e.block with state_count := next_count e.block } }
      e.block.route = some h := hr
  obtain ⟨e1, stH, hinv, ss1, shape, hret⟩ := invoke_safe fuel
    { e with block := { e.block with state_count := next_count e.block } } h hr0 ht
  dsimp only at hinv shape hret
  have hsafe1 : safe { e1 with block := { e1.block with prev_state := e1.block.state } } := by
    intro hb
    rcases shape with ⟨-, hbk, -⟩ | ⟨-, hz, -⟩
    · refine ⟨h, ?_, ht.1⟩
      have hrt : e1.block.route = e.block.route := by rw [hbk]
      show route_handler { e1 with block := { e1.block with prev_state := e1.block.state } }
        e1.block.route = some h
      rw [hrt]
      exact (route_handler_congr e
        { e1 with block := { e1.block with prev_state := e1.block.state } } ss1.1
        e.block.route).trans hr
    · exact absurd (show e1.block.state = 0 by rw [hz]; rfl) hb
  -- the switch, with what it made of the engine
  obtain ⟨e2, st2, hsw, stp, hec⟩ : ∃ e2 st2,
      call_handler_switch (fuel + 1)
        { e1 with block := { e1.block with prev_state := e1.block.state } } stH = some (e2, st2) ∧
      step_of { e1 with block := { e1.block with prev_state := e1.block.state } } e2 ∧
      ((stH = EWS_ROUTE_STATUS_ERROR ∨ stH = EWS_ROUTE_STATUS_CLOSE) → pend e2.sock ∧
        (e1.block.state = EWS_SESS_REQUEST_BEGIN → e2.block =
          { e1.block with prev_state := e1.block.state }) ∧
        (e1.block.state ≠ EWS_SESS_REQUEST_BEGIN → e2.block = zero_block ∧
          e2.events ≠ e1.events)) := by
    by_cases hEC : stH = EWS_ROUTE_STATUS_ERROR ∨ stH = EWS_ROUTE_STATUS_CLOSE
    · obtain ⟨e2, st2, hsw, hp, ss2, hz0, hfin⟩ :=
        call_handler_switch_error_close fuel _ stH hsafe1 hEC
      refine ⟨e2, st2, hsw, ⟨ss2, ?_, ?_⟩, fun _ => ⟨hp, ?_, ?_⟩⟩
      · by_cases h0 : e1.block.state = EWS_SESS_REQUEST_BEGIN
        · left; rw [hz0 h0]; rfl
        · obtain ⟨f1, f2, h', stF, u1, f3, f4, f5, f6⟩ := hfin h0
          exact Or.inr ⟨h0, stF, f6⟩
      · intro h0
        rw [hz0 h0]
        exact ⟨rfl, rfl, rfl⟩
      · intro h0
        rw [hz0 h0]
        rfl
      · intro h0
        obtain ⟨f1, f2, h', stF, u1, f3, f4, f5, f6⟩ := hfin h0
        refine ⟨f2, ?_⟩
        rw [f6]
        intro hc
        have := congrArg List.length hc
        simp at this
    · obtain ⟨e2, st2, hsw, stp⟩ := call_handler_switch_safe fuel _ stH hsafe1
      exact ⟨e2, st2, hsw, stp, fun hx => absurd hx hEC⟩
  rw [call_handler_eq, hinv]
  simp only [Option.some_bind]
  rcases shape with ⟨hev, hbk, hb0⟩ | ⟨hn0, hz, stF, hev⟩
  · -- the request was still open when the handler returned
    have hst : e1.block.state = e.block.state := by rw [hbk]
    have hrt : e1.block.route = e.block.route := by rw [hbk]
    rcases stp.2.1 with hsame | ⟨hne, stF, hfin⟩
    · refine ⟨e2, st2, stH, [], [], hsw, same_session_trans ss1 stp.1, ?_, Or.inl rfl, ?_, ?_, ?_⟩
      · rw [hsame]; exact hev
      · intro st0 u0 hp; exact ⟨(hret st0 u0 hp).1, rfl⟩
      · intro h0
        obtain ⟨-, hb2, -⟩ := stp.2.2 (by show e1.block.state = 0; rw [hst]; exact h0)
        have hb1 := hb0 h0
        obtain ⟨a1, a2, a3, a4, a5, a6, -⟩ := same_session_trans ss1 stp.1
        refine ⟨a1, a2, a3, a4, a5, a6, ?_, ?_, ?_, ?_⟩ <;> rw [hb2] <;> simp only [hb1]
      · intro hx
        obtain ⟨p1, p2, p3⟩ := hec hx
        refine ⟨p1, fun hn => ?_⟩
        exact absurd hsame (p3 (by rw [hst]; exact hn)).2
    · refine ⟨e2, st2, stH, [], [event.call e.block.route EWS_HTTP_FINALIZE 0, event.ret stF],
        hsw, same_session_trans ss1 stp.1, ?_,
        Or.inr ⟨by rw [← hst]; exact hne, stF, rfl⟩, ?_, ?_, ?_⟩
      · rw [hfin]
        show e1.events ++ [event.call e1.block.route EWS_HTTP_FINALIZE 0, event.ret stF] = _
        rw [hev, hrt]
        simp
      · intro st0 u0 hp; exact ⟨(hret st0 u0 hp).1, rfl⟩
      · intro h0
        exact absurd (show e1.block.state = 0 by rw [hst]; exact h0) hne
      · intro hx
        obtain ⟨p1, p2, p3⟩ := hec hx
        exact ⟨p1, fun hn => ⟨(p3 (by rw [hst]; exact hn)).1, by simp⟩⟩
  · -- the request was finalized while the handler ran
    have hst : e1.block.state = 0 := by rw [hz]; rfl
    obtain ⟨hsame, hb2, -⟩ := stp.2.2 hst
    refine ⟨e2, st2, stH, [event.call e.block.route EWS_HTTP_FINALIZE 0, event.ret stF], [],
      hsw, same_session_trans ss1 stp.1, ?_, Or.inr ⟨hn0, stF, by simp⟩, ?_, ?_, ?_⟩
    · rw [hsame]
      show e1.events = _
      rw [hev]
      simp
    · intro st0 u0 hp
      have := (hret st0 u0 hp).2
      rw [this] at hev
      have hl := congrArg List.length hev
      simp at hl
    · intro h0; exact absurd h0 hn0
    · intro hx
      obtain ⟨p1, p2, p3⟩ := hec hx
      refine ⟨p1, fun _ => ⟨?_, by simp⟩⟩
      rw [p2 hst, hz]
      rfl

theorem tame_const_handler (st : Int) : tame (const_handler st) :=
  ⟨fun _ _ _ => ⟨_, _, rfl⟩, fun _ _ _ _ => trivial⟩

theorem accepts_pend_close (e : engine) (ha : accepts e.sock) : accepts (pend_close e).sock := by
  refine ⟨?_, ha.2⟩
  have h1 := ha.1
  show (e.sock.flags ||| EWS_SOCK_FLAG_PEND_CLOSE) &&& EWS_SOCK_FLAG_SHUTDOWN = 0
  have h11 : e.sock.flags.testBit 11 = false := by
    have := congrArg (fun x => x.testBit 11) h1
    have h2 : Nat.testBit EWS_SOCK_FLAG_SHUTDOWN 11 = true := by decide
    simp only [Nat.testBit_and, h2, Bool.and_true, Nat.zero_testBit] at this
    exact this
  apply Nat.eq_of_testBit_eq
  intro i
  rw [Nat.testBit_and, Nat.testBit_or, show EWS_SOCK_FLAG_SHUTDOWN = 2 ^ 11 from rfl,
    show EWS_SOCK_FLAG_PEND_CLOSE = 2 ^ 12 from rfl, Nat.testBit_two_pow, Nat.testBit_two_pow,
    Nat.zero_testBit]
  by_cases hi : 11 = i
  · subst hi
    simp [h11]
  · simp [hi]

/-- Over a transport that accepts every write, in a state up to `RESPONSE_BEGIN` and for
version 1.0 or 1.1, `http_error` writes the status line, the two headers and the body,
and then finalizes. -/
theorem http_error_accepts (fin : engine → Option engine) (e : engine) (code : Int)
    (msg : List Nat) (ha : accepts e.sock) (hs : e.block.state ≤ EWS_SESS_RESPONSE_BEGIN)
    (hv : e.block.version ≠ EWS_HTTP_VERSION_09)
    (hl1 : (status_line e.block.version code msg).length ≤ 2 ^ 64)
    (hl2 : (bytes "Content-Type: text/html\r\nContent-Length: " ++ dec (9 + msg.length) ++
        [13, 10, 13, 10]).length ≤ 2 ^ 64)
    (hl3 : (bytes "<h1>" ++ msg ++ bytes "</h1>").length ≤ 2 ^ 64) :
    http_error fin e code msg =
      fin { e with sock := sent (sent (sent e.sock (status_line e.block.version code msg))
        (bytes "Content-Type: text/html\r\nContent-Length: " ++ dec (9 + msg.length) ++
          [13, 10, 13, 10])) (bytes "<h1>" ++ msg ++ bytes "</h1>") } := by
  have hv' : e.block.version > EWS_HTTP_VERSION_09 := Nat.pos_of_ne_zero hv
  unfold http_error
  rw [if_pos ⟨hs, hv'⟩]
  unfold http_status
  rw [if_neg hv, if_neg (by omega), http_raw_send_accepts fin e _ ha hl1]
  simp only [Option.map_some', Option.some_bind]
  rw [http_raw_send_accepts fin
    { e with sock := sent e.sock (status_line e.block.version code msg) } _
    (accepts_sent _ _ ha) hl2]
  simp only [Option.some_bind]
  rw [http_raw_send_accepts fin
    { e with sock := (sent (sent e.sock (status_line e.block.version code msg))
      (bytes "Content-Type: text/html\r\nContent-Length: " ++ dec (9 + msg.length) ++
        [13, 10, 13, 10])) } _
    (accepts_sent _ _ (accepts_sent _ _ ha)) hl3]
  simp only [Option.some_bind]

/-- In a state after `RESPONSE_BEGIN`, or for version 0.9, `http_error` only finalizes. -/
theorem http_error_late (fin : engine → Option engine) (e : engine) (code : Int)
    (msg : List Nat)
    (hs : e.block.state > EWS_SESS_RESPONSE_BEGIN ∨ e.block.version = EWS_HTTP_VERSION_09) :
    http_error fin e code msg = fin e := by
  unfold http_error
  rw [if_neg]
  rintro ⟨h1, h2⟩
  rcases hs with h | h
  · omega
  · rw [h] at h2
    exact absurd h2 (by decide)

/-- The same with the socket named: it holds the three writes and is otherwise unchanged. -/
theorem http_error_accepts_sock (fin : engine → Option engine) (e : engine) (code : Int)
    (msg : List Nat) (ha : accepts e.sock) (hs : e.block.state ≤ EWS_SESS_RESPONSE_BEGIN)
    (hv : e.block.version ≠ EWS_HTTP_VERSION_09)
    (hl1 : (status_line e.block.version code msg).length ≤ 2 ^ 64)
    (hl2 : (bytes "Content-Type: text/html\r\nContent-Length: " ++ dec (9 + msg.length) ++
        [13, 10, 13, 10]).length ≤ 2 ^ 64)
    (hl3 : (bytes "<h1>" ++ msg ++ bytes "</h1>").length ≤ 2 ^ 64) :
    ∃ S, http_error fin e code msg = fin { e with sock := S } ∧
      S.wire = e.sock.wire ++ (status_line e.block.version code msg ++
        (bytes "Content-Type: text/html\r\nContent-Length: " ++ dec (9 + msg.length) ++
          [13, 10, 13, 10]) ++ (bytes "<h1>" ++ msg ++ bytes "</h1>")) ∧
      S.flags = e.sock.flags ∧ S.shutdowns = e.sock.shutdowns :=
  ⟨_, http_error_accepts fin e code msg ha hs hv hl1 hl2 hl3, by simp [sent], rfl, rfl⟩

/-- The response 500 of `http_error` over a transport that accepts every write, for a
request of version 1.0 or 1.1 past `REQUEST_BEGIN`: the response is written in the states
up to `RESPONSE_BEGIN` only; in every state the request is finalized. -/
theorem http_error_500 (fuel : Nat) (e : engine) (h : handler)
    (hs : e.block.state ≠ EWS_SESS_REQUEST_BEGIN)
    (hv : e.block.version = EWS_HTTP_VERSION_10 ∨ e.block.version = EWS_HTTP_VERSION_11)
    (ha : accepts e.sock)
    (hr : route_handler e e.block.route = some h) (hq : quiet_at_finalize h) :
    ∃ R stF, http_error (finalize (fuel + 1)) e 500 (bytes "Internal Server Error") = some R ∧
      R.block = zero_block ∧
      R.events = e.events ++ [event.call e.block.route EWS_HTTP_FINALIZE 0, event.ret stF] ∧
      R.sock.wire = e.sock.wire ++
        (if e.block.state ≤ EWS_SESS_RESPONSE_BEGIN then response_500 e.block.version else []) := by
  obtain ⟨stF, uF, hF⟩ := hq e.user e.buf e.sess
  by_cases hle : e.block.state ≤ EWS_SESS_RESPONSE_BEGIN
  · have hv0 : e.block.version ≠ EWS_HTTP_VERSION_09 := by
      rcases hv with h1 | h1 <;> rw [h1] <;> decide
    obtain ⟨S, hE, hW, -, -⟩ := http_error_accepts_sock (finalize (fuel + 1)) e 500
      (bytes "Internal Server Error") ha hle hv0
      (by rcases hv with h1 | h1 <;> rw [h1] <;> decide) (by decide) (by decide)
    rw [hE, finalize_quiet fuel { e with sock := S } h stF uF hs hr hF]
    refine ⟨_, stF, rfl, rfl, rfl, ?_⟩
    rw [if_pos hle]
    have hw : (if e.block.flags &&& EWS_HTTP_FLAGS_KEEPALIVE = 0 then
        sock_shutdown S else S).wire = S.wire := by
      split <;> rfl
    show (if e.block.flags &&& EWS_HTTP_FLAGS_KEEPALIVE = 0 then sock_shutdown S else S).wire = _
    rw [hw, hW]
    congr 1
    rcases hv with h1 | h1 <;> rw [h1] <;> decide
  · rw [http_error_late _ e _ _ (Or.inl (by omega)), finalize_quiet fuel e h stF uF hs hr hF]
    refine ⟨_, stF, rfl, rfl, rfl, ?_⟩
    rw [if_neg hle]
    show (if e.block.flags &&& EWS_HTTP_FLAGS_KEEPALIVE = 0 then sock_shutdown _ else _).wire = _
    split <;> simp [sock_shutdown]

/-- C17 (as stated, refuted): for `GET / HTTP/1.1` and a handler that sends the status
`200 OK`, ends the headers and returns `ERROR` at `RESPONSE_BODY`, the request is
finalized and pend-close is set, but no 500 response is written: the wire holds the
status line and the blank line only. -/
theorem internal_error_without_response :
    ((((do_read 1 (fresh_engine [⟨bytes "/", error_at_body_handler⟩] 48 [])
        (received "GET / HTTP/1.1\r\n\r\n")).bind (do_write 1)).bind (do_write 1)).bind
        (do_write 1)).map
        (fun e => (e.events, e.block, decide (pend e.sock), text e.sock.wire)) =
      some ([event.call (route_ptr.user 0) EWS_SESS_REQUEST_BEGIN 1,
          event.ret EWS_ROUTE_STATUS_FOUND,
          event.call (route_ptr.user 0) EWS_SESS_RESPONSE_BEGIN 0,
          event.ret EWS_ROUTE_STATUS_NEXT,
          event.call (route_ptr.user 0) EWS_SESS_RESPONSE_HEADER 0,
          event.ret EWS_ROUTE_STATUS_NEXT,
          event.call (route_ptr.user 0) EWS_SESS_RESPONSE_BODY 0,
          event.ret EWS_ROUTE_STATUS_ERROR,
          event.call (route_ptr.user 0) EWS_HTTP_FINALIZE 0,
          event.ret EWS_ROUTE_STATUS_NEXT],
        zero_block, true, "HTTP/1.1 200 OK\r\n\r\n") := by
  decide

/-- C17 (amended): for a request of version 1.0 or 1.1 past `REQUEST_BEGIN`, a transport
that accepts every write and a handler that performs no session operation at `FINALIZE`:
the internal error (`http_error` with the code 500) finalizes the request in every
state, the handler being invoked once at `FINALIZE` and the block zeroed, and writes the
500 response exactly when the state is not after `RESPONSE_BEGIN`; in `RESPONSE_HEADER`
and `RESPONSE_BODY` nothing is written.  That is what `header` does in every state but
`RESPONSE_HEADER`, what `send` does (returning -1) in every state but `RESPONSE_BODY`,
and what `call_handler` does after the handler has returned `ERROR`. -/
theorem internal_error_finalizes (fuel : Nat) (e : engine) (h : handler)
    (hs : e.block.state ≠ EWS_SESS_REQUEST_BEGIN)
    (hv : e.block.version = EWS_HTTP_VERSION_10 ∨ e.block.version = EWS_HTTP_VERSION_11)
    (ha : accepts e.sock)
    (hr : route_handler e e.block.route = some h) (hq : quiet_at_finalize h) :
    ∃ R stF, http_error (finalize (fuel + 1)) e 500 (bytes "Internal Server Error") = some R ∧
      R.block = zero_block ∧
      R.events = e.events ++ [event.call e.block.route EWS_HTTP_FINALIZE 0, event.ret stF] ∧
      R.sock.wire = e.sock.wire ++
        (if e.block.state ≤ EWS_SESS_RESPONSE_BEGIN then response_500 e.block.version else []) ∧
      (e.block.state ≠ EWS_SESS_RESPONSE_HEADER → ∀ name value,
        http_header (finalize (fuel + 1)) e name value = some R) ∧
      (e.block.state ≠ EWS_SESS_RESPONSE_BODY → ∀ buf,
        http_send (finalize (fuel + 1)) e buf = some (R, -1)) ∧
      (∀ u, h e.user e.buf e.sess e.block.state = hprog.ret EWS_ROUTE_STATUS_ERROR u →
        ∃ R2 stF2, call_handler (fuel + 1) e = some (R2, EWS_ROUTE_STATUS_ERROR) ∧
          R2.block = zero_block ∧
          R2.events = e.events ++ [event.call e.block.route e.block.state (next_count e.block),
            event.ret EWS_ROUTE_STATUS_ERROR, event.call e.block.route EWS_HTTP_FINALIZE 0,
            event.ret stF2] ∧
          R2.sock.wire = e.sock.wire ++
            (if e.block.state ≤ EWS_SESS_RESPONSE_BEGIN then response_500 e.block.version
              else [])) := by
  obtain ⟨R, stF, hE, hB, hEv, hW⟩ := http_error_500 fuel e h hs hv ha hr hq
  refine ⟨R, stF, hE, hB, hEv, hW, fun hn name value => ?_, fun hn buf => ?_, fun u hu => ?_⟩
  · unfold http_header
    rw [if_pos hn]
    exact hE
  · unfold http_send
    rw [if_pos hn, hE]
    rfl
  · rw [call_handler_eq]
    have hr0 : route_handler
        { e with block := { e.block with state_count := next_count e.block } }
        e.block.route = some h := hr
    simp only [invoke, hr0, Option.some_bind, hu, run_prog, Option.map_some']
    unfold call_handler_switch
    rw [if_neg (by decide), if_neg (by decide), if_neg (by decide), if_neg (by decide),
      if_neg (by decide)]
    dsimp only
    rw [if_pos (by show e.block.state > 0; exact Nat.pos_of_ne_zero hs)]
    obtain ⟨R2, stF2, hE2, hB2, hEv2, hW2⟩ := http_error_500 fuel
      (pend_close { e with
        block := { e.block with state_count := next_count e.block, prev_state := e.block.state }
        user := u
        events := e.events ++ [event.call e.block.route e.block.state (next_count e.block)] ++
          [event.ret EWS_ROUTE_STATUS_ERROR] }) h hs hv
      (accepts_pend_close _ ha) hr hq
    refine ⟨R2, stF2, ?_, hB2, ?_, hW2⟩
    · have := congrArg (Option.map (fun e3 => (e3, EWS_ROUTE_STATUS_ERROR))) hE2
      exact this
    · rw [hEv2]
      simp [pend_close]

theorem internal_error_finalizes_witness :
    ∃ R stF, http_error (finalize 1)
        (sample_engine [⟨bytes "/", const_handler EWS_ROUTE_STATUS_ERROR⟩] EWS_SESS_REQUEST_HEADER)
        500 (bytes "Internal Server Error") = some R ∧
      R.block = zero_block ∧
      R.events = [event.call (route_ptr.user 0) EWS_HTTP_FINALIZE 0, event.ret stF] ∧
      R.sock.wire = response_500 EWS_HTTP_VERSION_11 :=
  let ⟨R, stF, h1, h2, h3, h4, _⟩ := internal_error_finalizes 0
    (sample_engine [⟨bytes "/", const_handler EWS_ROUTE_STATUS_ERROR⟩] EWS_SESS_REQUEST_HEADER)
    (const_handler EWS_ROUTE_STATUS_ERROR) (by decide) (Or.inr rfl)
    ⟨by decide, fun _ => ⟨2 ^ 64, rfl, le_refl _⟩⟩ rfl (tame_const_handler _).1
  ⟨R, stF, h1, h2, h3, h4⟩

/-! ## Theorems: `find` -/

/-- The loop of `find`, from any point it can reach: it returns the first index at
which the needle stands, or -1 when there is none up to `hlen - nlen`. -/
theorem find_loop_first (mem : List Nat) (base hlen : Nat) (s : List Nat)
    (hs1 : 1 ≤ s.length) (hs2 : s.length < 2 ^ 64) (hle : s.length ≤ hlen) :
    ∀ (fuel i j : Nat), j < s.length → (i ≤ hlen - s.length ∨ j = 0) →
      (∀ j', j' < j → rd mem (base + (i + j')) = rd s j') →
      (∀ k, k < i → ¬ occurs_at mem base s k) →
      (hlen - s.length + 1 - i) * s.length + 1 ≤ fuel + j →
      (∃ r : Nat, find_loop mem base hlen s fuel i j = some (r : Int) ∧ r + s.length ≤ hlen ∧
          occurs_at mem base s r ∧ ∀ k, k < r → ¬ occurs_at mem base s k) ∨
        (find_loop mem base hlen s fuel i j = some (-1) ∧
          ∀ k, k + s.length ≤ hlen → ¬ occurs_at mem base s k) := by
  have hmod : (s.length + 2 ^ 64 - 1) % 2 ^ 64 = s.length - 1 := by
    have : s.length + 2 ^ 64 - 1 = (s.length - 1) + 2 ^ 64 := by omega
    rw [this, Nat.add_mod_right, Nat.mod_eq_of_lt (by omega)]
  intro fuel
  induction fuel with
  | zero =>
    intro i j hj hij _ _ hf
    exfalso
    rcases hij with h | h
    · have h1 : 1 ≤ hlen - s.length + 1 - i := by omega
      have := Nat.mul_le_mul_right s.length h1
      omega
    · omega
  | succ fuel ih =>
    intro i j hj hij hpre hno hf
    rw [find_loop]
    by_cases hi : i ≤ hlen - s.length
    · rw [if_pos hi]
      obtain ⟨d, hd⟩ : ∃ d, hlen - s.length + 1 - i = d + 1 := ⟨hlen - s.length - i, by omega⟩
      rw [hd, Nat.succ_mul] at hf
      by_cases hm : rd mem (base + (i + j)) = rd s j
      · rw [if_pos hm, hmod]
        by_cases hlast : j = s.length - 1
        · rw [if_pos hlast]
          left
          refine ⟨i, rfl, by omega, ?_, hno⟩
          intro j' hj'
          by_cases hjj : j' < j
          · exact hpre j' hjj
          · have : j' = j := by omega
            rw [this]; exact hm
        · rw [if_neg hlast]
          apply ih i (j + 1) (by omega) (Or.inl hi) _ hno
          · rw [hd, Nat.succ_mul]; omega
          · intro j' hj'
            by_cases hjj : j' < j
            · exact hpre j' hjj
            · have : j' = j := by omega
              rw [this]; exact hm
      · rw [if_neg hm]
        apply ih (i + 1) 0 (by omega) (Or.inr rfl) (fun j' hj' => absurd hj' (by omega))
        · intro k hk
          by_cases hki : k < i
          · exact hno k hki
          · have : k = i := by omega
            rw [this]
            intro hocc
            exact hm (hocc j hj)
        · have : hlen - s.length + 1 - (i + 1) = d := by omega
          rw [this]; omega
    · rw [if_neg hi]
      right
      refine ⟨rfl, fun k hk => hno k (by omega)⟩

/-- The function `find` returns the first index `r` with `r + nlen ≤ hlen` at which the
needle stands, or -1 when there is none; it returns for every buffer. -/
theorem find_first (mem : List Nat) (base hlen : Nat) (s : List Nat)
    (hs1 : 1 ≤ s.length) (hs2 : s.length < 2 ^ 64) :
    (∃ r : Nat, find mem base hlen s = some (r : Int) ∧ r + s.length ≤ hlen ∧
        occurs_at mem base s r ∧ ∀ k, k < r → ¬ occurs_at mem base s k) ∨
      (find mem base hlen s = some (-1) ∧
        ∀ k, k + s.length ≤ hlen → ¬ occurs_at mem base s k) := by
  unfold find
  by_cases hlt : hlen < s.length
  · rw [if_pos hlt]
    exact Or.inr ⟨rfl, fun k hk => absurd hk (by omega)⟩
  · rw [if_neg hlt]
    apply find_loop_first mem base hlen s hs1 hs2 (by omega) _ 0 0 (by omega) (Or.inr rfl)
      (fun j' hj' => absurd hj' (by omega)) (fun k hk => absurd hk (by omega))
    have h1 : hlen - s.length + 1 - 0 ≤ hlen + 1 := by omega
    have h2 := Nat.mul_le_mul h1 (Nat.le_add_right s.length 1)
    omega

theorem occurs_at_pair (mem : List Nat) (base a b i : Nat) :
    occurs_at mem base [a, b] i ↔ rd mem (base + i) = a ∧ rd mem (base + (i + 1)) = b := by
  unfold occurs_at
  constructor
  · intro h
    have h0 := h 0 (by simp)
    have h1 := h 1 (by simp)
    simp only [Nat.add_zero, rd_cons_zero, rd_cons_succ] at h0 h1
    exact ⟨h0, h1⟩
  · rintro ⟨h0, h1⟩ j hj
    simp only [List.length_cons, List.length_nil] at hj
    rcases Nat.lt_or_ge j 1 with hj0 | hj1
    · have : j = 0 := by omega
      subst this
      simpa [rd_cons_zero] using h0
    · have : j = 1 := by omega
      subst this
      simpa [rd_cons_succ, rd_cons_zero] using h1

theorem infix_pair_of_rd (l : List Nat) (a b k : Nat) (hk : k + 1 < l.length)
    (h0 : rd l k = a) (h1 : rd l (k + 1) = b) : [a, b] <:+: l := by
  refine ⟨l.take k, l.drop (k + 2), ?_⟩
  have e1 : l.drop k = l[k] :: l.drop (k + 1) := List.drop_eq_getElem_cons (by omega)
  have e2 : l.drop (k + 1) = l[k + 1] :: l.drop (k + 2) := List.drop_eq_getElem_cons hk
  have g0 : l[k] = a := by
    have : rd l k = l[k] := by simp [rd, List.getD_eq_getElem?_getD, List.getElem?_eq_getElem (show k < l.length by omega)]
    rw [← this]; exact h0
  have g1 : l[k + 1] = b := by
    have : rd l (k + 1) = l[k + 1] := by simp [rd, List.getD_eq_getElem?_getD, List.getElem?_eq_getElem hk]
    rw [← this]; exact h1
  calc l.take k ++ [a, b] ++ l.drop (k + 2)
      = l.take k ++ (a :: b :: l.drop (k + 2)) := by simp
    _ = l.take k ++ l.drop k := by rw [e1, e2, g0, g1]
    _ = l := List.take_append_drop k l

theorem rd_mid (pre A X : List Nat) (k : Nat) :
    rd (pre ++ A ++ X) (pre.length + k) = rd (A ++ X) k := by
  rw [List.append_assoc]
  exact rd_append_at pre (A ++ X) k

/-- In a buffer that holds, from offset `base`, the bytes `A` without the pair `a b`
and then the pair, `find` returns the length of `A`. -/
theorem find_pair_at (pre A rest : List Nat) (a b hlen : Nat) (hab : a ≠ b)
    (hh : A.length + 2 ≤ hlen) (hA : ¬ [a, b] <:+: A) :
    find (pre ++ A ++ a :: b :: rest) pre.length hlen [a, b] = some (A.length : Int) := by
  have hoccA : occurs_at (pre ++ A ++ a :: b :: rest) pre.length [a, b] A.length := by
    rw [occurs_at_pair, rd_mid, rd_mid]
    constructor
    · have := rd_append_at A (a :: b :: rest) 0
      simpa [rd_cons_zero] using this
    · have := rd_append_at A (a :: b :: rest) 1
      simpa [rd_cons_zero, rd_cons_succ] using this
  have hnoA : ∀ k, k < A.length → ¬ occurs_at (pre ++ A ++ a :: b :: rest) pre.length [a, b] k := by
    intro k hk hocc
    rw [occurs_at_pair, rd_mid, rd_mid, rd_append_left A _ k hk] at hocc
    by_cases hk1 : k + 1 < A.length
    · rw [rd_append_left A _ (k + 1) hk1] at hocc
      exact hA (infix_pair_of_rd A a b k hk1 hocc.1 hocc.2)
    · have hkk : k + 1 = A.length := by omega
      have := rd_append_at A (a :: b :: rest) 0
      rw [Nat.add_zero, rd_cons_zero, ← hkk] at this
      rw [this] at hocc
      exact hab hocc.2
  rcases find_first (pre ++ A ++ a :: b :: rest) pre.length hlen [a, b] (by simp)
    (by simp) with ⟨r, hf, -, hocc, hmin⟩ | ⟨-, hnone⟩
  · have : r = A.length := by
      rcases Nat.lt_trichotomy r A.length with h | h | h
      · exact absurd hocc (hnoA r h)
      · exact h
      · exact absurd hoccA (hmin _ h)
    rw [hf, this]
  · exact absurd hoccA (hnone _ (by simpa using hh))

/-- In `hlen` bytes that do not contain the pair `a b`, `find` returns -1. -/
theorem find_pair_none (pre A rest : List Nat) (a b : Nat) (hA : ¬ [a, b] <:+: A) :
    find (pre ++ A ++ rest) pre.length A.length [a, b] = some (-1) := by
  rcases find_first (pre ++ A ++ rest) pre.length A.length [a, b] (by simp)
    (by simp) with ⟨r, -, hr, hocc, -⟩ | ⟨hf, -⟩
  · exfalso
    simp only [List.length_cons, List.length_nil] at hr
    rw [occurs_at_pair, rd_mid, rd_mid, rd_append_left A _ r (by omega),
      rd_append_left A _ (r + 1) (by omega)] at hocc
    exact hA (infix_pair_of_rd A a b r (by omega) hocc.1 hocc.2)
  · exact hf

/-! ## Theorems: `request_header` -/

theorem to_size_t_nat (k : Nat) (h : k < 2 ^ 64) : to_size_t (k : Int) = k := by
  unfold to_size_t
  rw [Int.emod_eq_of_lt (by omega) (by norm_cast)]
  simp

theorem to_size_t_neg_one : to_size_t (-1) = 2 ^ 64 - 1 := by decide

theorem isspace_head_dropWhile (V X : List Nat) :
    isspace (rd (V.dropWhile isspace ++ 0 :: X) 0) = false := by
  induction V with
  | nil => simp [rd_cons_zero, isspace]
  | cons c V ih =>
    rw [List.dropWhile_cons]
    split
    · exact ih
    · rename_i hc
      simp only [List.cons_append, rd_cons_zero]
      simpa using hc

theorem all_takeWhile_isspace (V : List Nat) : ∀ b ∈ V.takeWhile isspace, isspace b = true := by
  intro b hb
  exact List.mem_takeWhile_imp hb

/-- An empty header line: `request_header` consumes the `CRLF` and moves the state to
`RESPONSE_BEGIN`; nothing else happens. -/
theorem request_header_blank (fuel : Nat) (e : engine) (pre post : List Nat)
    (hbuf : e.buf = pre ++ 13 :: 10 :: post) (hpos : e.bufpos = pre.length)
    (hlen : 2 ≤ e.buflen) :
    request_header fuel e =
      some ({ e with
        buf := pre ++ 0 :: 10 :: post
        buflen := e.buflen - 2
        bufpos := pre.length + 2
        block := { e.block with
          request_buf := pre.length
          request_buflen := 0
          state := EWS_SESS_RESPONSE_BEGIN } }, false) := by
  have hfind : find e.buf e.bufpos e.buflen [13, 10] = some ((0 : Nat) : Int) := by
    have := find_pair_at pre [] post 13 10 e.buflen (by decide) (by simpa using hlen)
      (by decide)
    rw [hbuf, hpos]
    simpa using this
  have hwr : wr e.buf (pre.length + 0) 0 = pre ++ 0 :: 10 :: post := by
    rw [hbuf]
    exact wr_append_at pre 13 (10 :: post) 0
  unfold request_header
  rw [hfind]
  simp only [Nat.add_zero] at hwr
  simp only [Option.some_bind, Int.toNat_ofNat, hpos, Nat.cast_zero, Int.toNat_zero, if_true,
    Nat.add_zero, Nat.zero_add, hwr, Int.lt_irrefl, if_false]

/-- A header line that is not empty and has no `": "`, or starts with it:
`request_header` ends in `http_error` with the code 400 and sets pend-close; the handler
is not invoked for the line. -/
theorem request_header_invalid (fuel : Nat) (e : engine) (pre L post : List Nat)
    (hL0 : L ≠ []) (hbad : ¬ [58, 32] <:+: L ∨ [58, 32] <+: L) (hL : ¬ [13, 10] <:+: L)
    (hbuf : e.buf = pre ++ L ++ 13 :: 10 :: post) (hpos : e.bufpos = pre.length)
    (hlen : L.length + 2 ≤ e.buflen) (hsz : e.buf.length < 2 ^ 63) :
    ∃ k, request_header fuel e =
      (http_error (finalize fuel)
        { e with
          buf := pre ++ L ++ 0 :: 10 :: post
          buflen := e.buflen - (L.length + 2)
          bufpos := pre.length + (L.length + 2)
          block := { e.block with request_buf := pre.length, request_buflen := (L.length : Int) }
          sess := { e.sess with path := some pre.length, path_len := k } }
        400 (bytes "Invalid Header")).map fun e4 => (pend_close e4, true) := by
  have hLpos : 0 < L.length := List.length_pos.mpr hL0
  have hLlt : L.length < 2 ^ 63 := by
    have := congrArg List.length hbuf
    simp only [List.length_append, List.length_cons] at this
    omega
  have hfind : find e.buf e.bufpos e.buflen [13, 10] = some (L.length : Int) := by
    rw [hbuf, hpos]
    exact find_pair_at pre L post 13 10 e.buflen (by decide) hlen hL
  have hwr : wr e.buf (pre.length + L.length) 0 = pre ++ L ++ 0 :: 10 :: post := by
    have := wr_append_at (pre ++ L) 13 (10 :: post) 0
    rw [hbuf]
    simpa only [List.length_append] using this
  obtain ⟨k, hk, hcond⟩ : ∃ k : Int, find (pre ++ L ++ 0 :: 10 :: post) pre.length L.length
      [58, 32] = some k ∧ (to_size_t k < 1 ∨ to_size_t k ≥ to_size_t (L.length : Int)) := by
    rcases hbad with hno | hpre
    · refine ⟨-1, find_pair_none pre L (0 :: 10 :: post) 58 32 hno, Or.inr ?_⟩
      rw [to_size_t_neg_one, to_size_t_nat _ (by omega)]
      omega
    · obtain ⟨V, hV⟩ := hpre
      subst hV
      refine ⟨((0 : Nat) : Int), ?_, Or.inl (by rw [to_size_t_nat 0 (by omega)]; omega)⟩
      have := find_pair_at pre [] (V ++ 0 :: 10 :: post) 58 32 ([58, 32] ++ V).length
        (by decide) (by simp) (by decide)
      simpa using this
  refine ⟨to_size_t k, ?_⟩
  unfold request_header
  rw [hfind]
  simp only [Option.some_bind, Int.toNat_ofNat, hpos, hwr]
  rw [if_neg (by omega), if_neg (by omega), hk]
  simp only [Option.some_bind]
  rw [if_pos hcond]

/-- A header line `N`, `": "`, `V` with `N` not empty and without `": "`:
`request_header` writes a NUL over the colon, points `name` at `N` and `value` past the
white space that leads `V`, and ends in one `call_handler`. -/
theorem request_header_pair (fuel : Nat) (e : engine) (pre N V post : List Nat)
    (hN : N ≠ []) (hNo : ¬ [58, 32] <:+: N) (hL : ¬ [13, 10] <:+: (N ++ 58 :: 32 :: V))
    (hbuf : e.buf = pre ++ (N ++ 58 :: 32 :: V) ++ 13 :: 10 :: post)
    (hpos : e.bufpos = pre.length)
    (hlen : (N ++ 58 :: 32 :: V).length + 2 ≤ e.buflen) (hsz : e.buf.length < 2 ^ 63) :
    request_header fuel e =
      (call_handler fuel
        { e with
          buf := pre ++ N ++ 0 :: 32 :: V ++ 0 :: 10 :: post
          buflen := e.buflen - ((N ++ 58 :: 32 :: V).length + 2)
          bufpos := pre.length + ((N ++ 58 :: 32 :: V).length + 2)
          block := { e.block with
            request_buf := pre.length
            request_buflen := ((N ++ 58 :: 32 :: V).length : Int) }
          sess := { e.sess with
            path := some pre.length
            path_len := N.length
            query := some (pre.length + N.length + 2 + (V.takeWhile isspace).length)
            query_len := (V.dropWhile isspace).length } }).map fun r => (r.1, false) := by
  have hNpos : 0 < N.length := List.length_pos.mpr hN
  have hlenL : (N ++ 58 :: 32 :: V).length = N.length + V.length + 2 := by
    simp only [List.length_append, List.length_cons]; omega
  have hLlt : N.length + V.length + 2 < 2 ^ 63 := by
    have := congrArg List.length hbuf
    simp only [List.length_append, List.length_cons] at this
    omega
  have hfind : find e.buf e.bufpos e.buflen [13, 10] =
      some ((N ++ 58 :: 32 :: V).length : Int) := by
    rw [hbuf, hpos]
    exact find_pair_at pre (N ++ 58 :: 32 :: V) post 13 10 e.buflen (by decide) hlen hL
  have hwr : wr e.buf (pre.length + (N ++ 58 :: 32 :: V).length) 0 =
      pre ++ N ++ 58 :: 32 :: (V ++ 0 :: 10 :: post) := by
    have := wr_append_at (pre ++ (N ++ 58 :: 32 :: V)) 13 (10 :: post) 0
    rw [hbuf]
    simp only [List.length_append, List.append_assoc, List.cons_append] at this ⊢
    exact this
  have hk : find (pre ++ N ++ 58 :: 32 :: (V ++ 0 :: 10 :: post)) pre.length
      (N ++ 58 :: 32 :: V).length [58, 32] = some (N.length : Int) :=
    find_pair_at pre N (V ++ 0 :: 10 :: post) 58 32 _ (by decide) (by rw [hlenL]; omega) hNo
  have hwr2 : wr (pre ++ N ++ 58 :: 32 :: (V ++ 0 :: 10 :: post)) (pre.length + N.length) 0 =
      pre ++ N ++ 0 :: 32 :: (V ++ 0 :: 10 :: post) := by
    have := wr_append_at (pre ++ N) 58 (32 :: (V ++ 0 :: 10 :: post)) 0
    simpa only [List.length_append] using this
  have hskip : skip_space (pre ++ N ++ 0 :: 32 :: (V ++ 0 :: 10 :: post))
      (pre.length + N.length + 1) = pre.length + N.length + 2 + (V.takeWhile isspace).length := by
    have := skip_space_run (pre ++ N ++ [0]) (32 :: V.takeWhile isspace)
      (V.dropWhile isspace ++ 0 :: 10 :: post)
      (by
        intro b hb
        rcases List.mem_cons.mp hb with h | h
        · rw [h]; decide
        · exact all_takeWhile_isspace V b h)
      (isspace_head_dropWhile V (10 :: post))
    have hsplit : pre ++ N ++ [0] ++ 32 :: V.takeWhile isspace ++
        (V.dropWhile isspace ++ 0 :: 10 :: post) =
        pre ++ N ++ 0 :: 32 :: (V ++ 0 :: 10 :: post) := by
      conv => rhs; rw [← List.takeWhile_append_dropWhile isspace V]
      simp only [List.append_assoc, List.cons_append, List.nil_append]
    rw [hsplit] at this
    simp only [List.length_append, List.length_cons, List.length_nil] at this
    rw [this]
    omega
  unfold request_header
  rw [hfind]
  simp only [Option.some_bind, Int.toNat_ofNat, hpos, hwr]
  rw [if_neg (by omega), if_neg (by omega), hk]
  simp only [Option.some_bind]
  rw [to_size_t_nat N.length (by omega), to_size_t_nat _ (by rw [hlenL]; omega),
    if_neg (by rw [hlenL]; omega)]
  simp only [hwr2, hskip]
  have hvl : to_size_t (((pre.length + (N ++ 58 :: 32 :: V).length : Nat) : Int) -
      ((pre.length + N.length + 2 + (V.takeWhile isspace).length : Nat) : Int)) =
      (V.dropWhile isspace).length := by
    have h1 : (V.takeWhile isspace).length + (V.dropWhile isspace).length = V.length := by
      rw [← List.length_append, List.takeWhile_append_dropWhile]
    have h2 : (((pre.length + (N ++ 58 :: 32 :: V).length : Nat) : Int) -
        ((pre.length + N.length + 2 + (V.takeWhile isspace).length : Nat) : Int)) =
        (((V.dropWhile isspace).length : Nat) : Int) := by
      rw [hlenL]; push_cast; omega
    rw [h2, to_size_t_nat _ (by omega)]
  rw [hvl]
  simp only [List.append_assoc, List.cons_append]

theorem calls_of_call_cons (r : route_ptr) (s c : Nat) (X Y : List event) (stH : Int) :
    calls_of (event.call r s c :: (X ++ event.ret stH :: Y)) = (r, s) :: calls_of (X ++ Y) := by
  simp [calls_of, calls_of_append]

theorem tame_test_handler : tame ews_route_test_handler := by
  refine ⟨fun _ _ _ => ⟨_, _, rfl⟩, fun u b d s => ?_⟩
  unfold ews_route_test_handler
  split_ifs <;> simp [short_sends, bytes]

/-- C27: for `GET / HTTP/1.1`, `Host: x` and the blank line, received in one piece on a
fresh connection of a server without routes whose transport accepts every write: after
`do_read` and one `do_write` the bytes on the wire are exactly the 404 response, and the
handler invoked is the built-in 404 handler throughout: it returns `FOUND` at
`REQUEST_BEGIN`, `NEXT` for the header line, and `DONE` at `RESPONSE_BEGIN`, having been
notified at `FINALIZE` by the `error` operation it called. -/
theorem scenario_not_found :
    (writes_done 1 1 (do_read 1 (fresh_engine [] 64 [])
        (received "GET / HTTP/1.1\r\nHost: x\r\n\r\n"))).map
        (fun e => (text e.sock.wire, e.events, e.block)) =
      some ("HTTP/1.1 404 Not Found\r\nContent-Type: text/html\r\nContent-Length: 18\r\n\r\n<h1>Not Found</h1>",
        [event.call route_ptr.r404 EWS_SESS_REQUEST_BEGIN 1, event.ret EWS_ROUTE_STATUS_FOUND,
          event.call route_ptr.r404 EWS_SESS_REQUEST_HEADER 0, event.ret EWS_ROUTE_STATUS_NEXT,
          event.call route_ptr.r404 EWS_SESS_RESPONSE_BEGIN 0,
          event.call route_ptr.r404 EWS_HTTP_FINALIZE 0, event.ret EWS_ROUTE_STATUS_DONE,
          event.ret EWS_ROUTE_STATUS_DONE],
        zero_block) ∧
    accepts (fresh_engine [] 64 []).sock := by
  refine ⟨by decide, by decide, fun _ => ⟨2 ^ 64, rfl, le_refl _⟩⟩

/-- C28: for `GET /foo?bar=1 HTTP/1.1`, `Host: x`, `Connection: close` and the blank
line, received in one piece on a fresh connection with the single route `/foo` whose
handler is the demo handler of src/route.c, over a transport that accepts every write:
after `do_read` and three `do_write` steps the bytes on the wire are exactly the status
line, the `Transfer-Encoding` header, the blank line and one chunk of 12 bytes; the
handler returned `FOUND`, `NEXT` for each of the two header lines, `NEXT`, `NEXT` and
`DONE`, and was then notified at `FINALIZE`. -/
theorem scenario_chunked_hello :
    (writes_done 1 3 (do_read 1 (fresh_engine [⟨bytes "/foo", ews_route_test_handler⟩] 64 [])
        (received "GET /foo?bar=1 HTTP/1.1\r\nHost: x\r\nConnection: close\r\n\r\n"))).map
        (fun e => (text e.sock.wire, calls_of e.events, rets_of e.events, e.block)) =
      some ("HTTP/1.1 200 OK\r\nTransfer-Encoding: chunked\r\n\r\nC\r\nHello world!\r\n",
        [(route_ptr.user 0, EWS_SESS_REQUEST_BEGIN), (route_ptr.user 0, EWS_SESS_REQUEST_HEADER),
          (route_ptr.user 0, EWS_SESS_REQUEST_HEADER), (route_ptr.user 0, EWS_SESS_RESPONSE_BEGIN),
          (route_ptr.user 0, EWS_SESS_RESPONSE_HEADER), (route_ptr.user 0, EWS_SESS_RESPONSE_BODY),
          (route_ptr.user 0, EWS_HTTP_FINALIZE)],
        [EWS_ROUTE_STATUS_FOUND, EWS_ROUTE_STATUS_NEXT, EWS_ROUTE_STATUS_NEXT,
          EWS_ROUTE_STATUS_NEXT, EWS_ROUTE_STATUS_NEXT, EWS_ROUTE_STATUS_DONE,
          EWS_ROUTE_STATUS_DONE],
        zero_block) ∧
    accepts (fresh_engine [⟨bytes "/foo", ews_route_test_handler⟩] 64 []).sock := by
  refine ⟨by decide, by decide, fun _ => ⟨2 ^ 64, rfl, le_refl _⟩⟩

/-- C29 (as stated, refuted): in both scenarios the request is finalized with keepalive
still set (HTTP/1.1 set it, nothing cleared it), so the transport is not shut down and
pend-close is not set: the socket flags are what they were at connection time, and the
session wants to read the next request. -/
theorem scenarios_keep_connection_open :
    (writes_done 1 1 (do_read 1 (fresh_engine [] 64 [])
        (received "GET / HTTP/1.1\r\nHost: x\r\n\r\n"))).map
        (fun e => (e.block, e.sock.flags &&& EWS_SOCK_FLAG_SHUTDOWN, e.sock.shutdowns,
          decide (pend e.sock), want_read e)) =
      some (zero_block, 0, 0, false, true) ∧
    (writes_done 1 3 (do_read 1 (fresh_engine [⟨bytes "/foo", ews_route_test_handler⟩] 64 [])
        (received "GET /foo?bar=1 HTTP/1.1\r\nHost: x\r\nConnection: close\r\n\r\n"))).map
        (fun e => (e.block, e.sock.flags &&& EWS_SOCK_FLAG_SHUTDOWN, e.sock.shutdowns,
          decide (pend e.sock), want_read e)) =
      some (zero_block, 0, 0, false, true) := by
  refine ⟨by decide, by decide⟩

/-- C29 (amended): the connection is closed after the response exactly when keepalive is
clear at the time the request is finalized.  For the two scenarios sent as HTTP/1.0
requests, and for the second scenario when the handler also sends the response header
`Connection: close`, the transport has been shut down, once, when the request is
finalized.  For the two scenarios as HTTP/1.1 requests the transport has not been shut
down and pend-close is not set. -/
theorem scenarios_close_without_keepalive :
    (writes_done 1 1 (do_read 1 (fresh_engine [] 64 [])
        (received "GET / HTTP/1.0\r\nHost: x\r\n\r\n"))).map
        (fun e => (e.block, decide (e.sock.flags &&& EWS_SOCK_FLAG_SHUTDOWN ≠ 0),
          e.sock.shutdowns)) =
      some (zero_block, true, 1) ∧
    (writes_done 1 3 (do_read 1 (fresh_engine [⟨bytes "/foo", ews_route_test_handler⟩] 64 [])
        (received "GET /foo?bar=1 HTTP/1.0\r\nHost: x\r\nConnection: close\r\n\r\n"))).map
        (fun e => (e.block, decide (e.sock.flags &&& EWS_SOCK_FLAG_SHUTDOWN ≠ 0),
          e.sock.shutdowns)) =
      some (zero_block, true, 1) ∧
    (writes_done 1 3 (do_read 1 (fresh_engine [⟨bytes "/foo", closing_handler⟩] 64 [])
        (received "GET /foo?bar=1 HTTP/1.1\r\nHost: x\r\nConnection: close\r\n\r\n"))).map
        (fun e => (e.block, decide (e.sock.flags &&& EWS_SOCK_FLAG_SHUTDOWN ≠ 0),
          e.sock.shutdowns, text e.sock.wire)) =
      some (zero_block, true, 1,
        "HTTP/1.1 200 OK\r\nConnection: close\r\nTransfer-Encoding: chunked\r\n\r\nC\r\nHello world!\r\n") ∧
    (writes_done 1 1 (do_read 1 (fresh_engine [] 64 [])
        (received "GET / HTTP/1.1\r\nHost: x\r\n\r\n"))).map
        (fun e => (e.block, decide (e.sock.flags &&& EWS_SOCK_FLAG_SHUTDOWN ≠ 0),
          e.sock.shutdowns, decide (pend e.sock))) =
      some (zero_block, false, 0, false) ∧
    (writes_done 1 3 (do_read 1 (fresh_engine [⟨bytes "/foo", ews_route_test_handler⟩] 64 [])
        (received "GET /foo?bar=1 HTTP/1.1\r\nHost: x\r\nConnection: close\r\n\r\n"))).map
        (fun e => (e.block, decide (e.sock.flags &&& EWS_SOCK_FLAG_SHUTDOWN ≠ 0),
          e.sock.shutdowns, decide (pend e.sock))) =
      some (zero_block, false, 0, false) := by
  refine ⟨by decide, by decide, by decide, by decide, by decide⟩

/-- C30: when the version token is unknown, `http_error` is called while the version of
the block is still 0.9, the value of a zeroed block, and its guard `version > 0.9` keeps
it from writing.  For `GET / HTTP/2.0` on a fresh connection nothing is written at all;
no handler is invoked and pend-close is set, as claimed. -/
theorem version_not_supported_writes_nothing :
    (do_read 1 (fresh_engine [] 64 []) (received "GET / HTTP/2.0\r\n")).map
        (fun e => (e.sock.wire, e.sock.sends, e.events, decide (pend e.sock), e.block)) =
      some ([], 0, [], true, { zero_block with request_buflen := 14 }) ∧
    (request_begin 1 (fresh_engine [⟨bytes "/*", ews_route_test_handler⟩] 64
        (bytes "GET / HTTP/2.0\r\n"))).map
        (fun r => (r.2, r.1.sock.wire, r.1.events, decide (pend r.1.sock))) =
      some (true, [], [], true) := by
  refine ⟨by decide, by decide⟩

/-- C24: `http_send` clamps only while the outstanding length is positive; at 0 it
writes everything, as without a declared length.  After `Content-Length: 2` the calls
`send("OK")` and `send("XYZ")` write two and three bytes and return 2 and 3: five payload
bytes for a declared length of 2; after `send("OKAY")`, clamped to `OK`, the same happens.
After `Content-Length: 0` the call `send("Hi")` writes two bytes and returns 2. -/
theorem send_overruns_declared_length :
    (writes_done 1 3 (do_read 1 (fresh_engine [⟨bytes "/",
        content_length_handler (bytes "2") (bytes "OK") (bytes "XYZ")⟩] 64 [])
        (received "GET / HTTP/1.1\r\n\r\n"))).map (fun e => (text e.sock.wire, e.user)) =
      some ("HTTP/1.1 200 OK\r\nContent-Length: 2\r\n\r\nOKXYZ", [2, 3]) ∧
    (writes_done 1 3 (do_read 1 (fresh_engine [⟨bytes "/",
        content_length_handler (bytes "2") (bytes "OKAY") (bytes "XYZ")⟩] 64 [])
        (received "GET / HTTP/1.1\r\n\r\n"))).map (fun e => (text e.sock.wire, e.user)) =
      some ("HTTP/1.1 200 OK\r\nContent-Length: 2\r\n\r\nOKXYZ", [2, 3]) ∧
    (writes_done 1 3 (do_read 1 (fresh_engine [⟨bytes "/",
        content_length_handler (bytes "0") (bytes "Hi") []⟩] 64 [])
        (received "GET / HTTP/1.1\r\n\r\n"))).map (fun e => (text e.sock.wire, e.user)) =
      some ("HTTP/1.1 200 OK\r\nContent-Length: 0\r\n\r\nHi", [2, 0]) := by
  refine ⟨by decide, by decide, by decide⟩

/-! ## Theorems: `http_header` at `RESPONSE_HEADER` -/

theorem strcaseeq_exclusive (name a b : List Nat) (ha : strcaseeq name a = true)
    (hab : (a.map tolower == b.map tolower) = false) : strcaseeq name b = false := by
  unfold strcaseeq at ha ⊢
  have h1 : name.map tolower = a.map tolower := by simpa using ha
  rw [h1]
  exact hab

theorem dropWhile_isspace_digits (v : List Nat) (hd : v.all isdigit = true) :
    v.dropWhile isspace = v := by
  cases v with
  | nil => rfl
  | cons c t =>
    have hc : isdigit c = true := by
      simp only [List.all_cons, Bool.and_eq_true] at hd
      exact hd.1
    have hs : isspace c = false := by
      simp only [isdigit, Bool.and_eq_true, decide_eq_true_eq] at hc
      simp only [isspace, Bool.or_eq_false_iff, Bool.and_eq_false_iff, decide_eq_false_iff_not]
      omega
    rw [List.dropWhile_cons, hs]
    rfl

theorem strtol10_digits (v : List Nat) (hd : v.all isdigit = true) (hv : decimal v < 2 ^ 63) :
    strtol10 v = (decimal v : Int) := by
  have hh : v.head? ≠ some 45 ∧ v.head? ≠ some 43 := by
    cases v with
    | nil => simp
    | cons c t =>
      have hc : isdigit c = true := by
        simp only [List.all_cons, Bool.and_eq_true] at hd
        exact hd.1
      simp only [isdigit, Bool.and_eq_true, decide_eq_true_eq] at hc
      simp only [List.head?_cons, ne_eq, Option.some.injEq]
      omega
  have ht : v.takeWhile isdigit = v := by
    rw [List.takeWhile_eq_self_iff]
    intro x hx
    exact (List.all_eq_true.mp hd) x hx
  unfold strtol10
  simp only [dropWhile_isspace_digits v hd, hh.1, hh.2, or_self, if_false, ht, decide_False,
    Bool.false_eq_true]
  have hv2 : ¬ List.foldl (fun a d => a * 10 + (d - 48)) 0 v ≥ 2 ^ 63 := by
    unfold decimal at hv
    omega
  rw [if_neg hv2]
  rfl

/-- C21: at `RESPONSE_HEADER`, over a transport that accepts every write,
`header(name, value)` writes exactly `<name>: <value>` and `CRLF` in one write, and of the
session changes at most the flags and the outstanding response length of the block.  The
name is compared without regard to case, the value is searched as it is.  For the name
`Connection`: a value containing `close` clears keepalive, otherwise a value containing
`keep-alive` sets it, otherwise the block is unchanged.  For the name `Content-Length`:
the outstanding length becomes the value that `strtol` reads, converted to `size_t`; for a
string of digits that denotes a number below 2^63 this is the number.  For the name
`Transfer-Encoding`: a value containing `chunked` sets response-chunked, another value
changes nothing.  For every other name the block is unchanged. -/
theorem http_header_response_header (fuel : Nat) (e : engine) (name value : List Nat)
    (hs : e.block.state = EWS_SESS_RESPONSE_HEADER) (ha : accepts e.sock)
    (hl : name.length + value.length + 4 ≤ 2 ^ 64) :
    ∃ b1 : http_block,
      http_header (finalize fuel) e name value =
        some { e with
          sock := { e.sock with
            sends := e.sock.sends + 1
            wire := e.sock.wire ++ (name ++ bytes ": " ++ value ++ [13, 10]) }
          block := b1 } ∧
      (strcaseeq name (bytes "Connection") = true →
        (contains_sub value (bytes "close") = true →
          b1 = { e.block with flags := e.block.flags &&& (255 - EWS_HTTP_FLAGS_KEEPALIVE) }) ∧
        (contains_sub value (bytes "close") = false →
          contains_sub value (bytes "keep-alive") = true →
          b1 = { e.block with flags := e.block.flags ||| EWS_HTTP_FLAGS_KEEPALIVE }) ∧
        (contains_sub value (bytes "close") = false →
          contains_sub value (bytes "keep-alive") = false → b1 = e.block)) ∧
      (strcaseeq name (bytes "Content-Length") = true →
        b1 = { e.block with response_length := to_size_t (strtol10 value) } ∧
        (value.all isdigit = true → decimal value < 2 ^ 63 →
          b1 = { e.block with response_length := decimal value })) ∧
      (strcaseeq name (bytes "Transfer-Encoding") = true →
        (contains_sub value (bytes "chunked") = true →
          b1 = { e.block with flags := e.block.flags ||| EWS_HTTP_FLAGS_RESPONSE_CHUNKED }) ∧
        (contains_sub value (bytes "chunked") = false → b1 = e.block)) ∧
      (strcaseeq name (bytes "Connection") = false →
        strcaseeq name (bytes "Content-Length") = false →
        strcaseeq name (bytes "Transfer-Encoding") = false → b1 = e.block) := by
  have hlen : (name ++ bytes ": " ++ value ++ [13, 10]).length ≤ 2 ^ 64 := by
    have h2 : (bytes ": ").length = 2 := by decide
    simp only [List.length_append, h2, List.length_cons, List.length_nil]
    omega
  have hsend : ∀ b1 : http_block,
      (http_raw_send (finalize fuel) { e with block := b1 }
          (name ++ bytes ": " ++ value ++ [13, 10])).map Prod.fst =
        some { e with
          sock := { e.sock with
            sends := e.sock.sends + 1
            wire := e.sock.wire ++ (name ++ bytes ": " ++ value ++ [13, 10]) }
          block := b1 } := by
    intro b1
    rw [http_raw_send_accepts (finalize fuel) { e with block := b1 } _ ha hlen]
    rfl
  unfold http_header
  rw [if_neg (by rw [hs]; exact fun h => h rfl)]
  dsimp only
  by_cases hc : strcaseeq name (bytes "Connection") = true
  · have h2 := strcaseeq_exclusive name _ (bytes "Content-Length") hc (by decide)
    have h3 := strcaseeq_exclusive name _ (bytes "Transfer-Encoding") hc (by decide)
    rw [if_pos hc]
    refine ⟨_, hsend _, fun _ => ⟨fun h => ?_, fun h h' => ?_, fun h h' => ?_⟩,
      fun h => ?_, fun h => ?_, fun h => ?_⟩
    · rw [if_pos h]
    · rw [if_neg (by rw [h]; decide), if_pos h']
    · rw [if_neg (by rw [h]; decide), if_neg (by rw [h']; decide)]
    · rw [h2] at h; exact absurd h (by decide)
    · rw [h3] at h; exact absurd h (by decide)
    · rw [hc] at h; exact absurd h (by decide)
  · rw [if_neg hc]
    by_cases hcl : strcaseeq name (bytes "Content-Length") = true
    · have h3 := strcaseeq_exclusive name _ (bytes "Transfer-Encoding") hcl (by decide)
      rw [if_pos hcl]
      refine ⟨_, hsend _, fun h => absurd h hc, fun _ => ⟨rfl, fun hd hv => ?_⟩,
        fun h => ?_, fun _ h => ?_⟩
      · rw [strtol10_digits value hd hv, to_size_t_nat _ (by omega)]
      · rw [h3] at h; exact absurd h (by decide)
      · rw [hcl] at h; exact absurd h (by decide)
    · rw [if_neg hcl]
      by_cases hte : strcaseeq name (bytes "Transfer-Encoding") = true
      · rw [if_pos hte]
        refine ⟨_, hsend _, fun h => absurd h hc, fun h => absurd h hcl,
          fun _ => ⟨fun h => ?_, fun h => ?_⟩, fun _ _ h => ?_⟩
        · rw [if_pos h]
        · rw [if_neg (by rw [h]; decide)]
        · rw [hte] at h; exact absurd h (by decide)
      · rw [if_neg hte]
        exact ⟨_, hsend _, fun h => absurd h hc, fun h => absurd h hcl,
          fun h => absurd h hte, fun _ _ _ => rfl⟩
theorem http_header_response_header_witness :
    (sample_engine [] EWS_SESS_RESPONSE_HEADER).block.state = EWS_SESS_RESPONSE_HEADER ∧
    accepts (sample_engine [] EWS_SESS_RESPONSE_HEADER).sock ∧
    http_header (finalize 1) (sample_engine [] EWS_SESS_RESPONSE_HEADER)
        (bytes "content-length") (bytes "18") =
      some { sample_engine [] EWS_SESS_RESPONSE_HEADER with
        sock := { (sample_engine [] EWS_SESS_RESPONSE_HEADER).sock with
          sends := 1
          wire := bytes "content-length: 18\r\n" }
        block := { (sample_engine [] EWS_SESS_RESPONSE_HEADER).block with
          response_length := 18 } } := by
  have ha : accepts (sample_engine [] EWS_SESS_RESPONSE_HEADER).sock :=
    ⟨by decide, fun _ => ⟨2 ^ 64, rfl, le_refl _⟩⟩
  refine ⟨rfl, ha, ?_⟩
  obtain ⟨b1, h1, _, h3, _⟩ :=
    http_header_response_header 1 (sample_engine [] EWS_SESS_RESPONSE_HEADER)
      (bytes "content-length") (bytes "18") rfl ha (by decide)
  rw [h1, (h3 (by decide)).2 (by decide) (by decide)]
  rfl

/-! ## Theorems: `http_send` at `RESPONSE_BODY` -/

theorem hex_upper_length (n : Nat) (h : n < 2 ^ 32) : (hex_upper n).length ≤ 8 := by
  unfold hex_upper Nat.toDigits
  rw [List.length_map]
  exact Nat.toDigitsCore_length 16 (by decide) (n + 1) n 8 (by
    have : (16 : Nat) ^ 8 = 2 ^ 32 := by norm_num
    omega) (by decide)

/-- C22: at `RESPONSE_BODY` with response-chunked set, over a transport that accepts every
write, `send(buf, len)` with `len < 2^32` writes the upper-case hexadecimal digits of
`len`, `CRLF`, the `len` bytes of `buf` and `CRLF`, in three writes, changes nothing else,
and returns the number of hexadecimal digits plus `len` plus 4; there are at most 8
digits.  For `len = 0` it writes exactly `0`, `CRLF`, `CRLF` and returns 5. -/
theorem http_send_chunked (fuel : Nat) (e : engine) (buf : List Nat)
    (hs : e.block.state = EWS_SESS_RESPONSE_BODY)
    (hc : e.block.flags &&& EWS_HTTP_FLAGS_RESPONSE_CHUNKED ≠ 0) (ha : accepts e.sock)
    (hl : buf.length < 2 ^ 32) :
    http_send (finalize fuel) e buf =
      some ({ e with sock := { e.sock with
          sends := e.sock.sends + 3
          wire := e.sock.wire ++ (hex_upper buf.length ++ [13, 10] ++ buf ++ [13, 10]) } },
        (((hex_upper buf.length).length + buf.length + 4 : Nat) : Int)) ∧
    (hex_upper buf.length).length ≤ 8 ∧
    (buf = [] →
      http_send (finalize fuel) e buf =
        some ({ e with sock := { e.sock with
          sends := e.sock.sends + 3
          wire := e.sock.wire ++ bytes "0\r\n\r\n" } }, 5)) := by
  have hx := hex_upper_length buf.length hl
  have main : http_send (finalize fuel) e buf =
      some ({ e with sock := { e.sock with
          sends := e.sock.sends + 3
          wire := e.sock.wire ++ (hex_upper buf.length ++ [13, 10] ++ buf ++ [13, 10]) } },
        (((hex_upper buf.length).length + buf.length + 4 : Nat) : Int)) := by
    have h1 := sock_send_accepts e.sock (hex_upper buf.length ++ [13, 10]) ha (by
      simp only [List.length_append, List.length_cons, List.length_nil]; omega)
    have ha1 := accepts_sent e.sock (hex_upper buf.length ++ [13, 10]) ha
    have h2 := sock_send_accepts _ buf ha1 (by omega)
    have ha2 := accepts_sent _ buf ha1
    have h3 := sock_send_accepts _ [13, 10] ha2 (by simp)
    unfold http_send
    rw [if_neg (by rw [hs]; exact fun h => h rfl), if_pos hc, if_pos hl]
    simp only [h1]
    rw [if_neg (by omega)]
    unfold http_send_body
    simp only [h2]
    rw [if_neg (by omega), if_pos hc]
    simp only [h3]
    rw [if_neg (by simp)]
    simp only [sent, List.length_append, List.length_cons, List.length_nil, List.append_assoc,
      Nat.cast_add, Nat.cast_ofNat]
    refine congrArg some (Prod.ext ?_ ?_)
    · rfl
    · simp only
      push_cast
      omega
  refine ⟨main, hx, fun hb => ?_⟩
  rw [main]
  subst hb
  rfl

theorem http_send_chunked_witness :
    (sample_engine [] EWS_SESS_RESPONSE_BODY).block.state = EWS_SESS_RESPONSE_BODY ∧
    accepts (sample_engine [] EWS_SESS_RESPONSE_BODY).sock ∧
    http_send (finalize 1)
        { sample_engine [] EWS_SESS_RESPONSE_BODY with
          block := { (sample_engine [] EWS_SESS_RESPONSE_BODY).block with
            flags := EWS_HTTP_FLAGS_KEEPALIVE ||| EWS_HTTP_FLAGS_RESPONSE_CHUNKED } }
        (bytes "Hello world!") =
      some ({ sample_engine [] EWS_SESS_RESPONSE_BODY with
          block := { (sample_engine [] EWS_SESS_RESPONSE_BODY).block with
            flags := EWS_HTTP_FLAGS_KEEPALIVE ||| EWS_HTTP_FLAGS_RESPONSE_CHUNKED }
          sock := { (sample_engine [] EWS_SESS_RESPONSE_BODY).sock with
            sends := 3
            wire := bytes "C\r\nHello world!\r\n" } }, 17) :=
  ⟨rfl, ⟨by decide, fun _ => ⟨2 ^ 64, rfl, le_refl _⟩⟩,
    (http_send_chunked 1
      { sample_engine [] EWS_SESS_RESPONSE_BODY with
        block := { (sample_engine [] EWS_SESS_RESPONSE_BODY).block with
          flags := EWS_HTTP_FLAGS_KEEPALIVE ||| EWS_HTTP_FLAGS_RESPONSE_CHUNKED } }
      (bytes "Hello world!") rfl (by decide) ⟨by decide, fun _ => ⟨2 ^ 64, rfl, le_refl _⟩⟩
      (by decide)).1⟩

/-- C23: at `RESPONSE_BODY` with response-chunked clear and an outstanding response length
`R > 0`, over a transport that accepts every write, `send(buf, len)` writes exactly the
first `min(len, R)` bytes of `buf` in one write, returns `min(len, R)`, leaves the
outstanding length at `R - min(len, R)`, and changes nothing else. -/
theorem http_send_content_length (fuel : Nat) (e : engine) (buf : List Nat)
    (hs : e.block.state = EWS_SESS_RESPONSE_BODY)
    (hc : e.block.flags &&& EWS_HTTP_FLAGS_RESPONSE_CHUNKED = 0)
    (hR : 0 < e.block.response_length) (ha : accepts e.sock) (hl : buf.length < 2 ^ 64) :
    http_send (finalize fuel) e buf =
      some ({ e with
          sock := { e.sock with
            sends := e.sock.sends + 1
            wire := e.sock.wire ++ buf.take (min buf.length e.block.response_length) }
          block := { e.block with
            response_length :=
              e.block.response_length - min buf.length e.block.response_length } },
        ((min buf.length e.block.response_length : Nat) : Int)) := by
  have hlen : (buf.take (min buf.length e.block.response_length)).length =
      min buf.length e.block.response_length := by
    rw [List.length_take]
    omega
  have h1 := sock_send_accepts e.sock (buf.take (min buf.length e.block.response_length)) ha
    (by rw [hlen]; omega)
  unfold http_send
  rw [if_neg (by rw [hs]; exact fun h => h rfl), if_neg (by rw [hc]; exact fun h => h rfl),
    if_pos hR]
  unfold http_send_body
  simp only [h1]
  rw [if_neg (by omega), if_neg (by rw [hc]; exact fun h => h rfl), if_pos hR]
  simp only [hlen, sent, Int.toNat_ofNat, zero_add]

theorem http_send_content_length_witness :
    (sample_engine [] EWS_SESS_RESPONSE_BODY).block.state = EWS_SESS_RESPONSE_BODY ∧
    accepts (sample_engine [] EWS_SESS_RESPONSE_BODY).sock ∧
    http_send (finalize 1)
        { sample_engine [] EWS_SESS_RESPONSE_BODY with
          block := { (sample_engine [] EWS_SESS_RESPONSE_BODY).block with response_length := 5 } }
        (bytes "Hello world!") =
      some ({ sample_engine [] EWS_SESS_RESPONSE_BODY with
          block := { (sample_engine [] EWS_SESS_RESPONSE_BODY).block with response_length := 0 }
          sock := { (sample_engine [] EWS_SESS_RESPONSE_BODY).sock with
            sends := 1
            wire := bytes "Hello" } }, 5) :=
  ⟨rfl, ⟨by decide, fun _ => ⟨2 ^ 64, rfl, le_refl _⟩⟩,
    http_send_content_length 1
      { sample_engine [] EWS_SESS_RESPONSE_BODY with
        block := { (sample_engine [] EWS_SESS_RESPONSE_BODY).block with response_length := 5 } }
      (bytes "Hello world!") rfl (by decide) (by decide)
      ⟨by decide, fun _ => ⟨2 ^ 64, rfl, le_refl _⟩⟩ (by decide)⟩

/-! ## Theorems: `finalize` -/

/-- C25: `finalize` is idempotent.  For every session state, with the route null or with
a handler that performs no session operation when invoked at `FINALIZE`, `finalize`
returns, and applying it to its result gives the result back unchanged: session, socket
flags, bytes on the wire and handler invocations are those of the first application.  The
result is at `REQUEST_BEGIN`. -/
theorem finalize_idempotent (fuel : Nat) (e : engine)
    (hq : e.block.route ≠ route_ptr.null →
      ∃ h, route_handler e e.block.route = some h ∧ quiet_at_finalize h) :
    ∃ e1, finalize (fuel + 1) e = some e1 ∧
      (finalize (fuel + 1) e).bind (finalize (fuel + 1)) = some e1 ∧
      (∀ fuel2, finalize fuel2 e1 = some e1) ∧
      e1.block.state = EWS_SESS_REQUEST_BEGIN := by
  have key : ∃ e1, finalize (fuel + 1) e = some e1 ∧ e1.block.state = EWS_SESS_REQUEST_BEGIN := by
    by_cases h0 : e.block.state = EWS_SESS_REQUEST_BEGIN
    · exact ⟨e, finalize_request_begin _ e h0, h0⟩
    · by_cases hn : e.block.route = route_ptr.null
      · refine ⟨finalize_end e, by simp only [finalize, if_neg h0, if_pos hn], ?_⟩
        unfold finalize_end
        split <;> rfl
      · obtain ⟨h, hr, hh⟩ := hq hn
        obtain ⟨st, u1, hp⟩ := hh e.user e.buf e.sess
        exact ⟨_, finalize_quiet fuel e h st u1 h0 hr hp, rfl⟩
  obtain ⟨e1, h1, h2⟩ := key
  refine ⟨e1, h1, ?_, fun fuel2 => finalize_request_begin fuel2 e1 h2, h2⟩
  rw [h1]
  exact finalize_request_begin _ e1 h2

theorem finalize_idempotent_witness :
    (∃ h, route_handler (sample_engine [⟨bytes "/foo", ews_route_test_handler⟩]
        EWS_SESS_RESPONSE_BODY) (route_ptr.user 0) = some h ∧ quiet_at_finalize h) ∧
    ∃ e1, finalize 1 (sample_engine [⟨bytes "/foo", ews_route_test_handler⟩]
        EWS_SESS_RESPONSE_BODY) = some e1 ∧
      (finalize 1 (sample_engine [⟨bytes "/foo", ews_route_test_handler⟩]
        EWS_SESS_RESPONSE_BODY)).bind (finalize 1) = some e1 ∧
      (∀ fuel2, finalize fuel2 e1 = some e1) ∧
      e1.block.state = EWS_SESS_REQUEST_BEGIN :=
  ⟨⟨ews_route_test_handler, rfl, tame_test_handler.1⟩,
    finalize_idempotent 0 (sample_engine [⟨bytes "/foo", ews_route_test_handler⟩]
      EWS_SESS_RESPONSE_BODY) (fun _ => ⟨ews_route_test_handler, rfl, tame_test_handler.1⟩)⟩

/-- C31: a request line that fills the buffer without `CRLF` is answered while the
version of the block is still 0.9, so the guard of `http_error` keeps the `414` from
being written: with 63 and with 64 bytes in a buffer of 64 nothing reaches the transport;
pend-close is set and no handler is invoked.  A header line that fills the buffer
without `CRLF` (here after `GET / HTTP/1.1`, in state `REQUEST_HEADER`) is answered with
the `431` response, and pend-close is set. -/
theorem uri_too_long_writes_nothing :
    (do_read 1 (fresh_engine [] 64 [])
        [⟨os_recv.data (bytes "GET /" ++ List.replicate 58 97), 0⟩]).map
        (fun e => (e.sock.wire, e.sock.sends, e.events, decide (pend e.sock), e.buflen)) =
      some ([], 0, [], true, 63) ∧
    (do_read 1 (fresh_engine [] 64 [])
        [⟨os_recv.data (bytes "GET /" ++ List.replicate 59 97), 0⟩]).map
        (fun e => (e.sock.wire, e.sock.sends, e.events, decide (pend e.sock), e.buflen)) =
      some ([], 0, [], true, 64) ∧
    ((do_read 1 (fresh_engine [⟨bytes "/", ews_route_test_handler⟩] 64 [])
        (received "GET / HTTP/1.1\r\n")).bind fun e =>
          do_read 1 e [⟨os_recv.data (bytes "X: " ++ List.replicate 60 97), 0⟩]).map
        (fun e => (text e.sock.wire, decide (pend e.sock), e.buflen, e.block)) =
      some ("HTTP/1.1 431 Request Header Fields Too Large\r\nContent-Type: text/html\r\nContent-Length: 40\r\n\r\n<h1>Request Header Fields Too Large</h1>",
        true, 63, zero_block) := by
  refine ⟨by decide, by decide, by decide⟩

/-- C35: on the plain transport a `send` that would block sets pend-close, like a reset
and like any other failure, and returns -1: the test `if (errno = ECONNRESET)` assigns,
so the `EAGAIN` branch is never reached.  On the TLS transport a write that would block
returns -1 and leaves the flags as they were. -/
theorem plain_send_would_block_sets_pend_close :
    (sock_send { (fresh_engine [] 64 []).sock with net := fun _ => os_send.would_block }
        (bytes "x")).2 = -1 ∧
    (sock_send { (fresh_engine [] 64 []).sock with net := fun _ => os_send.would_block }
        (bytes "x")).1.flags =
      (fresh_engine [] 64 []).sock.flags ||| EWS_SOCK_FLAG_PEND_CLOSE ∧
    pend (sock_send { (fresh_engine [] 64 []).sock with net := fun _ => os_send.would_block }
        (bytes "x")).1 ∧
    ¬ pend (fresh_engine [] 64 []).sock ∧
    (sock_send { (fresh_engine [] 64 []).sock with net := fun _ => os_send.reset }
        (bytes "x")).2 = -1 ∧
    pend (sock_send { (fresh_engine [] 64 []).sock with net := fun _ => os_send.reset }
        (bytes "x")).1 ∧
    (sock_send { (fresh_engine [] 64 []).sock with
        ops := transport.tls, net := fun _ => os_send.would_block } (bytes "x")).2 = -1 ∧
    (sock_send { (fresh_engine [] 64 []).sock with
        ops := transport.tls, net := fun _ => os_send.would_block } (bytes "x")).1.flags =
      (fresh_engine [] 64 []).sock.flags := by
  refine ⟨by decide, by decide, by decide, by decide, by decide, by decide, by decide, by decide⟩

/-- C39: when the write of the `CRLF` that ends the response headers fails, `finalize`
zeroes the block and `call_handler` then stores `RESPONSE_BODY` in it: the state is not
`REQUEST_BEGIN` and the route is null.  Over TLS with a third write that would block,
pend-close is not set and the session asks to write; the next `do_write` calls the
handler through the null route, which has no defined result. -/
theorem null_route_in_response_body :
    (writes_done 1 2 (do_read 1 (blocking_engine [⟨bytes "/foo", ews_route_test_handler⟩] 2)
        (received "GET /foo HTTP/1.1\r\n\r\n"))).map
        (fun e => (e.block.state, e.block.route, decide (pend e.sock), want_write e,
          text e.sock.wire)) =
      some (EWS_SESS_RESPONSE_BODY, route_ptr.null, false, true,
        "HTTP/1.1 200 OK\r\nTransfer-Encoding: chunked\r\n") ∧
    (writes_done 1 3 (do_read 1 (blocking_engine [⟨bytes "/foo", ews_route_test_handler⟩] 2)
        (received "GET /foo HTTP/1.1\r\n\r\n"))).isSome = false := by
  refine ⟨by decide, by decide⟩

/-- C40: `request_begin` sets `path` but resets neither `path_len` nor `query` nor
`query_len`, which share their storage with the name length and the value of the last
header.  After the request `GET /a HTTP/1.1` with the header `Host: x` on a kept
connection, the handler is shown for `GET /b HTTP/1.1` a `path_len` of 6 (4 for `Host`
plus 2), a query that is set and a `query_len` of 1; the same request as the first one on
a connection is shown `path_len` 2, a null query and `query_len` 0. -/
theorem second_request_inherits_lengths :
    ((writes_done 1 3 (do_read 1 (fresh_engine [⟨bytes "/*", recording_handler⟩] 64 [])
        (received "GET /a HTTP/1.1\r\nHost: x\r\n\r\n"))).bind fun e =>
          do_read 1 e (received "GET /b HTTP/1.1\r\n\r\n")).map
        (fun e => (e.user, e.sess.path_len, e.sess.query.isSome, e.sess.query_len)) =
      some ([2, 0, 0, 6, 1, 1], 6, true, 1) ∧
    (do_read 1 (fresh_engine [⟨bytes "/*", recording_handler⟩] 64 [])
        (received "GET /b HTTP/1.1\r\n\r\n")).map
        (fun e => (e.user, e.sess.path_len, e.sess.query.isSome, e.sess.query_len)) =
      some ([2, 0, 0], 2, false, 0) ∧
    (writes_done 1 3 (do_read 1 (fresh_engine [⟨bytes "/*", recording_handler⟩] 64 [])
        (received "GET /a HTTP/1.1\r\nHost: x\r\n\r\n"))).map
        (fun e => (e.block, e.bufpos, e.buflen, decide (pend e.sock), want_read e)) =
      some (zero_block, 0, 0, false, true) := by
  refine ⟨by decide, by decide, by decide⟩

/-! ## Theorems: `fnmatch` has no false positives -/

theorem fnmatch_star_star (p1 : List Nat) (pl : Option (List Nat)) :
    fnmatch_star (42 :: p1) pl = if p1 = [] then none else some (p1, some p1) := rfl

theorem glob_star_skip (q s : List Nat) (h : Glob q s) : Glob (42 :: q) s :=
  Glob.star [] s q h

theorem glob_star_absorb (q s : List Nat) (c : Nat) (h : Glob (42 :: q) s) :
    Glob (42 :: q) (c :: s) := by
  cases h with
  | star run rest _ hg => exact Glob.star (c :: run) rest q hg
  | lit _ _ _ h42 _ _ => exact absurd rfl h42

theorem glob_all (s : List Nat) : Glob [42] s := by
  have := Glob.star s [] [] Glob.nil
  rwa [List.append_nil] at this

theorem glob_byte (pc sc : Nat) (p s : List Nat) (hc : pc = sc ∨ pc = 63) (h : Glob p s) :
    Glob (pc :: p) (sc :: s) := by
  by_cases h63 : pc = 63
  · subst h63; exact Glob.one sc p s h
  · have hEq : pc = sc := by tauto
    subst hEq
    by_cases h42 : pc = 42
    · subst h42; exact Glob.star [42] s p h
    · exact Glob.lit pc p s h42 h63 h

/-- What a run of the loop of `fnmatch` that returns true has established: the rest of
the pattern matches the rest of the string, or the pattern from the last `*` on does. -/
theorem fnmatch_loop_sound : ∀ (s p : List Nat) (pl : Option (List Nat)),
    fnmatch_loop s p pl = true → Glob p s ∨ ∃ q, pl = some q ∧ Glob (42 :: q) s := by
  intro s
  induction s with
  | nil =>
    intro p pl h
    rcases p with _ | ⟨c, p1⟩
    · exact Or.inl Glob.nil
    · by_cases hc : c = 42
      · subst hc
        by_cases hp : p1 = []
        · subst hp; exact Or.inl (glob_all [])
        · exfalso
          unfold fnmatch_loop at h
          rw [fnmatch_star_star, if_neg hp] at h
          cases p1 with
          | nil => exact hp rfl
          | cons a b => simp at h
      · exfalso
        unfold fnmatch_loop at h
        rw [fnmatch_star_of_ne c p1 pl hc] at h
        simp at h
  | cons sc s1 ih =>
    intro p pl h
    rcases p with _ | ⟨c, p1⟩
    · exfalso
      unfold fnmatch_loop at h
      simp [fnmatch_star] at h
    · by_cases hc : c = 42
      · subst hc
        by_cases hp : p1 = []
        · subst hp; exact Or.inl (glob_all _)
        · left
          unfold fnmatch_loop at h
          rw [fnmatch_star_star, if_neg hp] at h
          rcases p1 with _ | ⟨pc, p2⟩
          · exact absurd rfl hp
          · simp only at h
            by_cases hm : pc = sc ∨ pc = 63
            · rw [if_pos hm] at h
              rcases ih p2 (some (pc :: p2)) h with hg | ⟨q, hq, hg⟩
              · exact glob_star_skip _ _ (glob_byte pc sc p2 s1 hm hg)
              · cases hq
                exact glob_star_absorb _ _ sc hg
            · rw [if_neg hm] at h
              rcases ih (pc :: p2) (some (pc :: p2)) h with hg | ⟨q, hq, hg⟩
              · exact glob_star_absorb _ _ sc (glob_star_skip _ _ hg)
              · cases hq
                exact glob_star_absorb _ _ sc hg
      · unfold fnmatch_loop at h
        rw [fnmatch_star_of_ne c p1 pl hc] at h
        simp only at h
        by_cases hm : c = sc ∨ c = 63
        · rw [if_pos hm] at h
          rcases ih p1 pl h with hg | ⟨q, hq, hg⟩
          · exact Or.inl (glob_byte c sc p1 s1 hm hg)
          · exact Or.inr ⟨q, hq, glob_star_absorb _ _ sc hg⟩
        · rw [if_neg hm] at h
          cases pl with
          | none => simp at h
          | some q =>
            right
            refine ⟨q, rfl, ?_⟩
            rcases ih q (some q) h with hg | ⟨q2, hq, hg⟩
            · exact glob_star_absorb _ _ sc (glob_star_skip _ _ hg)
            · cases hq
              exact glob_star_absorb _ _ sc hg

/-- C37: `fnmatch` has no false positives: whenever `fnmatch(pattern, string)` returns
true, the whole string matches the whole pattern in the glob dialect (`?` is one byte,
`*` is any run of bytes, also the empty one, every other byte is itself). -/
theorem fnmatch_no_false_positive (pattern string : List Nat)
    (h : fnmatch pattern string = true) : Glob pattern string := by
  rcases fnmatch_loop_sound string pattern none h with hg | ⟨q, hq, -⟩
  · exact hg
  · cases hq

theorem fnmatch_no_false_positive_witness :
    fnmatch (bytes "/a*/c?") (bytes "/ab/cd") = true ∧
    Glob (bytes "/a*/c?") (bytes "/ab/cd") :=
  ⟨by decide, fnmatch_no_false_positive (bytes "/a*/c?") (bytes "/ab/cd") (by decide)⟩

/-! ## Theorems: `find` returns the first occurrence and stays inside the buffer -/

theorem find_loop_reads_fst (mem : List Nat) (base hlen : Nat) (s : List Nat) :
    ∀ fuel i j, (find_loop_reads mem base hlen s fuel i j).map Prod.fst =
      find_loop mem base hlen s fuel i j := by
  intro fuel
  induction fuel with
  | zero => intro i j; rfl
  | succ fuel ih =>
    intro i j
    unfold find_loop_reads find_loop
    split_ifs
    · rfl
    · rw [Option.map_map, ← ih i (j + 1)]; rfl
    · rw [Option.map_map, ← ih (i + 1) 0]; rfl
    · rfl

theorem find_loop_reads_bound (mem : List Nat) (base hlen : Nat) (s : List Nat)
    (hs1 : 1 ≤ s.length) (hs2 : s.length < 2 ^ 64) (hle : s.length ≤ hlen) :
    ∀ fuel i j r reads, j < s.length →
      find_loop_reads mem base hlen s fuel i j = some (r, reads) → ∀ k ∈ reads, k < hlen := by
  have hmod : (s.length + 2 ^ 64 - 1) % 2 ^ 64 = s.length - 1 := by
    have : s.length + 2 ^ 64 - 1 = (s.length - 1) + 2 ^ 64 := by omega
    rw [this, Nat.add_mod_right, Nat.mod_eq_of_lt (by omega)]
  intro fuel
  induction fuel with
  | zero => intro i j r reads _ h; simp [find_loop_reads] at h
  | succ fuel ih =>
    intro i j r reads hj h k hk
    unfold find_loop_reads at h
    by_cases hi : i ≤ hlen - s.length
    · rw [if_pos hi] at h
      by_cases hm : rd mem (base + (i + j)) = rd s j
      · rw [if_pos hm] at h
        by_cases hlast : j = (s.length + 2 ^ 64 - 1) % 2 ^ 64
        · rw [if_pos hlast] at h
          simp only [Option.some.injEq, Prod.mk.injEq] at h
          rw [← h.2] at hk
          simp only [List.mem_singleton] at hk
          omega
        · rw [if_neg hlast] at h
          rw [hmod] at hlast
          cases hrec : find_loop_reads mem base hlen s fuel i (j + 1) with
          | none => rw [hrec] at h; simp at h
          | some q =>
            rw [hrec] at h
            simp only [Option.map_some', Option.some.injEq, Prod.mk.injEq] at h
            rw [← h.2] at hk
            rcases List.mem_cons.mp hk with rfl | hk2
            · omega
            · exact ih i (j + 1) q.1 q.2 (by omega) hrec k hk2
      · rw [if_neg hm] at h
        cases hrec : find_loop_reads mem base hlen s fuel (i + 1) 0 with
        | none => rw [hrec] at h; simp at h
        | some q =>
          rw [hrec] at h
          simp only [Option.map_some', Option.some.injEq, Prod.mk.injEq] at h
          rw [← h.2] at hk
          rcases List.mem_cons.mp hk with rfl | hk2
          · omega
          · exact ih (i + 1) 0 q.1 q.2 (by omega) hrec k hk2
    · rw [if_neg hi] at h
      simp only [Option.some.injEq, Prod.mk.injEq] at h
      rw [← h.2] at hk
      simp at hk

/-- C34: when `select` fails, `worker_loop` sets the shutdown flag of the worker and goes
on to `post_select`.  On the sample server with one connected client, a failing `select`
that leaves the descriptor sets as they were passed is followed by the `do_read` of the
listener (descriptor 3) and of the client (descriptor 5), and both `last_active`
timestamps move from 1000 to the time of the pass, 1002. -/
theorem select_failure_runs_post_select :
    connected_server.map (fun srv =>
        (srv.shutdown, srv.http_listener.last_active,
          srv.http_client.map fun s => s.last_active)) =
      some (false, 1000, [1000]) ∧
    connected_server.map (fun srv => srv.http_client.map fun s => (s.fd, s.flags)) =
      some [(5, 1288)] ∧
    (connected_server.bind (worker_loop sample_cfg (failing_env 1002))).map (fun r =>
        (r.1.shutdown, r.1.http_listener.last_active,
          r.1.http_client.map fun s => s.last_active)) =
      some (true, 1002, [1002]) ∧
    (connected_server.bind (worker_loop sample_cfg (failing_env 1002))).map Prod.snd =
      some [wevent.do_read 3, wevent.do_read 5] := by
  refine ⟨by decide, by decide, by decide, by decide⟩

theorem finalize_returns (fuel : Nat) (e : engine)
    (hq : e.block.route ≠ route_ptr.null →
      ∃ h, route_handler e e.block.route = some h ∧ quiet_at_finalize h) :
    ∃ e1, finalize (fuel + 1) e = some e1 := by
  by_cases h0 : e.block.state = EWS_SESS_REQUEST_BEGIN
  · exact ⟨e, finalize_request_begin _ e h0⟩
  · by_cases hn : e.block.route = route_ptr.null
    · exact ⟨finalize_end e, by simp only [finalize, if_neg h0, if_pos hn]⟩
    · obtain ⟨h, hr, hh⟩ := hq hn
      obtain ⟨st, u1, hp⟩ := hh e.user e.buf e.sess
      exact ⟨_, finalize_quiet fuel e h st u1 h0 hr hp⟩

theorem after_connect_fd (cfg : ews_cfg) (s : sock_slot) : (after_connect cfg s).fd = s.fd := by
  unfold after_connect
  split <;> rfl

theorem after_connect_flags (cfg : ews_cfg) (s : sock_slot) :
    (after_connect cfg s).flags = s.flags := by
  unfold after_connect
  split <;> rfl

theorem after_connect_none (cfg : ews_cfg) (s : sock_slot) (h : s.connect = none) :
    after_connect cfg s = s := by
  unfold after_connect
  rw [h]

theorem close_path_spec (cfg : ews_cfg) (s : sock_slot) (hc : closable cfg s) :
    ∃ s1, close_path cfg s =
        some (s1, [if s.evt = none then wevent.close s.fd else wevent.on_close s.fd]) ∧
      (s.evt = some sock_evt.http → s1 = zero_slot) ∧
      (s.evt = none → s1 = zero_slot) ∧
      (s.evt = some sock_evt.listener → s1 = listener_on_close s) := by
  unfold closable at hc
  unfold close_path
  cases hev : s.evt with
  | none =>
    rw [hev] at hc
    simp only at hc
    obtain ⟨t, ht⟩ := Option.ne_none_iff_exists'.mp hc
    refine ⟨zero_slot, ?_, fun h => (by cases h), fun _ => rfl, fun h => (by cases h)⟩
    simp [ht]
  | some k =>
    cases k with
    | listener =>
      refine ⟨listener_on_close s, ?_, fun h => (by cases h), fun h => (by cases h), fun _ => rfl⟩
      simp
    | http =>
      rw [hev] at hc
      simp only at hc
      obtain ⟨e, t, hu, ho, hf, hq⟩ := hc
      obtain ⟨k, hk⟩ : ∃ k, cfg.fuel = k + 1 := ⟨cfg.fuel - 1, by omega⟩
      obtain ⟨e1, he1⟩ := finalize_returns k (slot_engine s e t) hq
      refine ⟨zero_slot, ?_, fun _ => rfl, fun h => (by cases h), fun h => (by cases h)⟩
      simp [http_on_close, hu, ho, hk, he1]

theorem mem_connect_events (s : sock_slot) (x : wevent) (h : x ∈ connect_events s) :
    x = wevent.connect s.fd := by
  unfold connect_events at h
  split at h
  · simpa using h
  · simp at h

theorem uint32_sub (now la : Nat) (hl : la < 2 ^ 32) :
    (((now + 2 ^ 32 - la) % 2 ^ 32 : Nat) : Int) = ((now : Int) - (la : Int)) % 2 ^ 32 := by
  have h : (2 : Nat) ^ 32 = 4294967296 := by norm_num
  have h2 : (2 : Int) ^ 32 = 4294967296 := by norm_num
  rw [h] at hl ⊢
  rw [h2]
  omega

theorem connected_mask (x : Nat) :
    (x &&& (2 ^ 32 - 1 - EWS_SOCK_FLAG_CONNECTED)) &&& EWS_SOCK_FLAG_CONNECTED = 0 := by
  apply Nat.eq_of_testBit_eq
  intro i
  simp only [Nat.testBit_and, Nat.zero_testBit]
  by_cases hi : i = 10
  · subst hi
    have h : Nat.testBit (2 ^ 32 - 1 - EWS_SOCK_FLAG_CONNECTED) 10 = false := by decide
    rw [h]
    simp
  · have h : Nat.testBit EWS_SOCK_FLAG_CONNECTED i = false := by
      have h2 : EWS_SOCK_FLAG_CONNECTED = 2 ^ 10 := rfl
      rw [h2, Nat.testBit_two_pow]
      simp
      omega
    rw [h]
    simp

theorem slot_ok_zero : slot_ok zero_slot := fun h => absurd rfl h

theorem slot_ok_after_connect (cfg : ews_cfg) (s : sock_slot) (h : slot_ok s) :
    slot_ok (after_connect cfg s) := by
  unfold after_connect
  split
  · intro _ h2; cases h2
  · intro _ h2; cases h2
  · exact h

theorem close_path_ok (cfg : ews_cfg) (s : sock_slot) (c : sock_slot × List wevent)
    (h : close_path cfg s = some c) : slot_ok c.1 := by
  unfold close_path at h
  split at h
  · simp only [http_on_close, Option.map_eq_some', Option.bind_eq_some] at h
    obtain ⟨s1, ⟨e, -, t, -, e1, -, h1⟩, h2⟩ := h
    rw [← h2, ← h1]
    exact slot_ok_zero
  · cases h
    intro hc
    exact absurd (connected_mask s.flags) hc
  · simp only [Option.map_eq_some'] at h
    obtain ⟨t, -, h2⟩ := h
    rw [← h2]
    exact slot_ok_zero

theorem pre_select_tail (cfg : ews_cfg) (s1 : sock_slot) (k : sock_evt) (f : fdsets)
    (ev : List wevent) (r : sock_slot × fdsets × List wevent)
    (h : ((if s1.flags &&& EWS_SOCK_FLAG_CONNECTED = 0 ∧ k = sock_evt.http then
            (http_on_connect cfg s1).map fun s2 => (s2, [wevent.on_connect s1.fd])
          else some (s1, [])).bind fun c =>
        if c.1.flags &&& EWS_SOCK_FLAG_CONNECTED ≠ 0 then
          (evt_want_read k c.1).bind fun wr =>
          (evt_want_write k c.1).bind fun ww =>
            let f1 := if wr = true then fd_set_read c.1.fd f else f
            let f2 := if ww = true then fd_set_write c.1.fd f1 else f1
            some (c.1, f2, ev ++ c.2)
        else some (c.1, f, ev ++ c.2)) = some r) :
    (r.1 = s1 ∧ ¬ (s1.flags &&& EWS_SOCK_FLAG_CONNECTED = 0 ∧ k = sock_evt.http)) ∨
      (k = sock_evt.http ∧ ∃ t, s1.ops = some t ∧ r.1.ops = some t) := by
  obtain ⟨c, hc, hr⟩ := Option.bind_eq_some.mp h
  have hr1 : r.1 = c.1 := by
    by_cases hcn : c.1.flags &&& EWS_SOCK_FLAG_CONNECTED ≠ 0
    · rw [if_pos hcn] at hr
      obtain ⟨wr, -, hr2⟩ := Option.bind_eq_some.mp hr
      obtain ⟨ww, -, hr3⟩ := Option.bind_eq_some.mp hr2
      cases hr3
      rfl
    · rw [if_neg hcn] at hr
      cases hr
      rfl
  by_cases hcond : s1.flags &&& EWS_SOCK_FLAG_CONNECTED = 0 ∧ k = sock_evt.http
  · rw [if_pos hcond] at hc
    right
    simp only [http_on_connect, Option.map_eq_some'] at hc
    obtain ⟨s2, ⟨t, ht, hs2⟩, hc2⟩ := hc
    refine ⟨hcond.2, t, ht, ?_⟩
    rw [hr1, ← hc2, ← hs2]
    exact ht
  · rw [if_neg hcond] at hc
    cases hc
    exact Or.inl ⟨hr1, hcond⟩

theorem pre_select_slot_ok (cfg : ews_cfg) (now : Nat) (s : sock_slot) (f : fdsets)
    (r : sock_slot × fdsets × List wevent) (h : pre_select cfg now s f = some r)
    (hs : slot_ok s) : slot_ok r.1 := by
  unfold pre_select at h
  by_cases hu : s.flags &&& EWS_SOCK_FLAG_INUSE = 0
  · rw [if_pos hu] at h
    cases h
    exact hs
  · rw [if_neg hu] at h
    dsimp only at h
    have hS := slot_ok_after_connect cfg s hs
    by_cases hi : (after_connect cfg s).idle_timeout > 0 ∧
        (now + 2 ^ 32 - (after_connect cfg s).last_active) % 2 ^ 32 >
          (after_connect cfg s).idle_timeout
    · rw [if_pos hi] at h
      obtain ⟨c, hc, hr⟩ := Option.map_eq_some'.mp h
      rw [← hr]
      exact close_path_ok cfg _ c hc
    · rw [if_neg hi] at h
      by_cases hp : (after_connect cfg s).flags &&& EWS_SOCK_FLAG_PEND_CLOSE ≠ 0
      · rw [if_pos hp] at h
        obtain ⟨c, hc, hr⟩ := Option.map_eq_some'.mp h
        rw [← hr]
        exact close_path_ok cfg _ c hc
      · rw [if_neg hp] at h
        cases hev : (after_connect cfg s).evt with
        | none =>
          simp only [hev] at h
          cases h
          exact hS
        | some k =>
          simp only [hev] at h
          rcases pre_select_tail cfg _ k f _ r h with ⟨h1, -⟩ | ⟨-, t, -, h2⟩
          · rw [h1]; exact hS
          · intro _ h3
            rw [h2] at h3
            cases h3

theorem pre_select_listener_ok (cfg : ews_cfg) (now : Nat) (s : sock_slot) (f : fdsets)
    (r : sock_slot × fdsets × List wevent) (h : pre_select cfg now s f = some r)
    (hs : listener_ok s) : listener_ok r.1 := by
  obtain ⟨h1, h2, h3⟩ := hs
  have hS : after_connect cfg s = s := after_connect_none cfg s h1
  have hclose : ∀ c, close_path cfg s = some c → listener_ok c.1 := by
    intro c hc
    unfold close_path at hc
    split at hc
    · rename_i hev; exact absurd hev h3
    · cases hc
      exact ⟨h1, h2, h3⟩
    · rw [h2] at hc
      cases hc
  unfold pre_select at h
  by_cases hu : s.flags &&& EWS_SOCK_FLAG_INUSE = 0
  · rw [if_pos hu] at h
    cases h
    exact ⟨h1, h2, h3⟩
  · rw [if_neg hu] at h
    dsimp only at h
    rw [hS] at h
    by_cases hi : s.idle_timeout > 0 ∧ (now + 2 ^ 32 - s.last_active) % 2 ^ 32 > s.idle_timeout
    · rw [if_pos hi] at h
      obtain ⟨c, hc, hr⟩ := Option.map_eq_some'.mp h
      rw [← hr]
      exact hclose c hc
    · rw [if_neg hi] at h
      by_cases hp : s.flags &&& EWS_SOCK_FLAG_PEND_CLOSE ≠ 0
      · rw [if_pos hp] at h
        obtain ⟨c, hc, hr⟩ := Option.map_eq_some'.mp h
        rw [← hr]
        exact hclose c hc
      · rw [if_neg hp] at h
        cases hev : s.evt with
        | none =>
          simp only [hev] at h
          cases h
          exact ⟨h1, h2, h3⟩
        | some k =>
          simp only [hev] at h
          rcases pre_select_tail cfg _ k f _ r h with ⟨h4, -⟩ | ⟨hk, -⟩
          · rw [h4]; exact ⟨h1, h2, h3⟩
          · rw [hk] at hev
            exact absurd hev h3

theorem pre_select_ref_ok (cfg : ews_cfg) (now : Nat) (s : sock_slot) (f : fdsets)
    (r : sock_slot × fdsets × List wevent) (h : pre_select cfg now s f = some r)
    (ref : slot_ref) (hs : ref_ok ref s) : ref_ok ref r.1 := by
  cases ref with
  | http_listener => exact pre_select_listener_ok cfg now s f r h hs
  | https_listener => exact pre_select_listener_ok cfg now s f r h hs
  | http_client i => exact pre_select_slot_ok cfg now s f r h hs
  | https_client i => exact pre_select_slot_ok cfg now s f r h hs

theorem server_ok_get (srv : ews) (ref : slot_ref) (s : sock_slot) (h : server_ok srv)
    (hg : srv.get ref = some s) : ref_ok ref s := by
  obtain ⟨h1, h2, h3, h4⟩ := h
  cases ref with
  | http_listener => cases hg; exact h3
  | https_listener => cases hg; exact h4
  | http_client i => exact h1 s (List.get?_mem hg)
  | https_client i => exact h2 s (List.get?_mem hg)

theorem server_ok_set (srv : ews) (ref : slot_ref) (s : sock_slot) (h : server_ok srv)
    (hs : ref_ok ref s) : server_ok (srv.set ref s) := by
  obtain ⟨h1, h2, h3, h4⟩ := h
  cases ref with
  | http_listener => exact ⟨h1, h2, hs, h4⟩
  | https_listener => exact ⟨h1, h2, h3, hs⟩
  | http_client i =>
    refine ⟨fun x hx => ?_, h2, h3, h4⟩
    rcases List.mem_or_eq_of_mem_set hx with hx | hx
    · exact h1 x hx
    · rw [hx]; exact hs
  | https_client i =>
    refine ⟨h1, fun x hx => ?_, h3, h4⟩
    rcases List.mem_or_eq_of_mem_set hx with hx | hx
    · exact h2 x hx
    · rw [hx]; exact hs

theorem slot_ok_of_flags (s : sock_slot) (h : s.flags &&& EWS_SOCK_FLAG_CONNECTED = 0) :
    slot_ok s := fun hc => absurd h hc

theorem listener_do_read_ok (env : pass_env) (srv : ews) (l : sock_slot) (h : server_ok srv) :
    server_ok (listener_do_read env srv l) := by
  unfold listener_do_read
  split
  · split
    · exact h
    · split
      · exact server_ok_set srv _ _ h (slot_ok_of_flags _ (by
          show (0 : Nat) &&& EWS_SOCK_FLAG_CONNECTED = 0
          decide))
      · exact server_ok_set srv _ _ h (slot_ok_of_flags _ (by
          show (EWS_SOCK_FLAG_INUSE ||| EWS_SOCK_FLAG_TYPE_CLIENT) &&&
            EWS_SOCK_FLAG_CONNECTED = 0
          decide))
  · split
    · exact h
    · split
      · exact server_ok_set srv _ _ h (slot_ok_of_flags _ (by
          show (0 : Nat) &&& EWS_SOCK_FLAG_CONNECTED = 0
          decide))
      · exact server_ok_set srv _ _ h (slot_ok_of_flags _ (by
          show (EWS_SOCK_FLAG_INUSE ||| EWS_SOCK_FLAG_TYPE_CLIENT ||| EWS_SOCK_FLAG_TLS) &&&
            EWS_SOCK_FLAG_CONNECTED = 0
          decide))

theorem http_do_read_ok (cfg : ews_cfg) (a : List os_read) (s s1 : sock_slot)
    (h : http_do_read cfg a s = some s1) (ref : slot_ref) (hs : ref_ok ref s) :
    ref_ok ref s1 := by
  simp only [http_do_read, Option.bind_eq_some, Option.map_eq_some'] at h
  obtain ⟨e, -, t, ht, e1, -, h1⟩ := h
  have hops : s1.ops = some t := by rw [← h1]; exact ht
  cases ref with
  | http_listener => exact absurd hs.2.1 (by rw [ht]; exact fun hh => by cases hh)
  | https_listener => exact absurd hs.2.1 (by rw [ht]; exact fun hh => by cases hh)
  | http_client i => intro _ h3; rw [hops] at h3; cases h3
  | https_client i => intro _ h3; rw [hops] at h3; cases h3

theorem http_do_write_ok (cfg : ews_cfg) (s s1 : sock_slot)
    (h : http_do_write cfg s = some s1) (ref : slot_ref) (hs : ref_ok ref s) :
    ref_ok ref s1 := by
  simp only [http_do_write, Option.bind_eq_some, Option.map_eq_some'] at h
  obtain ⟨e, -, t, ht, e1, -, h1⟩ := h
  have hops : s1.ops = some t := by rw [← h1]; exact ht
  cases ref with
  | http_listener => exact absurd hs.2.1 (by rw [ht]; exact fun hh => by cases hh)
  | https_listener => exact absurd hs.2.1 (by rw [ht]; exact fun hh => by cases hh)
  | http_client i => intro _ h3; rw [hops] at h3; cases h3
  | https_client i => intro _ h3; rw [hops] at h3; cases h3

theorem ref_ok_last_active (ref : slot_ref) (s : sock_slot) (now : Nat) (h : ref_ok ref s) :
    ref_ok ref { s with last_active := now } := by
  cases ref <;> exact h

theorem post_select_ok (cfg : ews_cfg) (env : pass_env) (rfds wfds : List Int) (ref : slot_ref)
    (srv : ews) (q : ews × List wevent) (h : post_select cfg env rfds wfds ref srv = some q)
    (hs : server_ok srv) : server_ok q.1 := by
  unfold post_select at h
  obtain ⟨s, hg, h⟩ := Option.bind_eq_some.mp h
  have hsr := server_ok_get srv ref s hs hg
  by_cases hc : s.flags &&& EWS_SOCK_FLAG_CONNECTED = 0
  · rw [if_pos hc] at h
    cases h
    exact hs
  · rw [if_neg hc] at h
    obtain ⟨a, ha, h⟩ := Option.bind_eq_some.mp h
    have hA : server_ok a.1 := by
      by_cases hr : s.fd ∈ rfds
      · rw [if_pos hr] at ha
        cases hev : s.evt with
        | none => simp only [hev] at ha; cases ha
        | some k =>
          cases k with
          | listener =>
            simp only [hev] at ha
            cases ha
            exact listener_do_read_ok env _ _
              (server_ok_set srv ref _ hs (by
                have key := ref_ok_last_active ref s env.now hsr
                rw [hev] at key
                exact key))
          | http =>
            simp only [hev] at ha
            obtain ⟨s1, h1, h2⟩ := Option.map_eq_some'.mp ha
            rw [← h2]
            exact server_ok_set srv ref s1 hs
              (http_do_read_ok cfg _ _ s1 h1 ref (by
                have key := ref_ok_last_active ref s env.now hsr
                rw [hev] at key
                exact key))
      · rw [if_neg hr] at ha
        cases ha
        exact hs
    obtain ⟨s1, hg1, h⟩ := Option.bind_eq_some.mp h
    have hsr1 := server_ok_get a.1 ref s1 hA hg1
    obtain ⟨b, hb, hq⟩ := Option.map_eq_some'.mp h
    rw [← hq]
    by_cases hw : s1.fd ∈ wfds
    · rw [if_pos hw] at hb
      cases hev : s1.evt with
      | none => simp only [hev] at hb; cases hb
      | some k =>
        cases k with
        | listener =>
          simp only [hev] at hb
          cases hb
          exact hA
        | http =>
          simp only [hev] at hb
          obtain ⟨s2, h1, h2⟩ := Option.map_eq_some'.mp hb
          rw [← h2]
          exact server_ok_set a.1 ref s2 hA
            (http_do_write_ok cfg _ s2 h1 ref (by
              have key := ref_ok_last_active ref s1 env.now hsr1
              rw [hev] at key
              exact key))
    · rw [if_neg hw] at hb
      cases hb
      exact hA

theorem post_select_all_ok (cfg : ews_cfg) (env : pass_env) (rfds wfds : List Int) :
    ∀ (refs : List slot_ref) (srv : ews) (q : ews × List wevent),
      post_select_all cfg env rfds wfds refs srv = some q → server_ok srv → server_ok q.1 := by
  intro refs
  induction refs with
  | nil =>
    intro srv q h hs
    simp only [post_select_all] at h
    cases h
    exact hs
  | cons r rest ih =>
    intro srv q h hs
    simp only [post_select_all] at h
    obtain ⟨p, hp, h2⟩ := Option.bind_eq_some.mp h
    obtain ⟨z, hz, hq⟩ := Option.map_eq_some'.mp h2
    rw [← hq]
    exact ih p.1 z hz (post_select_ok cfg env rfds wfds r srv p hp hs)

theorem pre_select_all_ok (cfg : ews_cfg) (now : Nat) :
    ∀ (refs : List slot_ref) (srv : ews) (f : fdsets) (q : ews × fdsets × List wevent),
      pre_select_all cfg now refs srv f = some q → server_ok srv → server_ok q.1 := by
  intro refs
  induction refs with
  | nil =>
    intro srv f q h hs
    simp only [pre_select_all] at h
    cases h
    exact hs
  | cons r rest ih =>
    intro srv f q h hs
    simp only [pre_select_all] at h
    obtain ⟨s, hg, h1⟩ := Option.bind_eq_some.mp h
    obtain ⟨p, hp, h2⟩ := Option.bind_eq_some.mp h1
    obtain ⟨z, hz, hq⟩ := Option.map_eq_some'.mp h2
    rw [← hq]
    exact ih _ _ z hz (server_ok_set srv r p.1 hs
      (pre_select_ref_ok cfg now s f p hp r (server_ok_get srv r s hs hg)))

theorem worker_loop_ok (cfg : ews_cfg) (env : pass_env) (srv : ews) (q : ews × List wevent)
    (h : worker_loop cfg env srv = some q) (hs : server_ok srv) : server_ok q.1 := by
  unfold worker_loop at h
  obtain ⟨p, hp, h1⟩ := Option.bind_eq_some.mp h
  have hP := pre_select_all_ok cfg env.now _ srv _ p hp hs
  by_cases h0 : (env.select p.2.1).1 = 0
  · rw [if_pos h0] at h1
    cases h1
    exact hP
  · rw [if_neg h0] at h1
    obtain ⟨z, hz, hq⟩ := Option.map_eq_some'.mp h1
    rw [← hq]
    refine post_select_all_ok cfg env _ _ _ _ z hz ?_
    split
    · exact hP
    · exact hP

theorem listener_init_ok (nh : Nat) (tls : Bool) (fd : Int) (bound : Bool) :
    listener_ok (listener_init nh tls fd bound zero_slot).1 := by
  unfold listener_init
  split
  · exact ⟨rfl, rfl, fun h => by cases h⟩
  · exact ⟨rfl, rfl, fun h => by cases h⟩

theorem listener_ok_zero : listener_ok zero_slot := ⟨rfl, rfl, fun h => by cases h⟩

theorem ews_init_ok (nh ns : Nat) (http : Int × Bool) (https : Option (Int × Bool)) :
    server_ok (ews_init nh ns http https) := by
  refine ⟨fun s hs => ?_, fun s hs => ?_, ?_, ?_⟩
  · rw [(List.mem_replicate.mp hs).2]; exact slot_ok_zero
  · rw [(List.mem_replicate.mp hs).2]; exact slot_ok_zero
  · show listener_ok (if nh > 0 then _ else _)
    split
    · exact listener_init_ok _ _ _ _
    · exact listener_ok_zero
  · show listener_ok (match https with | some a => _ | none => _)
    split
    · split
      · exact listener_init_ok _ _ _ _
      · exact listener_ok_zero
    · exact listener_ok_zero

theorem reachable_ok (cfg : ews_cfg) (srv : ews) (h : reachable cfg srv) : server_ok srv := by
  induction h with
  | init nh ns http https => exact ews_init_ok nh ns http https
  | pass env srv srv1 ev _ hw ih => exact worker_loop_ok cfg env srv (srv1, ev) hw ih
  | task srv i s ok _ hg ih =>
    refine server_ok_set srv _ _ ih ?_
    have hs : slot_ok s := server_ok_get srv (slot_ref.https_client i) s ih hg
    show slot_ok (ews_connect_tls_task ok s)
    unfold ews_connect_tls_task
    split
    · exact hs
    · exact slot_ok_zero

/-- C36 (as stated, refuted): a listener that `listener_init` has set up has its
connected flag set and no transport: nothing ever stores a transport table in a listener
slot. -/
theorem connected_listener_without_transport :
    reachable sample_cfg sample_server ∧
    sample_server.http_listener.flags &&& EWS_SOCK_FLAG_CONNECTED ≠ 0 ∧
    sample_server.http_listener.ops = none ∧
    sample_server.http_listener.evt = some sock_evt.listener :=
  ⟨reachable.init 1 0 (3, true) none, by decide, rfl, rfl⟩

/-- C36 (amended): in every reachable state of the server, every client slot, plain or
TLS, whose connected flag is set has a transport table; the two listener slots have none,
whether their connected flag is set or not. -/
theorem connected_client_has_transport (cfg : ews_cfg) (srv : ews) (h : reachable cfg srv) :
    (∀ s, s ∈ srv.http_client ∨ s ∈ srv.https_client →
      s.flags &&& EWS_SOCK_FLAG_CONNECTED ≠ 0 → s.ops ≠ none) ∧
    srv.http_listener.ops = none ∧ srv.https_listener.ops = none := by
  obtain ⟨h1, h2, h3, h4⟩ := reachable_ok cfg srv h
  refine ⟨fun s hs => ?_, h3.2.1, h4.2.1⟩
  rcases hs with hs | hs
  · exact h1 s hs
  · exact h2 s hs

theorem connected_client_has_transport_witness :
    connected_server.map (fun srv => srv.http_client.map fun s => (s.fd, s.flags)) =
      some [(5, 1288)] ∧
    ∃ srv, connected_server = some srv ∧ reachable sample_cfg srv ∧
      (∀ s, s ∈ srv.http_client ∨ s ∈ srv.https_client →
        s.flags &&& EWS_SOCK_FLAG_CONNECTED ≠ 0 → s.ops ≠ none) ∧
      srv.http_listener.ops = none ∧ srv.https_listener.ops = none := by
  refine ⟨by decide, ?_⟩
  have hsome : connected_server.isSome = true := by decide
  obtain ⟨srv, hsrv⟩ := Option.isSome_iff_exists.mp hsome
  have hdef := hsrv
  unfold connected_server at hdef
  obtain ⟨r, hr, h2⟩ := Option.bind_eq_some.mp hdef
  obtain ⟨r2, hr2, h3⟩ := Option.map_eq_some'.mp h2
  have hreach : reachable sample_cfg srv := by
    rw [← h3]
    exact reachable.pass _ r.1 r2.1 r2.2
      (reachable.pass _ sample_server r.1 r.2 (reachable.init 1 0 (3, true) none) hr) hr2
  exact ⟨srv, hsrv, hreach, connected_client_has_transport sample_cfg srv hreach⟩

/-! ## Theorems: routes that match the path and are not invoked -/

theorem glob_literal (s : List Nat) (h : ∀ c ∈ s, c ≠ 42 ∧ c ≠ 63) : Glob s s := by
  induction s with
  | nil => exact Glob.nil
  | cons c t ih =>
    exact Glob.lit c t t (h c (List.mem_cons_self c t)).1 (h c (List.mem_cons_self c t)).2
      (ih fun x hx => h x (List.mem_cons_of_mem c hx))

/-- C1: `request_begin` leaves out routes whose pattern matches the path.  With the single
route `/*.html`, the request `GET /a.h.html HTTP/1.1` invokes only the built-in 404
handler, which becomes the route of the request, although the pattern matches the path
`/a.h.html` in the glob dialect: `fnmatch` does not take the string back after a mismatch
behind the `*`.  With the single route `/a/b`, the request `GET /a//b HTTP/1.1` has the
normalized path `/a/b` (`path_len` 4), equal to the pattern, and again only the 404
handler is invoked: the path is not terminated, and the string handed to `fnmatch` is
`/a/bb`.  The request `GET /a/b HTTP/1.1` does invoke the route. -/
theorem request_begin_skips_matching_route :
    (request_begin 1 (fresh_engine [⟨bytes "/*.html", ews_route_test_handler⟩] 64
        (bytes "GET /a.h.html HTTP/1.1\r\n"))).map
        (fun r => (r.2, r.1.events, r.1.block.route,
          text ((r.1.buf.drop (r.1.sess.path.getD 0)).take r.1.sess.path_len))) =
      some (false,
        [event.call route_ptr.r404 EWS_SESS_REQUEST_BEGIN 1, event.ret EWS_ROUTE_STATUS_FOUND],
        route_ptr.r404, "/a.h.html") ∧
    Glob (bytes "/*.html") (bytes "/a.h.html") ∧
    (request_begin 1 (fresh_engine [⟨bytes "/a/b", ews_route_test_handler⟩] 64
        (bytes "GET /a//b HTTP/1.1\r\n"))).map
        (fun r => (r.2, r.1.events, r.1.block.route,
          text ((r.1.buf.drop (r.1.sess.path.getD 0)).take r.1.sess.path_len),
          text (cstring r.1.buf (r.1.sess.path.getD 0)))) =
      some (false,
        [event.call route_ptr.r404 EWS_SESS_REQUEST_BEGIN 1, event.ret EWS_ROUTE_STATUS_FOUND],
        route_ptr.r404, "/a/b", "/a/bb") ∧
    Glob (bytes "/a/b") (bytes "/a/b") ∧
    (request_begin 1 (fresh_engine [⟨bytes "/a/b", ews_route_test_handler⟩] 64
        (bytes "GET /a/b HTTP/1.1\r\n"))).map
        (fun r => (r.2, r.1.events, r.1.block.route)) =
      some (false,
        [event.call (route_ptr.user 0) EWS_SESS_REQUEST_BEGIN 1,
          event.ret EWS_ROUTE_STATUS_FOUND],
        route_ptr.user 0) := by
  refine ⟨by decide, ?_, by decide, glob_literal _ (by decide), by decide⟩
  exact Glob.lit 47 _ _ (by decide) (by decide)
    (Glob.star (bytes "a.h") (bytes ".html") (bytes ".html") (glob_literal _ (by decide)))

end Ews
